import Mathlib

/-!
# Snapshot merge, company ingest and bulk replication

A shallow embedding of `merger/scrape_github.go`, `merger/supabase_sync.go` and
`merger/scrape_tags.go`.

* Go maps and SQL tables are lists of entries in iteration / storage order whose
  keys are pairwise distinct when well formed (`KeysNodup`); `lookupBy` reads the entry
  with a given key and `upsertBy` is the assignment `m[k] = v` / `INSERT .. ON CONFLICT
  (key) DO UPDATE SET <every other column> = EXCLUDED.<column>`.
* `int64` / `int` values are `Int`, `time.Time` and `now()` are `Nat` instants,
  `sql.NullString` / `sql.NullFloat64` are `Option`s.  The floating point payload of a
  percentage is only ever copied, so it is carried as an uninterpreted `Int` code.
* A statement that the store may refuse (lost connection, constraint violation, ...) takes
  its outcome from an explicit fault description, so every theorem quantified over faults
  covers every such refusal.
* A result stream of the source store may break before its last row; the loop
  `for rows.Next()` then ends as at the end of the table (`delivered`).
-/

namespace Merger

/-! ## Keyed lists -/

/-- Entry of `t` whose key is `k`, if any (the first one in storage order). -/
def lookupBy {R K : Type} [DecidableEq K] (key : R → K) : List R → K → Option R
  | [], _ => none
  | x :: t, k => if key x = k then some x else lookupBy key t k

/-- Write `r` under its key: overwrite the entry with the same key in place, else append. -/
def upsertBy {R K : Type} [DecidableEq K] (key : R → K) : List R → R → List R
  | [], r => [r]
  | x :: t, r => if key x = key r then r :: t else x :: upsertBy key t r

/-- Keys are pairwise distinct: the invariant of a Go map and of a primary key. -/
def KeysNodup {R K : Type} (key : R → K) (t : List R) : Prop :=
  (t.map key).Nodup

instance {R K : Type} [DecidableEq K] (key : R → K) (t : List R) :
    Decidable (KeysNodup key t) := by
  unfold KeysNodup; infer_instance

/-- Go `map[K]V`, entries in iteration order. -/
abbrev GoMap (K V : Type) := List (K × V)

/-- Read `m[k]` with the comma-ok idiom. -/
def GoMap.get? {K V : Type} [DecidableEq K] (m : GoMap K V) (k : K) : Option V :=
  (lookupBy Prod.fst m k).map Prod.snd

/-- Read `m[k]`, the zero value `d` when the key is absent. -/
def GoMap.getD {K V : Type} [DecidableEq K] (m : GoMap K V) (k : K) (d : V) : V :=
  (m.get? k).getD d

/-- Assignment `m[k] = v`. -/
def GoMap.set {K V : Type} [DecidableEq K] (m : GoMap K V) (k : K) (v : V) : GoMap K V :=
  upsertBy Prod.fst m (k, v)

/-- Key test `_, ok := m[k]`. -/
def GoMap.contains {K V : Type} [DecidableEq K] (m : GoMap K V) (k : K) : Bool :=
  (m.get? k).isSome

/-! ## scrape_github.go: data model -/

/-- Payload of a `float64`, carried uninterpreted. -/
abbrev Float64 := Int

/-- Instants (`time.Time`, `now()`). -/
abbrev Time := Nat

/-- Go `sql.NullFloat64`. -/
abbrev NullFloat64 := Option Float64

/-- Go `sql.NullString`. -/
abbrev NullString := Option String

/-- One parsed CSV row. -/
structure RawProblem where
  ID : Int
  URL : String
  Title : String
  Difficulty : String
  Acceptance : NullFloat64
  Frequency : NullFloat64
  SourceFile : String
  deriving DecidableEq, Repr

/-- Error returned by `readCSVFile`: the file does not exist (`os.IsNotExist`), or any
other read / parse error. -/
inductive ReadErr where
  | notExist
  | other (msg : String)
  deriving DecidableEq, Repr

/-- Result `(m, err)` of `readCSVFile(path, sourceKey)`. -/
abbrev ReadResult := Except ReadErr (GoMap Int RawProblem)

/-- Results of reading the five window files of one company directory. -/
structure Files where
  all : ReadResult
  moreThanSix : ReadResult
  sixMonths : ReadResult
  threeMonths : ReadResult
  thirtyDays : ReadResult

/-- Per-company accumulators of `scrapeGithubMain`. -/
structure MergeState where
  meta : GoMap Int RawProblem
  inThirtyDays : GoMap Int Bool
  inThreeMonths : GoMap Int Bool
  inSixMonths : GoMap Int Bool
  sourceFor : GoMap Int String
  deriving DecidableEq, Repr

/-- Accumulators before the first file is merged. -/
def MergeState.empty : MergeState :=
  { meta := [], inThirtyDays := [], inThreeMonths := [], inSixMonths := [], sourceFor := [] }

/-- Body of the loop `for id, rp := range m` inside `mergeFile`. -/
def mergeEntry (sourceKey : String) (st : MergeState) (e : Int × RawProblem) : MergeState :=
  let id := e.1
  let rp := e.2
  let st1 : MergeState :=
    if sourceKey = "all" then
      { st with meta := st.meta.set id rp }
    else if st.meta.contains id then st
    else { st with meta := st.meta.set id rp }
  let st2 : MergeState := { st1 with sourceFor := st1.sourceFor.set id sourceKey }
  if sourceKey = "thirty-days" then
    { st2 with inThirtyDays := st2.inThirtyDays.set id true }
  else if sourceKey = "three-months" then
    { st2 with inThreeMonths := st2.inThreeMonths.set id true }
  else if sourceKey = "six-months" then
    { st2 with inSixMonths := st2.inSixMonths.set id true }
  else st2

/-- Closure `mergeFile(path, sourceKey)`; `r` is what `readCSVFile(path, sourceKey)` returned.
Both error branches return without touching the accumulators. -/
def mergeFile (r : ReadResult) (sourceKey : String) (st : MergeState) : MergeState :=
  match r with
  | .error .notExist => st
  | .error (.other _) => st
  | .ok m => m.foldl (mergeEntry sourceKey) st

/-- The five `mergeFile` calls, in the order of the source. -/
def mergeAll (f : Files) : MergeState :=
  mergeFile f.thirtyDays "thirty-days"
    (mergeFile f.threeMonths "three-months"
      (mergeFile f.sixMonths "six-months"
        (mergeFile f.moreThanSix "more-than-six"
          (mergeFile f.all "all" MergeState.empty))))

/-- Timeframe tag computed in the write loop from the presence flags. -/
def timeFrameTag (st : MergeState) (id : Int) : Option String :=
  if st.inThirtyDays.getD id false then some "thirty-days"
  else if st.inThreeMonths.getD id false then some "three-months"
  else if st.inSixMonths.getD id false then some "six-months"
  else none

/-- Record set of a window: the map that was read, empty when reading failed. -/
def records (r : ReadResult) : GoMap Int RawProblem :=
  match r with
  | .ok m => m
  | .error _ => []

/-! ## Store schema (rows as scanned by supabase_sync.go) -/

/-- Row of `companies`. -/
structure Company where
  ID : Int
  Name : NullString
  deriving DecidableEq, Repr

/-- Row of `problems`. -/
structure Problem where
  ID : Int
  URL : NullString
  Title : NullString
  Difficulty : NullString
  Acceptance : NullFloat64
  Frequency : NullFloat64
  UpdatedAt : Time
  deriving DecidableEq, Repr

/-- Row of `problem_tags`. -/
structure ProblemTag where
  ProblemID : Int
  Tag : String
  AddedAt : Time
  deriving DecidableEq, Repr

/-- Row of `company_problems`. -/
structure CompanyProblem where
  CompanyID : Int
  ProblemID : Int
  SourceFile : NullString
  Timeframe : NullString
  LastSeen : Time
  deriving DecidableEq, Repr

/-- Primary key of `problem_tags`. -/
def ProblemTag.key (t : ProblemTag) : Int × String := (t.ProblemID, t.Tag)

/-- Primary key of `company_problems`. -/
def CompanyProblem.key (cp : CompanyProblem) : Int × Int := (cp.CompanyID, cp.ProblemID)

/-- A store: the four tables and the serial sequence behind `companies.id`
(`companies_id_seq` is the value the sequence handed out last; `nextval` returns the
successor; sequence bounds are not modelled). -/
structure DB where
  companies : List Company
  companies_id_seq : Int
  problems : List Problem
  problem_tags : List ProblemTag
  company_problems : List CompanyProblem
  deriving DecidableEq, Repr

/-- Primary keys of the four tables are unique. -/
def DB.WF (db : DB) : Prop :=
  KeysNodup Company.ID db.companies ∧ KeysNodup Problem.ID db.problems ∧
  KeysNodup ProblemTag.key db.problem_tags ∧ KeysNodup CompanyProblem.key db.company_problems

instance (db : DB) : Decidable db.WF := by
  unfold DB.WF; infer_instance

/-! ## scrape_github.go: writes -/

/-- Query `SELECT id FROM companies WHERE name=$1`. -/
def selectCompanyID (db : DB) (name : String) : Option Int :=
  (db.companies.find? (fun c => decide (c.Name = some name))).map Company.ID

/-- Statement `INSERT INTO companies (name) VALUES ($1) ON CONFLICT (name) DO UPDATE SET
name=EXCLUDED.name RETURNING id`.  The default `nextval` of the id column is taken before
the conflict on `name` is detected; a fresh id that is already a key violates the
primary key. -/
def insertCompanyReturningID (db : DB) (name : String) : DB × Except String Int :=
  let id := db.companies_id_seq + 1
  let db1 : DB := { db with companies_id_seq := id }
  match selectCompanyID db1 name with
  | some existing => (db1, .ok existing)
  | none =>
    if (lookupBy Company.ID db1.companies id).isSome then
      (db1, .error "pq: duplicate key value violates unique constraint")
    else
      ({ db1 with companies := db1.companies ++ [{ ID := id, Name := some name }] }, .ok id)

/-- Fallback `err = db.Get(&id, SELECT id FROM companies WHERE name=$1)` of `upsertCompany`;
`sql.ErrNoRows` when no company has the name. -/
def selectCompanyAfterError (db : DB) (name : String) : DB × Except String Int :=
  match selectCompanyID db name with
  | some id => (db, .ok id)
  | none => (db, .error "sql: no rows in result set")

/-- Function `upsertCompany(db, name)`, executed on the connection itself (autocommit);
`fault` is the error with which the store refuses the INSERT. -/
def upsertCompany (fault : Option String) (db : DB) (name : String) : DB × Except String Int :=
  let first : DB × Except String Int :=
    match fault with
    | some msg => (db, .error msg)
    | none => insertCompanyReturningID db name
  match first with
  | (db1, .ok id) => (db1, .ok id)
  | (db1, .error msg) =>
    if "RETURNING".data <:+: msg.data then selectCompanyAfterError db1 name
    else (db1, .error msg)

/-- Function `nullableFloat64`. -/
def nullableFloat64 (n : NullFloat64) : Option Float64 :=
  match n with
  | some f => some f
  | none => none

/-- Row written by `upsertProblem` at time `now`. -/
def problemRow (now : Time) (p : RawProblem) : Problem :=
  { ID := p.ID, URL := some p.URL, Title := some p.Title, Difficulty := some p.Difficulty,
    Acceptance := nullableFloat64 p.Acceptance, Frequency := nullableFloat64 p.Frequency,
    UpdatedAt := now }

/-- Function `upsertProblem(tx, p)`: new transaction state and the error, if any. -/
def upsertProblem (fault : Bool) (now : Time) (tx : DB) (p : RawProblem) : DB × Option String :=
  if fault then (tx, some "upsert problem failed")
  else ({ tx with problems := upsertBy Problem.ID tx.problems (problemRow now p) }, none)

/-- Row written by `upsertCompanyProblem` at time `now`; a nil tag is stored as NULL. -/
def companyProblemRow (now : Time) (companyID problemID : Int) (sourceFile : String)
    (timeFrameTag : Option String) : CompanyProblem :=
  let tf : Option String :=
    match timeFrameTag with
    | some s => some s
    | none => none
  { CompanyID := companyID, ProblemID := problemID, SourceFile := some sourceFile,
    Timeframe := tf, LastSeen := now }

/-- Function `upsertCompanyProblem(tx, companyID, problemID, sourceFile, timeFrameTag)`. -/
def upsertCompanyProblem (fault : Bool) (now : Time) (tx : DB) (companyID problemID : Int)
    (sourceFile : String) (timeFrameTag : Option String) : DB × Option String :=
  let row := companyProblemRow now companyID problemID sourceFile timeFrameTag
  if fault then (tx, some "upsert company_problem failed")
  else ({ tx with company_problems := upsertBy CompanyProblem.key tx.company_problems row }, none)

/-- Refusals of the store during one company's pass. -/
structure Faults where
  upsertCompany : Option String
  beginx : Bool
  upsertProblem : Int → Bool
  upsertCompanyProblem : Int → Bool
  commit : Bool

/-- A pass in which the store refuses nothing. -/
def Faults.none : Faults :=
  { upsertCompany := Option.none, beginx := false, upsertProblem := fun _ => false,
    upsertCompanyProblem := fun _ => false, commit := false }

/-- Body of the write loop `for id, rp := range meta`. -/
def writeEntry (f : Faults) (now : Time) (companyID : Int) (st : MergeState) (tx : DB)
    (e : Int × RawProblem) : DB :=
  let id := e.1
  let rp := e.2
  match upsertProblem (f.upsertProblem id) now tx rp with
  | (tx1, some _) => tx1
  | (tx1, Option.none) =>
    let tag := timeFrameTag st id
    let src := st.sourceFor.getD id ""
    (upsertCompanyProblem (f.upsertCompanyProblem id) now tx1 companyID id src tag).1

/-- Body of the loop over company directories in `scrapeGithubMain`: merge the five
files, upsert the company, then write every merged problem and association inside one
transaction (`now` is the transaction's `now()`). -/
def processCompany (f : Faults) (now : Time) (files : Files) (companyName : String)
    (db : DB) : DB :=
  let st := mergeAll files
  match upsertCompany f.upsertCompany db companyName with
  | (db1, .error _) => db1
  | (db1, .ok companyID) =>
    if f.beginx then db1
    else
      let tx := st.meta.foldl (writeEntry f now companyID st) db1
      if f.commit then db1 else tx

/-- Entry of `os.ReadDir(root)`. -/
structure DirEntry where
  Name : String
  IsDir : Bool

/-- What one run of `scrapeGithubMain` meets outside the store, per company directory. -/
structure Env where
  files : String → Files
  faults : String → Faults
  now : String → Time

/-- Function `scrapeGithubMain`, after the connection is established. -/
def scrapeGithubMain (env : Env) (companies : List DirEntry) (db : DB) : DB :=
  companies.foldl
    (fun db c =>
      if !c.IsDir then db
      else if c.Name.startsWith "." then db
      else processCompany (env.faults c.Name) (env.now c.Name) (env.files c.Name) c.Name db)
    db

/-! ## supabase_sync.go -/

/-- Steps of one table sync at which the store can refuse. -/
inductive SyncStep where
  | beginTx | createTemp | prepare | selectLocal | scan | copyExec | finalExec | closeStmt
  | upsert | commit
  deriving DecidableEq, Repr

/-- What one table sync can meet: the step at which a store refuses, if any, and the
number of rows after which the stream of the source `SELECT` breaks, if it does. -/
structure TableSync where
  fault : Option SyncStep
  readStop : Option Nat
  deriving DecidableEq, Repr

/-- A table sync in which nothing is refused and the source stream delivers every row. -/
def TableSync.none : TableSync := { fault := Option.none, readStop := Option.none }

/-- Rows the loop `for rows.Next()` iterates over: those of the source table, or the
first `k` of them when the stream breaks after `k` rows.  `rows.Next()` returns false on
a broken stream as it does at the end of the result set; the error is held by
`rows.Err()`, which no sync calls. -/
def delivered {R : Type} (readStop : Option Nat) (rows : List R) : List R :=
  match readStop with
  | Option.none => rows
  | some k => rows.take k

/-- Function `bulkSyncCompanies`: new destination state and the returned error.  `tx` is
the transaction's view of the destination; every error return leaves `remote` as it
was (deferred `Rollback`). -/
def bulkSyncCompanies (s : TableSync) (localDB remote : DB) : DB × Option String :=
  let fault := s.fault
  if fault = some .beginTx then (remote, some "begin tx") else
  let tx := remote
  if fault = some .createTemp then (remote, some "create temp table") else
  if fault = some .prepare then (remote, some "prepare copyin") else
  if fault = some .selectLocal then (remote, some "select local companies") else
  if fault = some .scan then (remote, some "scan company") else
  if fault = some .copyExec then (remote, some "copy exec company") else
  let temp_companies : List Company :=
    (delivered s.readStop localDB.companies).map (fun c =>
      { ID := c.ID, Name := match c.Name with | some s => some s | none => none })
  if fault = some .finalExec then (remote, some "final copy exec") else
  if fault = some .closeStmt then (remote, some "close copy stmt") else
  if fault = some .upsert then (remote, some "upsert companies") else
  let tx : DB := { tx with companies := temp_companies.foldl (upsertBy Company.ID) tx.companies }
  if fault = some .commit then (remote, some "commit companies tx") else
  (tx, none)

/-- Function `bulkSyncProblems`. -/
def bulkSyncProblems (s : TableSync) (localDB remote : DB) : DB × Option String :=
  let fault := s.fault
  if fault = some .beginTx then (remote, some "begin tx") else
  let tx := remote
  if fault = some .createTemp then (remote, some "create temp problems") else
  if fault = some .prepare then (remote, some "prepare copyin problems") else
  if fault = some .selectLocal then (remote, some "select local problems") else
  if fault = some .scan then (remote, some "scan problem") else
  if fault = some .copyExec then (remote, some "copy exec problem") else
  let temp_problems : List Problem :=
    (delivered s.readStop localDB.problems).map (fun p =>
      { ID := p.ID,
        URL := match p.URL with | some s => some s | none => none,
        Title := match p.Title with | some s => some s | none => none,
        Difficulty := match p.Difficulty with | some s => some s | none => none,
        Acceptance := match p.Acceptance with | some x => some x | none => none,
        Frequency := match p.Frequency with | some x => some x | none => none,
        UpdatedAt := p.UpdatedAt })
  if fault = some .finalExec then (remote, some "final copy exec problems") else
  if fault = some .closeStmt then (remote, some "close stmt problems") else
  if fault = some .upsert then (remote, some "upsert problems") else
  let tx : DB := { tx with problems := temp_problems.foldl (upsertBy Problem.ID) tx.problems }
  if fault = some .commit then (remote, some "commit problems tx") else
  (tx, none)

/-- Function `bulkSyncProblemTags`. -/
def bulkSyncProblemTags (s : TableSync) (localDB remote : DB) : DB × Option String :=
  let fault := s.fault
  if fault = some .beginTx then (remote, some "begin tx tags") else
  let tx := remote
  if fault = some .createTemp then (remote, some "create temp_problem_tags") else
  if fault = some .prepare then (remote, some "prepare copyin tags") else
  if fault = some .selectLocal then (remote, some "select local tags") else
  if fault = some .scan then (remote, some "scan tag") else
  if fault = some .copyExec then (remote, some "copy exec tag") else
  let temp_problem_tags : List ProblemTag :=
    (delivered s.readStop localDB.problem_tags).map (fun t =>
      { ProblemID := t.ProblemID, Tag := t.Tag, AddedAt := t.AddedAt })
  if fault = some .finalExec then (remote, some "final copy exec tags") else
  if fault = some .closeStmt then (remote, some "close stmt tags") else
  if fault = some .upsert then (remote, some "upsert tags") else
  let tx : DB :=
    { tx with problem_tags := temp_problem_tags.foldl (upsertBy ProblemTag.key) tx.problem_tags }
  if fault = some .commit then (remote, some "commit tags tx") else
  (tx, none)

/-- Function `bulkSyncCompanyProblems`. -/
def bulkSyncCompanyProblems (s : TableSync) (localDB remote : DB) :
    DB × Option String :=
  let fault := s.fault
  if fault = some .beginTx then (remote, some "begin tx company_problems") else
  let tx := remote
  if fault = some .createTemp then (remote, some "create temp_company_problems") else
  if fault = some .prepare then (remote, some "prepare copyin company_problems") else
  if fault = some .selectLocal then (remote, some "select local company_problems") else
  if fault = some .scan then (remote, some "scan company_problem") else
  if fault = some .copyExec then (remote, some "copy exec company_problem") else
  let temp_company_problems : List CompanyProblem :=
    (delivered s.readStop localDB.company_problems).map (fun cp =>
      { CompanyID := cp.CompanyID, ProblemID := cp.ProblemID,
        SourceFile := match cp.SourceFile with | some s => some s | none => none,
        Timeframe := match cp.Timeframe with | some s => some s | none => none,
        LastSeen := cp.LastSeen })
  if fault = some .finalExec then (remote, some "final copy exec company_problems") else
  if fault = some .closeStmt then (remote, some "close stmt company_problems") else
  if fault = some .upsert then (remote, some "upsert company_problems") else
  let tx : DB :=
    { tx with company_problems :=
        temp_company_problems.foldl (upsertBy CompanyProblem.key) tx.company_problems }
  if fault = some .commit then (remote, some "commit company_problems tx") else
  (tx, none)

/-- SQL aggregate `MAX` over a column: NULL on no rows. -/
def sqlMax : List Int → Option Int
  | [] => none
  | x :: t => some (t.foldl max x)

/-- Function `fixSerialSequence(remote, tableName, columnName)`: `setval` of the column's
serial sequence to `COALESCE(MAX(column), 0)`.  Only `companies.id` owns a sequence; for
any other column `pg_get_serial_sequence` is NULL and `setval` does nothing. -/
def fixSerialSequence (fault : Bool) (remote : DB) (tableName columnName : String) :
    DB × Option String :=
  if fault then (remote, some ("fix sequence " ++ tableName ++ "." ++ columnName))
  else if tableName = "companies" ∧ columnName = "id" then
    ({ remote with
        companies_id_seq := (sqlMax (remote.companies.map Company.ID)).getD 0 }, none)
  else (remote, none)

/-- What the four table syncs and the sequence repair of one replication run meet. -/
structure SyncFaults where
  companies : TableSync
  problems : TableSync
  problem_tags : TableSync
  company_problems : TableSync
  fixSequence : Bool

/-- A replication run in which the stores refuse nothing and no source stream breaks. -/
def SyncFaults.none : SyncFaults :=
  { companies := TableSync.none, problems := TableSync.none, problem_tags := TableSync.none,
    company_problems := TableSync.none, fixSequence := false }

/-- Every source stream of the run delivers every row of its table. -/
def SyncFaults.ReadsComplete (f : SyncFaults) (localDB : DB) : Prop :=
  delivered f.companies.readStop localDB.companies = localDB.companies ∧
  delivered f.problems.readStop localDB.problems = localDB.problems ∧
  delivered f.problem_tags.readStop localDB.problem_tags = localDB.problem_tags ∧
  delivered f.company_problems.readStop localDB.company_problems = localDB.company_problems

instance (f : SyncFaults) (localDB : DB) : Decidable (f.ReadsComplete localDB) := by
  unfold SyncFaults.ReadsComplete; infer_instance

/-- Outcome of `supabaseSyncMain`: the destination, the lines it logged with
`log.Println`, and the `log.Fatalf` message that ended the process, if any. -/
structure SyncRun where
  remote : DB
  log : List String
  fatal : Option String
  deriving DecidableEq, Repr

/-- Function `supabaseSyncMain`, after both connections are established. -/
def supabaseSyncMain (f : SyncFaults) (localDB remote : DB) : SyncRun :=
  let log := ["syncing companies (bulk)..."]
  match bulkSyncCompanies f.companies localDB remote with
  | (r1, some e) => { remote := r1, log := log, fatal := some ("companies sync failed: " ++ e) }
  | (r1, Option.none) =>
  let log := log ++ ["syncing problems (bulk)..."]
  match bulkSyncProblems f.problems localDB r1 with
  | (r2, some e) => { remote := r2, log := log, fatal := some ("problems sync failed: " ++ e) }
  | (r2, Option.none) =>
  let log := log ++ ["syncing problem_tags (bulk)..."]
  match bulkSyncProblemTags f.problem_tags localDB r2 with
  | (r3, some e) =>
    { remote := r3, log := log, fatal := some ("problem_tags sync failed: " ++ e) }
  | (r3, Option.none) =>
  let log := log ++ ["syncing company_problems (bulk)..."]
  match bulkSyncCompanyProblems f.company_problems localDB r3 with
  | (r4, some e) =>
    { remote := r4, log := log, fatal := some ("company_problems sync failed: " ++ e) }
  | (r4, Option.none) =>
  let log := log ++ ["fixing sequences..."]
  match fixSerialSequence f.fixSequence r4 "companies" "id" with
  | (r5, some e) => { remote := r5, log := log, fatal := some ("fix sequence failed: " ++ e) }
  | (r5, Option.none) => { remote := r5, log := log ++ ["bulk sync complete"], fatal := Option.none }

/-! ## scrape_github.go: reading a window file -/

/-- Go `unicode.IsSpace`: the white space `strings.TrimSpace` removes. -/
def isSpace (c : Char) : Bool :=
  let n := c.toNat
  (9 ≤ n && n ≤ 13) || n = 32 || n = 0x85 || n = 0xA0 || n = 0x1680 ||
  (0x2000 ≤ n && n ≤ 0x200A) || n = 0x2028 || n = 0x2029 || n = 0x202F || n = 0x205F ||
  n = 0x3000

/-- Go `strings.TrimSpace` on the characters of a string. -/
def trimSpaceChars (cs : List Char) : List Char :=
  ((cs.dropWhile isSpace).reverse.dropWhile isSpace).reverse

/-- Go `strings.TrimSpace`. -/
def TrimSpace (s : String) : String := String.mk (trimSpaceChars s.data)

/-- Go `strings.TrimSuffix`. -/
def TrimSuffix (s suffix : String) : String :=
  if suffix.data <:+ s.data then String.mk (s.data.take (s.data.length - suffix.data.length))
  else s

/-- Errors of `strconv.ParseInt`: `ErrSyntax` and `ErrRange`. -/
inductive NumError where
  | ErrSyntax
  | ErrRange
  deriving DecidableEq, Repr

/-- Loop of `strconv.ParseUint(s, 10, 64)` over the characters of `s`, on the value `n`
read so far.  A character that is not a decimal digit ends it with `ErrSyntax`, a value
that leaves `uint64` ends it with `ErrRange`, whichever is met first from the left. -/
def parseUintLoop : List Char → Nat → Except NumError Nat
  | [], n => .ok n
  | c :: cs, n =>
    if 48 ≤ c.toNat ∧ c.toNat ≤ 57 then
      let d := c.toNat - 48
      let cutoff := (2 ^ 64 - 1) / 10 + 1
      if n ≥ cutoff then .error .ErrRange
      else
        let n1 := n * 10 + d
        if n1 > 2 ^ 64 - 1 then .error .ErrRange
        else parseUintLoop cs n1
    else .error .ErrSyntax

/-- Go `strconv.ParseUint(s, 10, 64)` on the characters of `s`. -/
def ParseUint (s : List Char) : Except NumError Nat :=
  if s = [] then .error .ErrSyntax else parseUintLoop s 0

/-- Go `strconv.ParseInt(s, 10, 64)`: an optional sign, then `ParseUint` on the rest; a
syntax error of `ParseUint` is returned as it is, and a value outside `int64`, or a range
error of `ParseUint`, is `ErrRange`. -/
def ParseInt (s : String) : Except NumError Int :=
  match s.data with
  | [] => .error .ErrSyntax
  | c :: cs =>
    let neg := decide (c = '-')
    let ds := if c = '+' ∨ c = '-' then cs else c :: cs
    match ParseUint ds with
    | .error .ErrSyntax => .error .ErrSyntax
    | .error .ErrRange => .error .ErrRange
    | .ok un =>
      let cutoff := 2 ^ 63
      if neg = false ∧ un ≥ cutoff then .error .ErrRange
      else if neg = true ∧ un > cutoff then .error .ErrRange
      else if neg then .ok (-(un : Int)) else .ok (un : Int)

/-- Function `parsePercent`; `parseFloat` stands for `strconv.ParseFloat(s, 64)`.  The
second component tells whether an error is returned. -/
def parsePercent (parseFloat : String → Option Float64) (s : String) : NullFloat64 × Bool :=
  let s := TrimSpace s
  if s = "" then (none, false)
  else
    let s := TrimSuffix s "%"
    let s := TrimSpace s
    if s = "" then (none, false)
    else
      match parseFloat s with
      | none => (none, true)
      | some f => (some f, false)

/-- Arguments of the warning `readCSVFile` logs for a row it skips:
`skipping row with invalid ID '%s' in file '%s': %v`. -/
structure SkipWarning where
  idStr : String
  sourceFile : String
  err : NumError
  deriving DecidableEq, Repr

/-- Loop `for i, h := range header` of `readCSVFile` from index `i` on: `colIdx[h] = i`
for the trimmed header name `h`. -/
def headerIndexFrom : Nat → GoMap String Nat → List String → GoMap String Nat
  | _, m, [] => m
  | i, m, h :: hs => headerIndexFrom (i + 1) (m.set (TrimSpace h) i) hs

/-- Map `colIdx` of `readCSVFile`: trimmed header name to column index. -/
def headerIndex (header : List String) : GoMap String Nat :=
  headerIndexFrom 0 [] header

/-- Closure `getIndex(variants...)`: the index of the first variant that is a header;
`none` stands for the result `(-1, false)`. -/
def getIndex (colIdx : GoMap String Nat) : List String → Option Nat
  | [] => none
  | v :: vs =>
    match colIdx.get? (TrimSpace v) with
    | some idx => some idx
    | none => getIndex colIdx vs

/-- Cell of `row` at a column found by `getIndex`, when `idx >= 0 && idx < len(row)`. -/
def cellAt (idx : Option Nat) (row : List String) : Option String :=
  match idx with
  | some i => if i < row.length then some (row.getD i "") else none
  | none => none

/-- Column indices resolved from the header by `readCSVFile`. -/
structure Columns where
  idIdx : Nat
  urlIdx : Option Nat
  titleIdx : Option Nat
  difficultyIdx : Option Nat
  acceptIdx : Option Nat
  freqIdx : Option Nat
  deriving DecidableEq, Repr

/-- The record `readCSVFile` builds from a row whose identifier parsed as `id`. -/
def rowProblem (parseFloat : String → Option Float64) (sourceFile : String) (cols : Columns)
    (id : Int) (row : List String) : RawProblem :=
  { ID := id,
    URL := ((cellAt cols.urlIdx row).map TrimSpace).getD "",
    Title := ((cellAt cols.titleIdx row).map TrimSpace).getD "",
    Difficulty := ((cellAt cols.difficultyIdx row).map TrimSpace).getD "",
    Acceptance := ((cellAt cols.acceptIdx row).map (fun c => (parsePercent parseFloat c).1)).getD none,
    Frequency := ((cellAt cols.freqIdx row).map (fun c => (parsePercent parseFloat c).1)).getD none,
    SourceFile := sourceFile }

/-- Body of the row loop of `readCSVFile`, on the map `out` and the warnings logged. -/
def readRow (parseFloat : String → Option Float64) (sourceFile : String) (cols : Columns)
    (st : GoMap Int RawProblem × List SkipWarning) (row : List String) :
    GoMap Int RawProblem × List SkipWarning :=
  if cols.idIdx ≥ row.length then st
  else
    let idStr := TrimSpace (row.getD cols.idIdx "")
    if idStr = "" then st
    else
      match ParseInt idStr with
      | .error err => (st.1, st.2 ++ [{ idStr := idStr, sourceFile := sourceFile, err := err }])
      | .ok id => (st.1.set id (rowProblem parseFloat sourceFile cols id row), st.2)

/-- The other five `getIndex` calls of `readCSVFile`, once the ID column is found. -/
def resolveColumns (colIdx : GoMap String Nat) (idIdx : Nat) : Columns :=
  { idIdx := idIdx,
    urlIdx := getIndex colIdx ["URL", "Url", "url"],
    titleIdx := getIndex colIdx ["Title", "title"],
    difficultyIdx := getIndex colIdx ["Difficulty", "difficulty"],
    acceptIdx := getIndex colIdx ["Acceptance %", "Acceptance%", "Acceptance %", "Acceptance"],
    freqIdx := getIndex colIdx ["Frequency %", "Frequency%", "Frequency %", "Frequency"] }

/-- What `os.Open` followed by `csv.ReadAll` yields: an error, or the records. -/
abbrev CSVInput := Except ReadErr (List (List String))

/-- Function `readCSVFile(path, sourceFile)`, on what opening and CSV-decoding `path`
yielded; returns `(map, err)` and the warnings logged. -/
def readCSVFile (parseFloat : String → Option Float64) (file : CSVInput) (sourceFile : String) :
    ReadResult × List SkipWarning :=
  match file with
  | .error e => (.error e, [])
  | .ok [] => (.ok [], [])
  | .ok (header :: rows) =>
    let colIdx := headerIndex header
    match getIndex colIdx ["ID", "Id", "id"] with
    | none => (.error (.other "ID column not found"), [])
    | some idIdx =>
      let cols := resolveColumns colIdx idIdx
      let r := rows.foldl (readRow parseFloat sourceFile cols) ([], [])
      (.ok r.1, r.2)

/-- Identifier of a data row as the row loop of `readCSVFile` reads it: `none` when the
row has no cell in the ID column or the trimmed cell is not an `int64` in base 10. -/
def rowID (idIdx : Nat) (row : List String) : Option Int :=
  if idIdx < row.length then
    match ParseInt (TrimSpace (row.getD idIdx "")) with
    | .ok id => some id
    | .error _ => none
  else none

/-- Warning logged for a data row, if any: only for a row whose ID cell is there, is not
blank, and does not parse. -/
def rowWarning (sourceFile : String) (idIdx : Nat) (row : List String) : Option SkipWarning :=
  if idIdx < row.length then
    if TrimSpace (row.getD idIdx "") = "" then none
    else
      match ParseInt (TrimSpace (row.getD idIdx "")) with
      | .ok _ => none
      | .error err =>
        some { idStr := TrimSpace (row.getD idIdx ""), sourceFile := sourceFile, err := err }
  else none

/-- Effect of one turn of the row loop of `readCSVFile` on the map `out` alone. -/
def rowStep (pf : String → Option Float64) (src : String) (cols : Columns)
    (out : GoMap Int RawProblem) (row : List String) : GoMap Int RawProblem :=
  match rowID cols.idIdx row with
  | some id => out.set id (rowProblem pf src cols id row)
  | none => out

/-! ## scrape_tags.go: replacing the tags of a problem -/

/-- Statement `INSERT .. ON CONFLICT (key) DO NOTHING`: append the row unless its key is
stored. -/
def insertIfAbsentBy {R K : Type} [DecidableEq K] (key : R → K) (t : List R) (r : R) : List R :=
  if (lookupBy key t (key r)).isSome then t else t ++ [r]

/-- Refusals of the store during one `replaceProblemTags`; `insert i` is the refusal of
the INSERT of the tag at position `i`. -/
structure TagFaults where
  beginx : Bool
  delete : Bool
  insert : Nat → Bool
  commit : Bool

/-- A call in which the store refuses nothing. -/
def TagFaults.none : TagFaults :=
  { beginx := false, delete := false, insert := fun _ => false, commit := false }

/-- Loop `for _, t := range tags` of `replaceProblemTags` from position `i` on, over the
transaction's view `t` of `problem_tags`; it returns at the first refused INSERT.
`addedAt` is what the column default gives `added_at`, which the INSERT does not set. -/
def insertTags (f : TagFaults) (addedAt : Time) (problemID : Int) :
    List String → Nat → List ProblemTag → List ProblemTag × Option String
  | [], _, t => (t, none)
  | tag :: rest, i, t =>
    if f.insert i then (t, some "insert tag failed")
    else
      insertTags f addedAt problemID rest (i + 1)
        (insertIfAbsentBy ProblemTag.key t
          { ProblemID := problemID, Tag := tag, AddedAt := addedAt })

/-- Function `replaceProblemTags(db, problemID, tags)`: new store and the returned error.
An error before the commit runs the deferred `Rollback`; a refused commit ends the
transaction without applying it. -/
def replaceProblemTags (f : TagFaults) (addedAt : Time) (db : DB) (problemID : Int)
    (tags : List String) : DB × Option String :=
  if f.beginx then (db, some "begin failed")
  else if f.delete then (db, some "delete failed")
  else
    let t0 := db.problem_tags.filter (fun r => decide (r.ProblemID ≠ problemID))
    match insertTags f addedAt problemID tags 0 t0 with
    | (_, some e) => (db, some e)
    | (t1, Option.none) =>
      if f.commit then (db, some "commit failed")
      else ({ db with problem_tags := t1 }, none)

/-- Tags stored for a problem, in storage order. -/
def tagsOf (t : List ProblemTag) (problemID : Int) : List String :=
  (t.filter (fun r => decide (r.ProblemID = problemID))).map ProblemTag.Tag

/-! ## scrape_tags.go: the slug of a problem URL -/

/-- Go `strings.Index(s, sep)` with the two slices around the match: the text before
and the text after the first occurrence of `sep` in `s`, `none` when there is none. -/
def cutAt (sep : List Char) : List Char → Option (List Char × List Char)
  | [] => if sep = [] then some ([], []) else none
  | c :: cs =>
    if sep.isPrefixOf (c :: cs) then some ([], (c :: cs).drop sep.length)
    else (cutAt sep cs).map (fun p => (c :: p.1, p.2))

/-- Go `genSplit` for a non-empty separator: cut at the first occurrence, at most `n`
times; the last piece is the unsplit remainder. -/
def splitUpTo (sep : List Char) : Nat → List Char → List (List Char)
  | 0, s => [s]
  | n + 1, s =>
    match cutAt sep s with
    | none => [s]
    | some (b, a) => b :: splitUpTo sep n a

/-- Go `strings.Split(s, sep)` for a non-empty `sep`: one cut per occurrence, of which
there are no more than `len(s)`. -/
def Split (s sep : String) : List String :=
  (splitUpTo sep.data s.data.length s.data).map String.mk

/-- Go `strings.SplitN(s, sep, n)` for a non-empty `sep`: at most `n` pieces (and no more
than `len(s) + 1`), `nil` for `n = 0`. -/
def SplitN (s sep : String) (n : Nat) : List String :=
  if n = 0 then []
  else (splitUpTo sep.data (min n (s.data.length + 1) - 1) s.data).map String.mk

/-- Function `extractSlug`. -/
def extractSlug (url : String) : String :=
  if url = "" then ""
  else
    let parts := Split url "/problems/"
    if parts.length < 2 then ""
    else
      let s := parts.getD 1 ""
      let s := (SplitN s "/" 2).getD 0 ""
      let s := (SplitN s "?" 2).getD 0 ""
      let s := (SplitN s "#" 2).getD 0 ""
      TrimSpace s

/-- Characters that end the slug. -/
def slugChar (c : Char) : Bool := c != '/' && c != '?' && c != '#'


/-- First piece of a split: the text before the first occurrence of the separator, the
whole text when there is none. -/
def firstPiece (sep s : List Char) : List Char :=
  match cutAt sep s with
  | none => s
  | some (b, _) => b

/-! ## scrape_tags.go: batches and aliases -/

/-- Constant `batchSize`. -/
def batchSize : Nat := 40

/-- Go struct `pslug`. -/
structure pslug where
  ID : Int
  Slug : String
  deriving DecidableEq, Repr

/-- Loop `for i := 0; i < total; i += batchSize` of `scrapeTagsMain` from `i` on: the
batches `items[i:j]` it takes, in order; `none` when `fuel` turns do not reach the exit
test.  What a turn does with its batch (request, decoding, updates, sleep) does not
change `i` or `items`. -/
def batchLoop (items : List pslug) : Nat → Nat → Option (List (List pslug))
  | 0, i => if i < items.length then none else some []
  | fuel + 1, i =>
    if i < items.length then
      let j := if i + batchSize > items.length then items.length else i + batchSize
      let batch := (items.take j).drop i
      (batchLoop items fuel (i + batchSize)).map (fun bs => batch :: bs)
    else some []

/-- Alias `fmt.Sprintf("q%d", idx)` under which the response for item `idx` is read. -/
def queryAlias (idx : Nat) : String := "q" ++ toString idx

/-- Loop `for i, p := range batch` of `buildBatchQuery` from index `i` on, on the text
written to the builder so far; `quote` stands for `strconv.Quote`. -/
def writeSubQueries (quote : String → String) : List pslug → Nat → String → String
  | [], _, sb => sb
  | p :: ps, i, sb =>
    let quoted := quote p.Slug
    let sb := sb ++ ("  q" ++ toString i ++ ": question(titleSlug: " ++ quoted ++ ") \x7b\n")
    let sb := sb ++ "    questionId\n"
    let sb := sb ++ "    topicTags \x7b name slug \x7d\n"
    let sb := sb ++ "  \x7d\n"
    writeSubQueries quote ps (i + 1) sb

/-- Function `buildBatchQuery`. -/
def buildBatchQuery (quote : String → String) (batch : List pslug) : String :=
  let sb := "" ++ "query \x7b\n"
  let sb := writeSubQueries quote batch 0 sb
  sb ++ "\x7d\n"

/-- The sub-query for one item under a given alias. -/
def subQuery (quote : String → String) (al : String) (p : pslug) : String :=
  "  " ++ al ++ ": question(titleSlug: " ++ quote p.Slug ++ ") \x7b\n" ++
    "    questionId\n" ++ "    topicTags \x7b name slug \x7d\n" ++ "  \x7d\n"

/-- The sub-queries of a batch whose first item has index `i`, in batch order. -/
def subQueries (quote : String → String) : List pslug → Nat → List String
  | [], _ => []
  | p :: ps, i => subQuery quote (queryAlias i) p :: subQueries quote ps (i + 1)

/-- Concatenation of the strings of a list, in order. -/
def concatAll : List String → String
  | [] => ""
  | s :: ss => s ++ concatAll ss

/-- Go struct of an element of `questionEntry.TopicTags`. -/
structure topicTag where
  Name : String
  Slug : String
  deriving DecidableEq, Repr

/-- Go struct `questionEntry`. -/
structure questionEntry where
  QuestionId : String
  TopicTags : List topicTag
  deriving DecidableEq, Repr

/-- Loop `for _, t := range entry.TopicTags` of `scrapeTagsMain`: the trimmed, non-empty
tag names. -/
def collectTags (entry : questionEntry) : List String :=
  entry.TopicTags.foldl
    (fun tags t =>
      let trimmed := TrimSpace t.Name
      if trimmed ≠ "" then tags ++ [trimmed] else tags)
    []

/-- Loop `for idx, p := range batch` of `scrapeTagsMain` from index `idx` on, over the
decoded response `br.Data`: an item whose alias has no entry, or an entry without
`questionId`, is skipped; the others have their tags replaced, and an error of
`replaceProblemTags` is logged without stopping the loop. -/
def applyResponse (faults : Nat → TagFaults) (addedAt : Time)
    (data : GoMap String questionEntry) : List pslug → Nat → DB → DB
  | [], _, db => db
  | p :: ps, idx, db =>
    match data.get? (queryAlias idx) with
    | none => applyResponse faults addedAt data ps (idx + 1) db
    | some entry =>
      if entry.QuestionId = "" then applyResponse faults addedAt data ps (idx + 1) db
      else
        applyResponse faults addedAt data ps (idx + 1)
          (replaceProblemTags (faults idx) addedAt db p.ID (collectTags entry)).1

/-! ## Comparing stores up to timestamps -/

/-- A `problems` row with its `updated_at` blanked. -/
def Problem.eraseUpdatedAt (p : Problem) : Problem := { p with UpdatedAt := 0 }

/-- A `company_problems` row with its `last_seen` blanked. -/
def CompanyProblem.eraseLastSeen (cp : CompanyProblem) : CompanyProblem :=
  { cp with LastSeen := 0 }

/-- Every entry of each of the five record sets is stored under its own identifier, as
`readCSVFile` builds them (`out[id] = rp` with `rp.ID = id`). -/
def Files.KeyedByID (f : Files) : Prop :=
  (∀ e ∈ records f.all, e.2.ID = e.1) ∧ (∀ e ∈ records f.moreThanSix, e.2.ID = e.1) ∧
  (∀ e ∈ records f.sixMonths, e.2.ID = e.1) ∧ (∀ e ∈ records f.threeMonths, e.2.ID = e.1) ∧
  (∀ e ∈ records f.thirtyDays, e.2.ID = e.1)

instance (f : Files) : Decidable f.KeyedByID := by
  unfold Files.KeyedByID; infer_instance

/-- The staged metadata is a map keyed by identifier whose rows carry their own key. -/
def MetaOK (st : MergeState) : Prop :=
  KeysNodup Prod.fst st.meta ∧ ∀ x ∈ st.meta, x.2.ID = x.1

/-! ## Sample inputs -/

/-- A parsed row with identifier `id` and title `t`. -/
def sampleRow (id : Int) (t : String) : RawProblem :=
  { ID := id, URL := "https://leetcode.com/problems/word-search", Title := t,
    Difficulty := "Medium", Acceptance := some 468, Frequency := none, SourceFile := "" }

/-- One company directory: 1 is in all, more-than-six and thirty-days; 2 only in all;
3 only in more-than-six; 4 only in six-months; 5 in six-months and three-months;
6 only in thirty-days; 7 in all and more-than-six only. -/
def sampleFiles : Files :=
  { all := .ok [(1, sampleRow 1 "a1"), (2, sampleRow 2 "a2"), (7, sampleRow 7 "a7")],
    moreThanSix := .ok [(1, sampleRow 1 "m1"), (3, sampleRow 3 "m3"), (7, sampleRow 7 "m7")],
    sixMonths := .ok [(4, sampleRow 4 "s4"), (5, sampleRow 5 "s5")],
    threeMonths := .ok [(5, sampleRow 5 "t5")],
    thirtyDays := .ok [(1, sampleRow 1 "d1"), (6, sampleRow 6 "d6")] }

/-- A store with no rows and a fresh sequence. -/
def emptyDB : DB :=
  { companies := [], companies_id_seq := 0, problems := [], problem_tags := [],
    company_problems := [] }

/-- A pass in which only the transaction's commit is refused. -/
def commitFails : Faults :=
  { upsertCompany := Option.none, beginx := false, upsertProblem := fun _ => false,
    upsertCompanyProblem := fun _ => false, commit := true }

/-- A primary store holding company 1 with an association to problem 9 tagged
`thirty-days` at time 5; the sequence has handed out 1. -/
def sampleStore : DB :=
  { companies := [{ ID := 1, Name := some "acme" }], companies_id_seq := 1,
    problems := [problemRow 5 (sampleRow 9 "p9")], problem_tags := [],
    company_problems :=
      [{ CompanyID := 1, ProblemID := 9, SourceFile := some "thirty-days",
         Timeframe := some "thirty-days", LastSeen := 5 }] }

/-- A source store: two companies (one without a name), one problem, one tag, one
association. -/
def sampleLocal : DB :=
  { companies := [{ ID := 1, Name := some "acme" }, { ID := 2, Name := none }],
    companies_id_seq := 2,
    problems := [problemRow 5 (sampleRow 9 "p9")],
    problem_tags := [{ ProblemID := 9, Tag := "array", AddedAt := 3 }],
    company_problems :=
      [{ CompanyID := 1, ProblemID := 9, SourceFile := some "all", Timeframe := none,
         LastSeen := 5 }] }

/-- A destination store: company 1 under another name, a company 7 unknown to the source,
a stale association for (1, 9), and a sequence that never ran. -/
def sampleRemote : DB :=
  { companies := [{ ID := 1, Name := some "old" }, { ID := 7, Name := some "zeta" }],
    companies_id_seq := 0,
    problems := [],
    problem_tags := [],
    company_problems :=
      [{ CompanyID := 1, ProblemID := 9, SourceFile := some "six-months",
         Timeframe := some "six-months", LastSeen := 1 }] }

/-- A replication run in which the upsert of the problems table is refused. -/
def problemsUpsertFails : SyncFaults :=
  { companies := TableSync.none, problems := { fault := some SyncStep.upsert, readStop := none },
    problem_tags := TableSync.none, company_problems := TableSync.none, fixSequence := false }

/-- A replication run in which the stream of the source companies breaks after the first
row, and nothing is refused. -/
def companiesReadBreaks : SyncFaults :=
  { companies := { fault := none, readStop := some 1 }, problems := TableSync.none,
    problem_tags := TableSync.none, company_problems := TableSync.none, fixSequence := false }

/-- A stand-in for `strconv.ParseFloat` that knows two numerals. -/
def sampleParseFloat (s : String) : Option Float64 :=
  if s = "46.8" then some 468 else if s = "75.0" then some 750 else none

/-- A decoded window file: a good row, a row without identifier, a row whose identifier
is not a number, and a good row with padded cells. -/
def sampleCSV : CSVInput :=
  .ok [["ID", "URL", "Title", "Difficulty", "Acceptance %", "Frequency %"],
       ["79", "https://leetcode.com/problems/word-search", "Word Search", "Medium", "46.8%",
        "75.0%"],
       ["", "u", "no id", "Easy", "", ""],
       ["7x", "u", "bad id", "Easy", "", ""],
       [" 12 ", "u2", " Two ", "Hard", "x", ""]]

/-- The sample company directory without its six-months file. -/
def sampleFilesMissing : Files :=
  { sampleFiles with sixMonths := .error .notExist }

/-- A store with tags for problems 9 and 4. -/
def sampleTagStore : DB :=
  { companies := [], companies_id_seq := 0, problems := [],
    problem_tags :=
      [{ ProblemID := 9, Tag := "array", AddedAt := 3 },
       { ProblemID := 4, Tag := "graph", AddedAt := 2 },
       { ProblemID := 9, Tag := "matrix", AddedAt := 3 }],
    company_problems := [] }

/-- A list of `n` items. -/
def sampleItems (n : Nat) : List pslug :=
  (List.range n).map (fun k => { ID := k, Slug := "s" })

/-- A stand-in for `strconv.Quote` on slugs without special characters. -/
def sampleQuote (s : String) : String := "\"" ++ s ++ "\""

/-! ## Keyed lists: lemmas -/

section Keyed

variable {R K : Type} [DecidableEq K] (key : R → K)

theorem lookupBy_key : ∀ (t : List R) (k : K) (r : R), lookupBy key t k = some r → key r = k
  | [], _, _, h => by simp [lookupBy] at h
  | x :: t, k, r, h => by
    unfold lookupBy at h
    split at h
    · have hx : x = r := by simpa using h
      subst hx; assumption
    · exact lookupBy_key t k r h

theorem lookupBy_mem : ∀ (t : List R) (k : K) (r : R), lookupBy key t k = some r → r ∈ t
  | [], _, _, h => by simp [lookupBy] at h
  | x :: t, k, r, h => by
    unfold lookupBy at h
    split at h
    · have hx : x = r := by simpa using h
      simp [hx]
    · exact List.mem_cons_of_mem _ (lookupBy_mem t k r h)

theorem lookupBy_eq_none_iff (t : List R) (k : K) :
    lookupBy key t k = none ↔ ∀ r ∈ t, key r ≠ k := by
  induction t with
  | nil => simp [lookupBy]
  | cons x t ih =>
    unfold lookupBy
    by_cases hx : key x = k
    · simp [hx]
    · simp [hx, ih]

theorem lookupBy_isSome_of_mem (t : List R) (r : R) (h : r ∈ t) :
    (lookupBy key t (key r)).isSome = true := by
  cases hl : lookupBy key t (key r) with
  | some _ => rfl
  | none => exact absurd rfl ((lookupBy_eq_none_iff key t (key r)).1 hl r h)

theorem lookupBy_of_mem_nodup :
    ∀ (t : List R) (r : R), KeysNodup key t → r ∈ t → lookupBy key t (key r) = some r
  | [], _, _, h => by simp at h
  | x :: t, r, hnd, h => by
    unfold KeysNodup at hnd
    rw [List.map_cons, List.nodup_cons] at hnd
    unfold lookupBy
    by_cases hx : key x = key r
    · rcases List.mem_cons.1 h with h1 | h1
      · simp [h1]
      · exact absurd (hx ▸ List.mem_map_of_mem key h1) hnd.1
    · rcases List.mem_cons.1 h with h1 | h1
      · exact absurd (by rw [h1]) hx
      · simp only [hx, if_false]
        exact lookupBy_of_mem_nodup t r hnd.2 h1

theorem lookupBy_upsertBy_self (t : List R) (r : R) :
    lookupBy key (upsertBy key t r) (key r) = some r := by
  induction t with
  | nil => simp [upsertBy, lookupBy]
  | cons x t ih =>
    unfold upsertBy
    by_cases hx : key x = key r
    · simp [hx, lookupBy]
    · simp [hx, lookupBy, ih]

theorem lookupBy_upsertBy_ne (t : List R) (r : R) (k : K) (h : key r ≠ k) :
    lookupBy key (upsertBy key t r) k = lookupBy key t k := by
  induction t with
  | nil => simp [upsertBy, lookupBy, h]
  | cons x t ih =>
    unfold upsertBy
    by_cases hx : key x = key r
    · have hxk : key x ≠ k := hx ▸ h
      rw [if_pos hx]
      unfold lookupBy
      rw [if_neg h, if_neg hxk]
    · rw [if_neg hx]
      unfold lookupBy
      by_cases hxk : key x = k
      · rw [if_pos hxk, if_pos hxk]
      · rw [if_neg hxk, if_neg hxk, ih]

theorem upsertBy_eq_self (t : List R) (r : R) (h : lookupBy key t (key r) = some r) :
    upsertBy key t r = t := by
  induction t with
  | nil => simp [lookupBy] at h
  | cons x t ih =>
    unfold lookupBy at h
    unfold upsertBy
    by_cases hx : key x = key r
    · simp only [hx, if_true] at h ⊢
      have hxr : x = r := by simpa using h
      rw [hxr]
    · simp only [hx, if_false] at h ⊢
      rw [ih h]

theorem map_key_upsertBy (t : List R) (r : R) :
    (upsertBy key t r).map key =
      if key r ∈ t.map key then t.map key else t.map key ++ [key r] := by
  induction t with
  | nil => simp [upsertBy]
  | cons x t ih =>
    unfold upsertBy
    by_cases hx : key x = key r
    · simp [hx]
    · have hx2 : ¬ key r = key x := fun h => hx h.symm
      simp only [hx, if_false, List.map_cons, ih, List.mem_cons, hx2, false_or]
      split <;> simp

theorem keysNodup_upsertBy (t : List R) (r : R) (h : KeysNodup key t) :
    KeysNodup key (upsertBy key t r) := by
  unfold KeysNodup at *
  rw [map_key_upsertBy]
  split
  · exact h
  · rename_i hn
    exact List.Nodup.append h (List.nodup_singleton _) (by
      intro a ha hb
      have : a = key r := by simpa using hb
      exact hn (this ▸ ha))

theorem mem_upsertBy (t : List R) (r x : R) (h : x ∈ upsertBy key t r) : x = r ∨ x ∈ t := by
  induction t with
  | nil => simpa [upsertBy] using h
  | cons y t ih =>
    unfold upsertBy at h
    by_cases hy : key y = key r
    · simp only [hy, if_true] at h
      rcases List.mem_cons.1 h with h1 | h1
      · exact Or.inl h1
      · exact Or.inr (List.mem_cons_of_mem _ h1)
    · simp only [hy, if_false] at h
      rcases List.mem_cons.1 h with h1 | h1
      · exact Or.inr (by simp [h1])
      · rcases ih h1 with h2 | h2
        · exact Or.inl h2
        · exact Or.inr (List.mem_cons_of_mem _ h2)

theorem upsertBy_map (g : R → R) (hg : ∀ x, key (g x) = key x) (t : List R) (r : R) :
    (upsertBy key t r).map g = upsertBy key (t.map g) (g r) := by
  induction t with
  | nil => simp [upsertBy]
  | cons x t ih =>
    simp only [upsertBy, List.map_cons, hg]
    by_cases hx : key x = key r
    · simp [hx]
    · simp [hx, ih]

theorem lookupBy_map (g : R → R) (hg : ∀ x, key (g x) = key x) (t : List R) (k : K) :
    lookupBy key (t.map g) k = (lookupBy key t k).map g := by
  induction t with
  | nil => simp [lookupBy]
  | cons x t ih =>
    simp only [lookupBy, List.map_cons, hg]
    by_cases hx : key x = k
    · simp [hx]
    · simp [hx, ih]

/-- Folding `upsertBy` leaves every key outside the written rows as it was. -/
theorem lookupBy_foldl_upsertBy_of_not_mem (s : List R) (d : List R) (k : K)
    (h : ∀ r ∈ s, key r ≠ k) :
    lookupBy key (s.foldl (upsertBy key) d) k = lookupBy key d k := by
  induction s generalizing d with
  | nil => rfl
  | cons x s ih =>
    rw [List.foldl_cons, ih _ (fun r hr => h r (List.mem_cons_of_mem _ hr)),
      lookupBy_upsertBy_ne key d x k (h x (List.mem_cons_self _ _))]

/-- After folding `upsertBy` over rows with distinct keys every written row is stored. -/
theorem lookupBy_foldl_upsertBy_of_mem (s : List R) (d : List R) (hs : KeysNodup key s)
    (r : R) (hr : r ∈ s) :
    lookupBy key (s.foldl (upsertBy key) d) (key r) = some r := by
  induction s generalizing d with
  | nil => simp at hr
  | cons x s ih =>
    unfold KeysNodup at hs
    rw [List.map_cons, List.nodup_cons] at hs
    rw [List.foldl_cons]
    rcases List.mem_cons.1 hr with h1 | h1
    · subst h1
      rw [lookupBy_foldl_upsertBy_of_not_mem key s _ (key r)
        (fun y hy hk => hs.1 (hk ▸ List.mem_map_of_mem key hy))]
      exact lookupBy_upsertBy_self key d r
    · exact ih _ hs.2 h1

theorem foldl_upsertBy_eq_self (s : List R) (d : List R)
    (h : ∀ r ∈ s, lookupBy key d (key r) = some r) :
    s.foldl (upsertBy key) d = d := by
  induction s with
  | nil => rfl
  | cons x s ih =>
    rw [List.foldl_cons, upsertBy_eq_self key d x (h x (List.mem_cons_self _ _))]
    exact ih (fun r hr => h r (List.mem_cons_of_mem _ hr))

/-- Bulk upsert of the same rows a second time changes nothing. -/
theorem foldl_upsertBy_idem (s : List R) (d : List R) (hs : KeysNodup key s) :
    s.foldl (upsertBy key) (s.foldl (upsertBy key) d) = s.foldl (upsertBy key) d :=
  foldl_upsertBy_eq_self key s _ (fun r hr => lookupBy_foldl_upsertBy_of_mem key s d hs r hr)

theorem mem_foldl_upsertBy (s : List R) (d : List R) (x : R)
    (h : x ∈ s.foldl (upsertBy key) d) : x ∈ s ∨ x ∈ d := by
  induction s generalizing d with
  | nil => exact Or.inr h
  | cons y s ih =>
    rw [List.foldl_cons] at h
    rcases ih _ h with h1 | h1
    · exact Or.inl (List.mem_cons_of_mem _ h1)
    · rcases mem_upsertBy key d y x h1 with h2 | h2
      · exact Or.inl (by simp [h2])
      · exact Or.inr h2

theorem keysNodup_foldl_upsertBy (s : List R) (d : List R) (h : KeysNodup key d) :
    KeysNodup key (s.foldl (upsertBy key) d) := by
  induction s generalizing d with
  | nil => exact h
  | cons y s ih => exact ih _ (keysNodup_upsertBy key d y h)

end Keyed

/-! ## Go maps: lemmas -/

section GoMapLemmas

variable {K V : Type} [DecidableEq K]

theorem GoMap.get?_set_self (m : GoMap K V) (k : K) (v : V) : (m.set k v).get? k = some v := by
  unfold GoMap.get? GoMap.set
  rw [show k = Prod.fst (k, v) from rfl, lookupBy_upsertBy_self]
  rfl

theorem GoMap.get?_set_ne (m : GoMap K V) (k k' : K) (v : V) (h : k ≠ k') :
    (m.set k v).get? k' = m.get? k' := by
  unfold GoMap.get? GoMap.set
  rw [lookupBy_upsertBy_ne Prod.fst m (k, v) k' h]

theorem GoMap.get?_cons (e : K × V) (m : GoMap K V) (k : K) :
    GoMap.get? (e :: m) k = if e.1 = k then some e.2 else GoMap.get? m k := by
  unfold GoMap.get?
  simp only [lookupBy]
  split <;> rfl

theorem GoMap.get?_nil (k : K) : GoMap.get? ([] : GoMap K V) k = none := rfl

theorem GoMap.get?_eq_none_of_nodup_cons (e : K × V) (m : GoMap K V)
    (h : KeysNodup Prod.fst (e :: m)) : GoMap.get? m e.1 = none := by
  unfold KeysNodup at h
  rw [List.map_cons, List.nodup_cons] at h
  unfold GoMap.get?
  rw [(lookupBy_eq_none_iff Prod.fst m e.1).2
    (fun r hr hk => h.1 (hk ▸ List.mem_map_of_mem Prod.fst hr))]
  rfl

/-- Assigning every entry of a map `m` with distinct keys: entries of `m` win. -/
theorem GoMap.get?_foldl_set (m : GoMap K V) (mt : GoMap K V) (k : K)
    (h : KeysNodup Prod.fst m) :
    GoMap.get? (m.foldl (fun a e => GoMap.set a e.1 e.2) mt) k
      = (GoMap.get? m k).or (GoMap.get? mt k) := by
  induction m generalizing mt with
  | nil => simp [GoMap.get?_nil]
  | cons e m ih =>
    have hnone := GoMap.get?_eq_none_of_nodup_cons e m h
    unfold KeysNodup at h
    rw [List.map_cons, List.nodup_cons] at h
    rw [List.foldl_cons, ih _ h.2, GoMap.get?_cons]
    by_cases he : e.1 = k
    · subst he
      rw [hnone, GoMap.get?_set_self]
      simp
    · rw [GoMap.get?_set_ne _ _ _ _ he]
      simp [he]

/-- Assigning only the absent keys: what is stored already wins, then the first entry. -/
theorem GoMap.get?_foldl_setAbsent (m : GoMap K V) (mt : GoMap K V) (k : K) :
    GoMap.get? (m.foldl (fun a e => if GoMap.contains a e.1 then a else GoMap.set a e.1 e.2) mt) k
      = (GoMap.get? mt k).or (GoMap.get? m k) := by
  induction m generalizing mt with
  | nil => simp [GoMap.get?_nil]
  | cons e m ih =>
    rw [List.foldl_cons, ih, GoMap.get?_cons]
    by_cases hc : GoMap.contains mt e.1 = true
    · rw [if_pos hc]
      by_cases he : e.1 = k
      · subst he
        unfold GoMap.contains at hc
        cases hg : GoMap.get? mt e.1 with
        | none => rw [hg] at hc; simp at hc
        | some v => simp
      · simp [he]
    · rw [if_neg hc]
      by_cases he : e.1 = k
      · subst he
        have hg : GoMap.get? mt e.1 = none := by
          unfold GoMap.contains at hc
          cases hg : GoMap.get? mt e.1 with
          | none => rfl
          | some v => rw [hg] at hc; simp at hc
        rw [GoMap.get?_set_self, hg]
        simp
      · rw [GoMap.get?_set_ne _ _ _ _ he]
        simp [he]

/-- Assigning a constant to every key of `m`. -/
theorem GoMap.get?_foldl_setConst {W : Type} (m : GoMap K V) (s : GoMap K W) (c : W) (k : K) :
    GoMap.get? (m.foldl (fun a e => GoMap.set a e.1 c) s) k
      = if GoMap.contains m k then some c else GoMap.get? s k := by
  induction m generalizing s with
  | nil => simp [GoMap.contains, GoMap.get?_nil]
  | cons e m ih =>
    rw [List.foldl_cons, ih]
    unfold GoMap.contains
    rw [GoMap.get?_cons]
    by_cases he : e.1 = k
    · subst he
      rw [GoMap.get?_set_self]
      simp
    · rw [GoMap.get?_set_ne _ _ _ _ he]
      simp [he]

theorem foldl_proj {S A E : Type} (step : S → E → S) (proj : S → A) (g : A → E → A)
    (h : ∀ s e, proj (step s e) = g (proj s) e) (m : List E) (s : S) :
    proj (m.foldl step s) = m.foldl g (proj s) := by
  induction m generalizing s with
  | nil => rfl
  | cons e m ih => rw [List.foldl_cons, List.foldl_cons, ih, h]

end GoMapLemmas

/-! ## The merge: what each file does to each accumulator -/

theorem mergeFile_eq (r : ReadResult) (k : String) (st : MergeState) :
    mergeFile r k st = (records r).foldl (mergeEntry k) st := by
  cases r with
  | ok m => rfl
  | error e => cases e <;> rfl

theorem mergeEntry_meta (k : String) (st : MergeState) (e : Int × RawProblem) :
    (mergeEntry k st e).meta =
      if k = "all" then st.meta.set e.1 e.2
      else if st.meta.contains e.1 then st.meta else st.meta.set e.1 e.2 := by
  unfold mergeEntry
  dsimp only
  split_ifs <;> rfl

theorem mergeEntry_sourceFor (k : String) (st : MergeState) (e : Int × RawProblem) :
    (mergeEntry k st e).sourceFor = st.sourceFor.set e.1 k := by
  unfold mergeEntry
  dsimp only
  split_ifs <;> rfl

theorem mergeEntry_inThirtyDays (k : String) (st : MergeState) (e : Int × RawProblem) :
    (mergeEntry k st e).inThirtyDays =
      if k = "thirty-days" then st.inThirtyDays.set e.1 true else st.inThirtyDays := by
  unfold mergeEntry
  dsimp only
  split_ifs <;> rfl

theorem mergeEntry_inThreeMonths (k : String) (st : MergeState) (e : Int × RawProblem) :
    (mergeEntry k st e).inThreeMonths =
      if k = "three-months" then st.inThreeMonths.set e.1 true else st.inThreeMonths := by
  unfold mergeEntry
  dsimp only
  split_ifs <;> first | rfl | (exfalso; simp_all)

theorem mergeEntry_inSixMonths (k : String) (st : MergeState) (e : Int × RawProblem) :
    (mergeEntry k st e).inSixMonths =
      if k = "six-months" then st.inSixMonths.set e.1 true else st.inSixMonths := by
  unfold mergeEntry
  dsimp only
  split_ifs <;> first | rfl | (exfalso; simp_all)

theorem mergeFile_meta_all (r : ReadResult) (st : MergeState) (id : Int)
    (h : KeysNodup Prod.fst (records r)) :
    (mergeFile r "all" st).meta.get? id = ((records r).get? id).or (st.meta.get? id) := by
  rw [mergeFile_eq,
    foldl_proj (mergeEntry "all") MergeState.meta (fun a e => GoMap.set a e.1 e.2)
      (fun s e => by rw [mergeEntry_meta]; simp)]
  exact GoMap.get?_foldl_set _ _ _ h

theorem mergeFile_meta_other (r : ReadResult) (k : String) (hk : k ≠ "all") (st : MergeState)
    (id : Int) :
    (mergeFile r k st).meta.get? id = (st.meta.get? id).or ((records r).get? id) := by
  rw [mergeFile_eq,
    foldl_proj (mergeEntry k) MergeState.meta
      (fun a e => if GoMap.contains a e.1 then a else GoMap.set a e.1 e.2)
      (fun s e => by rw [mergeEntry_meta, if_neg hk])]
  exact GoMap.get?_foldl_setAbsent _ _ _

theorem mergeFile_sourceFor (r : ReadResult) (k : String) (st : MergeState) (id : Int) :
    (mergeFile r k st).sourceFor.get? id =
      if (records r).contains id then some k else st.sourceFor.get? id := by
  rw [mergeFile_eq,
    foldl_proj (mergeEntry k) MergeState.sourceFor (fun a e => GoMap.set a e.1 k)
      (fun s e => mergeEntry_sourceFor k s e)]
  exact GoMap.get?_foldl_setConst _ _ _ _

theorem mergeFile_inThirtyDays (r : ReadResult) (k : String) (st : MergeState) (id : Int) :
    (mergeFile r k st).inThirtyDays.get? id =
      if k = "thirty-days" ∧ (records r).contains id = true then some true
      else st.inThirtyDays.get? id := by
  rw [mergeFile_eq]
  by_cases hk : k = "thirty-days"
  · rw [foldl_proj (mergeEntry k) MergeState.inThirtyDays (fun a e => GoMap.set a e.1 true)
      (fun s e => by rw [mergeEntry_inThirtyDays, if_pos hk]),
      GoMap.get?_foldl_setConst]
    simp [hk]
  · rw [foldl_proj (mergeEntry k) MergeState.inThirtyDays (fun a _ => a)
      (fun s e => by rw [mergeEntry_inThirtyDays, if_neg hk])]
    simp [hk]

theorem mergeFile_inThreeMonths (r : ReadResult) (k : String) (st : MergeState) (id : Int) :
    (mergeFile r k st).inThreeMonths.get? id =
      if k = "three-months" ∧ (records r).contains id = true then some true
      else st.inThreeMonths.get? id := by
  rw [mergeFile_eq]
  by_cases hk : k = "three-months"
  · rw [foldl_proj (mergeEntry k) MergeState.inThreeMonths (fun a e => GoMap.set a e.1 true)
      (fun s e => by rw [mergeEntry_inThreeMonths, if_pos hk]),
      GoMap.get?_foldl_setConst]
    simp [hk]
  · rw [foldl_proj (mergeEntry k) MergeState.inThreeMonths (fun a _ => a)
      (fun s e => by rw [mergeEntry_inThreeMonths, if_neg hk])]
    simp [hk]

theorem mergeFile_inSixMonths (r : ReadResult) (k : String) (st : MergeState) (id : Int) :
    (mergeFile r k st).inSixMonths.get? id =
      if k = "six-months" ∧ (records r).contains id = true then some true
      else st.inSixMonths.get? id := by
  rw [mergeFile_eq]
  by_cases hk : k = "six-months"
  · rw [foldl_proj (mergeEntry k) MergeState.inSixMonths (fun a e => GoMap.set a e.1 true)
      (fun s e => by rw [mergeEntry_inSixMonths, if_pos hk]),
      GoMap.get?_foldl_setConst]
    simp [hk]
  · rw [foldl_proj (mergeEntry k) MergeState.inSixMonths (fun a _ => a)
      (fun s e => by rw [mergeEntry_inSixMonths, if_neg hk])]
    simp [hk]

/-- Merged metadata of an identifier after the five files. -/
theorem mergeAll_meta (f : Files) (id : Int) (hall : KeysNodup Prod.fst (records f.all)) :
    (mergeAll f).meta.get? id =
      ((records f.all).get? id).or
        (((records f.moreThanSix).get? id).or
          (((records f.sixMonths).get? id).or
            (((records f.threeMonths).get? id).or ((records f.thirtyDays).get? id)))) := by
  unfold mergeAll
  rw [mergeFile_meta_other _ _ (by decide), mergeFile_meta_other _ _ (by decide),
    mergeFile_meta_other _ _ (by decide), mergeFile_meta_other _ _ (by decide),
    mergeFile_meta_all _ _ _ hall]
  simp only [MergeState.empty, GoMap.get?_nil]
  cases (records f.all).get? id <;> cases (records f.moreThanSix).get? id <;>
    cases (records f.sixMonths).get? id <;> cases (records f.threeMonths).get? id <;> simp

/-- Presence flags after the five files. -/
theorem mergeAll_flags (f : Files) (id : Int) :
    (mergeAll f).inThirtyDays.getD id false = (records f.thirtyDays).contains id ∧
    (mergeAll f).inThreeMonths.getD id false = (records f.threeMonths).contains id ∧
    (mergeAll f).inSixMonths.getD id false = (records f.sixMonths).contains id := by
  unfold mergeAll GoMap.getD
  refine ⟨?_, ?_, ?_⟩
  · simp only [mergeFile_inThirtyDays, MergeState.empty, GoMap.get?_nil]
    cases (records f.thirtyDays).contains id <;> simp
  · simp only [mergeFile_inThreeMonths, MergeState.empty, GoMap.get?_nil]
    cases (records f.threeMonths).contains id <;> simp
  · simp only [mergeFile_inSixMonths, MergeState.empty, GoMap.get?_nil]
    cases (records f.sixMonths).contains id <;> simp

/-- Resolved tag after the five files. -/
theorem mergeAll_tag (f : Files) (id : Int) :
    timeFrameTag (mergeAll f) id =
      if (records f.thirtyDays).contains id then some "thirty-days"
      else if (records f.threeMonths).contains id then some "three-months"
      else if (records f.sixMonths).contains id then some "six-months"
      else none := by
  unfold timeFrameTag
  rw [(mergeAll_flags f id).1, (mergeAll_flags f id).2.1, (mergeAll_flags f id).2.2]

/-- Provenance label after the five files. -/
theorem mergeAll_sourceFor (f : Files) (id : Int) :
    (mergeAll f).sourceFor.getD id "" =
      if (records f.thirtyDays).contains id then "thirty-days"
      else if (records f.threeMonths).contains id then "three-months"
      else if (records f.sixMonths).contains id then "six-months"
      else if (records f.moreThanSix).contains id then "more-than-six"
      else if (records f.all).contains id then "all"
      else "" := by
  unfold mergeAll GoMap.getD
  simp only [mergeFile_sourceFor, MergeState.empty, GoMap.get?_nil]
  split_ifs <;> rfl

/-! ## Claims on the snapshot merge -/

/-- C1: the merged metadata of an identifier is the row of `all` when `all` contains it,
whatever the other windows hold; otherwise it is the row of the first window, in the
order more-than-six, six-months, three-months, thirty-days, that contains it. -/
theorem metadata_precedence (f : Files) (id : Int)
    (hall : KeysNodup Prod.fst (records f.all)) :
    (mergeAll f).meta.get? id =
      ((records f.all).get? id).or
        (((records f.moreThanSix).get? id).or
          (((records f.sixMonths).get? id).or
            (((records f.threeMonths).get? id).or ((records f.thirtyDays).get? id)))) :=
  mergeAll_meta f id hall

theorem metadata_precedence_witness :
    (mergeAll sampleFiles).meta.get? 1 = some (sampleRow 1 "a1") ∧
    (mergeAll sampleFiles).meta.get? 5 = some (sampleRow 5 "s5") :=
  ⟨(metadata_precedence sampleFiles 1 (by decide)).trans (by decide),
   (metadata_precedence sampleFiles 5 (by decide)).trans (by decide)⟩

/-- C2: the resolved timeframe tag of an identifier is `thirty-days` when the thirty-days
record set contains it, else `three-months` when the three-months set does, else
`six-months` when the six-months set does, else null; so it is null exactly when none
of the three recent windows contains the identifier. -/
theorem timeframe_tag_resolution (f : Files) (id : Int) :
    timeFrameTag (mergeAll f) id =
      (if (records f.thirtyDays).contains id then some "thirty-days"
       else if (records f.threeMonths).contains id then some "three-months"
       else if (records f.sixMonths).contains id then some "six-months"
       else none) ∧
    (timeFrameTag (mergeAll f) id = none ↔
      ((records f.thirtyDays).contains id = false ∧ (records f.threeMonths).contains id = false ∧
        (records f.sixMonths).contains id = false)) := by
  refine ⟨mergeAll_tag f id, ?_⟩
  rw [mergeAll_tag]
  cases (records f.thirtyDays).contains id <;> cases (records f.threeMonths).contains id <;>
    cases (records f.sixMonths).contains id <;> simp

/-- C10: the label written as `source_file` is the label of the last window, in the
processing order all, more-than-six, six-months, three-months, thirty-days, whose file
contains the identifier; it is a function of the windows' contents alone.  For an
identifier in `all` and `more-than-six` only, the label is `more-than-six` while the
metadata is the `all` row and the tag is null. -/
theorem provenance_label (f : Files) (id : Int) :
    (mergeAll f).sourceFor.getD id "" =
      (if (records f.thirtyDays).contains id then "thirty-days"
       else if (records f.threeMonths).contains id then "three-months"
       else if (records f.sixMonths).contains id then "six-months"
       else if (records f.moreThanSix).contains id then "more-than-six"
       else if (records f.all).contains id then "all"
       else "") ∧
    (∀ r, KeysNodup Prod.fst (records f.all) → (records f.all).get? id = some r →
      (records f.moreThanSix).contains id = true → (records f.sixMonths).contains id = false →
      (records f.threeMonths).contains id = false → (records f.thirtyDays).contains id = false →
      (mergeAll f).sourceFor.getD id "" = "more-than-six" ∧
        (mergeAll f).meta.get? id = some r ∧ timeFrameTag (mergeAll f) id = none) := by
  refine ⟨mergeAll_sourceFor f id, ?_⟩
  intro r hall hr hm hs ht hd
  refine ⟨?_, ?_, ?_⟩
  · rw [mergeAll_sourceFor, hd, ht, hs, hm]; rfl
  · rw [mergeAll_meta f id hall, hr]; rfl
  · rw [mergeAll_tag, hd, ht, hs]; rfl

theorem provenance_label_witness :
    (mergeAll sampleFiles).sourceFor.getD 7 "" = "more-than-six" ∧
      (mergeAll sampleFiles).meta.get? 7 = some (sampleRow 7 "a7") ∧
      timeFrameTag (mergeAll sampleFiles) 7 = none :=
  (provenance_label sampleFiles 7).2 (sampleRow 7 "a7") (by decide) (by decide) (by decide)
    (by decide) (by decide) (by decide)

/-! ## The company pass: what it can write -/

theorem GoMap.get?_foldl_set_of_none {K V : Type} [DecidableEq K] (m : GoMap K V)
    (mt : GoMap K V) (k : K) (h : GoMap.get? m k = none) :
    GoMap.get? (m.foldl (fun a e => GoMap.set a e.1 e.2) mt) k = GoMap.get? mt k := by
  induction m generalizing mt with
  | nil => rfl
  | cons e m ih =>
    rw [GoMap.get?_cons] at h
    by_cases he : e.1 = k
    · rw [if_pos he] at h; exact absurd h (by simp)
    · rw [if_neg he] at h
      rw [List.foldl_cons, ih _ h, GoMap.get?_set_ne _ _ _ _ he]

theorem GoMap.get?_eq_none_of_not_contains {K V : Type} [DecidableEq K] (m : GoMap K V) (k : K)
    (h : GoMap.contains m k = false) : GoMap.get? m k = none := by
  unfold GoMap.contains at h
  cases hg : GoMap.get? m k with
  | none => rfl
  | some v => rw [hg] at h; simp at h

theorem GoMap.ne_of_mem_of_get?_none {K V : Type} [DecidableEq K] (m : GoMap K V) (k : K)
    (h : GoMap.get? m k = none) (e : K × V) (he : e ∈ m) : e.1 ≠ k := by
  unfold GoMap.get? at h
  have h2 : lookupBy Prod.fst m k = none := by
    cases hl : lookupBy Prod.fst m k with
    | none => rfl
    | some v => rw [hl] at h; simp at h
  exact (lookupBy_eq_none_iff Prod.fst m k).1 h2 e he

/-- A file that does not contain `id` leaves the staged metadata of `id` as it was. -/
theorem mergeFile_meta_of_not_contains (r : ReadResult) (k : String) (st : MergeState)
    (id : Int) (h : (records r).contains id = false) :
    (mergeFile r k st).meta.get? id = st.meta.get? id := by
  have hn := GoMap.get?_eq_none_of_not_contains _ _ h
  by_cases hk : k = "all"
  · subst hk
    rw [mergeFile_eq,
      foldl_proj (mergeEntry "all") MergeState.meta (fun a e => GoMap.set a e.1 e.2)
        (fun s e => by rw [mergeEntry_meta]; simp)]
    exact GoMap.get?_foldl_set_of_none _ _ _ hn
  · rw [mergeFile_meta_other r k hk, hn]
    cases st.meta.get? id <;> rfl

/-- An identifier in none of the five record sets is not a key of the merged output. -/
theorem mergeAll_meta_of_unobserved (f : Files) (id : Int)
    (hall : (records f.all).contains id = false)
    (hmore : (records f.moreThanSix).contains id = false)
    (hsix : (records f.sixMonths).contains id = false)
    (hthree : (records f.threeMonths).contains id = false)
    (hthirty : (records f.thirtyDays).contains id = false) :
    (mergeAll f).meta.get? id = none := by
  unfold mergeAll
  rw [mergeFile_meta_of_not_contains _ _ _ _ hthirty, mergeFile_meta_of_not_contains _ _ _ _ hthree,
    mergeFile_meta_of_not_contains _ _ _ _ hsix, mergeFile_meta_of_not_contains _ _ _ _ hmore,
    mergeFile_meta_of_not_contains _ _ _ _ hall]
  rfl

theorem insertCompanyReturningID_tables (db : DB) (name : String) :
    (insertCompanyReturningID db name).1.problems = db.problems ∧
    (insertCompanyReturningID db name).1.problem_tags = db.problem_tags ∧
    (insertCompanyReturningID db name).1.company_problems = db.company_problems := by
  unfold insertCompanyReturningID
  dsimp only
  split
  · exact ⟨rfl, rfl, rfl⟩
  · split <;> exact ⟨rfl, rfl, rfl⟩

theorem selectCompanyAfterError_fst (db : DB) (name : String) :
    (selectCompanyAfterError db name).1 = db := by
  unfold selectCompanyAfterError
  split <;> rfl

theorem selectCompanyAfterError_ok (db : DB) (name : String) (cid : Int) :
    (selectCompanyAfterError db name).2 = .ok cid ↔ selectCompanyID db name = some cid := by
  unfold selectCompanyAfterError
  cases selectCompanyID db name with
  | none => simp
  | some id => simp

/-- Second half of `upsertCompany`: what is returned once the INSERT has answered. -/
theorem upsertCompany_eq (fault : Option String) (db : DB) (name : String) :
    upsertCompany fault db name =
      match (match fault with
        | some msg => ((db, .error msg) : DB × Except String Int)
        | none => insertCompanyReturningID db name) with
      | (db1, .ok id) => (db1, .ok id)
      | (db1, .error msg) =>
        if "RETURNING".data <:+: msg.data then selectCompanyAfterError db1 name
        else (db1, .error msg) :=
  rfl

/-- The store after `upsertCompany` is the store after its INSERT (or the store itself
when the INSERT was refused); the result is ok only with an id stored under the name. -/
theorem upsertCompany_spec (fault : Option String) (db : DB) (name : String) :
    (upsertCompany fault db name).1 =
        (match fault with
          | some _ => db
          | none => (insertCompanyReturningID db name).1) ∧
    ∀ cid, (upsertCompany fault db name).2 = .ok cid →
      selectCompanyID (upsertCompany fault db name).1 name = some cid ∨
      (fault = none ∧ (insertCompanyReturningID db name).2 = .ok cid) := by
  rw [upsertCompany_eq]
  cases fault with
  | some msg =>
    dsimp only
    by_cases hc : "RETURNING".data <:+: msg.data
    · rw [if_pos hc, selectCompanyAfterError_fst]
      exact ⟨rfl, fun cid h => Or.inl ((selectCompanyAfterError_ok db name cid).1 h)⟩
    · rw [if_neg hc]
      exact ⟨rfl, fun cid h => absurd h (by simp)⟩
  | none =>
    dsimp only
    rcases insertCompanyReturningID db name with ⟨db1, res⟩
    cases res with
    | ok id => exact ⟨rfl, fun cid h => Or.inr ⟨rfl, h⟩⟩
    | error msg =>
      dsimp only
      by_cases hc : "RETURNING".data <:+: msg.data
      · rw [if_pos hc, selectCompanyAfterError_fst]
        exact ⟨rfl, fun cid h => Or.inl ((selectCompanyAfterError_ok db1 name cid).1 h)⟩
      · rw [if_neg hc]
        exact ⟨rfl, fun cid h => absurd h (by simp)⟩

/-- The company upsert writes to `companies` and its sequence only. -/
theorem upsertCompany_tables (fault : Option String) (db : DB) (name : String) :
    (upsertCompany fault db name).1.problems = db.problems ∧
    (upsertCompany fault db name).1.problem_tags = db.problem_tags ∧
    (upsertCompany fault db name).1.company_problems = db.company_problems := by
  rw [(upsertCompany_spec fault db name).1]
  cases fault with
  | some msg => exact ⟨rfl, rfl, rfl⟩
  | none => exact insertCompanyReturningID_tables db name

/-- One turn of the write loop touches at most the association `(companyID, e.1)`. -/
theorem writeEntry_company_problems (f : Faults) (now : Time) (companyID : Int)
    (st : MergeState) (tx : DB) (e : Int × RawProblem) (k : Int × Int)
    (hk : (companyID, e.1) ≠ k) :
    lookupBy CompanyProblem.key (writeEntry f now companyID st tx e).company_problems k =
      lookupBy CompanyProblem.key tx.company_problems k := by
  unfold writeEntry upsertProblem upsertCompanyProblem
  dsimp only
  by_cases h1 : f.upsertProblem e.1 = true
  · simp [h1]
  · by_cases h2 : f.upsertCompanyProblem e.1 = true
    · simp [h1, h2]
    · simp only [h1, h2]
      exact lookupBy_upsertBy_ne CompanyProblem.key _ _ k hk

theorem foldl_writeEntry_company_problems (f : Faults) (now : Time) (companyID : Int)
    (st : MergeState) (m : GoMap Int RawProblem) (tx : DB) (k : Int × Int)
    (hk : ∀ e ∈ m, (companyID, e.1) ≠ k) :
    lookupBy CompanyProblem.key (m.foldl (writeEntry f now companyID st) tx).company_problems k =
      lookupBy CompanyProblem.key tx.company_problems k := by
  induction m generalizing tx with
  | nil => rfl
  | cons e m ih =>
    rw [List.foldl_cons, ih _ (fun x hx => hk x (List.mem_cons_of_mem _ hx)),
      writeEntry_company_problems f now companyID st tx e k (hk e (List.mem_cons_self _ _))]

/-- Outcome of a pass whose commit is refused: what the company upsert left. -/
theorem processCompany_of_commit_refused (f : Faults) (now : Time) (files : Files)
    (name : String) (db : DB) (h : f.commit = true) :
    processCompany f now files name db = (upsertCompany f.upsertCompany db name).1 := by
  unfold processCompany
  dsimp only
  rcases upsertCompany f.upsertCompany db name with ⟨db1, res⟩
  cases res with
  | error msg => rfl
  | ok id =>
    dsimp only
    split_ifs <;> rfl

/-- Associations of an unobserved identifier are read back unchanged after a pass. -/
theorem processCompany_unobserved (f : Faults) (now : Time) (files : Files) (name : String)
    (db : DB) (cid pid : Int) (hmeta : (mergeAll files).meta.get? pid = none) :
    lookupBy CompanyProblem.key (processCompany f now files name db).company_problems (cid, pid)
      = lookupBy CompanyProblem.key db.company_problems (cid, pid) := by
  have hu := (upsertCompany_tables f.upsertCompany db name).2.2
  unfold processCompany
  dsimp only
  rcases hr : upsertCompany f.upsertCompany db name with ⟨db1, res⟩
  rw [hr] at hu
  have hu1 : db1.company_problems = db.company_problems := hu
  cases res with
  | error msg => exact congrArg (fun t => lookupBy CompanyProblem.key t (cid, pid)) hu1
  | ok id =>
    dsimp only
    split_ifs
    · rw [hu1]
    · rw [hu1]
    · rw [foldl_writeEntry_company_problems, hu1]
      intro e he hk
      exact GoMap.ne_of_mem_of_get?_none _ _ hmeta e he (congrArg Prod.snd hk)

/-! ## Claims on the company pass -/

/-- C3: an association already stored whose problem identifier occurs in none of the window
files read in this pass is not written: whatever the store refuses, the row read back under
its key (company, problem) after the pass is the row stored before, with the same
source_file, timeframe_tag and last_seen, and it is not deleted. -/
theorem unobserved_association_untouched (f : Faults) (now : Time) (files : Files)
    (name : String) (db : DB) (cid pid : Int)
    (hall : (records files.all).contains pid = false)
    (hmore : (records files.moreThanSix).contains pid = false)
    (hsix : (records files.sixMonths).contains pid = false)
    (hthree : (records files.threeMonths).contains pid = false)
    (hthirty : (records files.thirtyDays).contains pid = false) :
    lookupBy CompanyProblem.key (processCompany f now files name db).company_problems (cid, pid)
      = lookupBy CompanyProblem.key db.company_problems (cid, pid) :=
  processCompany_unobserved f now files name db cid pid
    (mergeAll_meta_of_unobserved files pid hall hmore hsix hthree hthirty)

theorem unobserved_association_untouched_witness :
    lookupBy CompanyProblem.key
        (processCompany Faults.none 77 sampleFiles "acme" sampleStore).company_problems (1, 9)
      = some { CompanyID := 1, ProblemID := 9, SourceFile := some "thirty-days",
               Timeframe := some "thirty-days", LastSeen := 5 } :=
  (unobserved_association_untouched Faults.none 77 sampleFiles "acme" sampleStore 1 9
    (by decide) (by decide) (by decide) (by decide) (by decide)).trans (by decide)

/-- C4 (as stated, refuted): with an empty store and a refused commit, the company row
written by the company upsert is still there after the pass. -/
theorem commit_failure_keeps_company_row :
    commitFails.commit = true ∧ emptyDB.companies = [] ∧
    (processCompany commitFails 77 sampleFiles "acme" emptyDB).companies
      = [{ ID := 1, Name := some "acme" }] ∧
    processCompany commitFails 77 sampleFiles "acme" emptyDB ≠ emptyDB := by
  decide

/-- C4 (amended): the problem upserts and association upserts of one company form one
atomic unit: when the commit is refused, the pass leaves `problems`, `company_problems` and
`problem_tags` as they were, and the store it leaves is exactly the one the company upsert,
which runs on the connection before the transaction begins, produced. -/
theorem commit_failure_rolls_back_transaction (f : Faults) (now : Time) (files : Files)
    (name : String) (db : DB) (h : f.commit = true) :
    (processCompany f now files name db).problems = db.problems ∧
    (processCompany f now files name db).company_problems = db.company_problems ∧
    (processCompany f now files name db).problem_tags = db.problem_tags ∧
    processCompany f now files name db = (upsertCompany f.upsertCompany db name).1 := by
  rw [processCompany_of_commit_refused f now files name db h]
  have hu := upsertCompany_tables f.upsertCompany db name
  exact ⟨hu.1, hu.2.2, hu.2.1, rfl⟩

theorem commit_failure_rolls_back_transaction_witness :
    (processCompany commitFails 77 sampleFiles "acme" sampleStore).problems
        = sampleStore.problems ∧
    (processCompany commitFails 77 sampleFiles "acme" sampleStore).company_problems
        = sampleStore.company_problems :=
  ⟨(commit_failure_rolls_back_transaction commitFails 77 sampleFiles "acme" sampleStore rfl).1,
   (commit_failure_rolls_back_transaction commitFails 77 sampleFiles "acme" sampleStore rfl).2.1⟩

/-! ## Repeating a company pass -/

theorem foldl_invariant {S E : Type} (P : S → Prop) (step : S → E → S) (m : List E) (s : S)
    (hs : P s) (hstep : ∀ s e, e ∈ m → P s → P (step s e)) : P (m.foldl step s) := by
  induction m generalizing s with
  | nil => exact hs
  | cons e m ih =>
    rw [List.foldl_cons]
    exact ih _ (hstep s e (List.mem_cons_self _ _) hs)
      (fun s' e' he' => hstep s' e' (List.mem_cons_of_mem _ he'))

theorem mergeEntry_metaOK (k : String) (st : MergeState) (e : Int × RawProblem)
    (he : e.2.ID = e.1) (h : MetaOK st) : MetaOK (mergeEntry k st e) := by
  unfold MetaOK at *
  rw [mergeEntry_meta]
  have hset : KeysNodup Prod.fst (GoMap.set st.meta e.1 e.2) ∧
      ∀ x ∈ GoMap.set st.meta e.1 e.2, x.2.ID = x.1 := by
    refine ⟨keysNodup_upsertBy Prod.fst _ _ h.1, ?_⟩
    intro x hx
    rcases mem_upsertBy Prod.fst _ _ x hx with h1 | h1
    · rw [h1]; exact he
    · exact h.2 x h1
  split_ifs
  · exact hset
  · exact h
  · exact hset

theorem mergeFile_metaOK (r : ReadResult) (k : String) (st : MergeState)
    (hr : ∀ e ∈ records r, e.2.ID = e.1) (h : MetaOK st) : MetaOK (mergeFile r k st) := by
  rw [mergeFile_eq]
  exact foldl_invariant MetaOK (mergeEntry k) (records r) st h
    (fun s e he hs => mergeEntry_metaOK k s e (hr e he) hs)

theorem mergeAll_metaOK (f : Files) (h : f.KeyedByID) : MetaOK (mergeAll f) := by
  unfold mergeAll
  obtain ⟨h1, h2, h3, h4, h5⟩ := h
  refine mergeFile_metaOK _ _ _ h5 (mergeFile_metaOK _ _ _ h4 (mergeFile_metaOK _ _ _ h3
    (mergeFile_metaOK _ _ _ h2 (mergeFile_metaOK _ _ _ h1 ?_))))
  exact ⟨List.nodup_nil, fun x hx => absurd hx (List.not_mem_nil x)⟩

/-- One turn of the write loop when the store refuses nothing. -/
theorem writeEntry_none (now : Time) (cid : Int) (st : MergeState) (tx : DB)
    (e : Int × RawProblem) :
    writeEntry Faults.none now cid st tx e =
      { tx with
        problems := upsertBy Problem.ID tx.problems (problemRow now e.2),
        company_problems := upsertBy CompanyProblem.key tx.company_problems
          (companyProblemRow now cid e.1 (st.sourceFor.getD e.1 "") (timeFrameTag st e.1)) } :=
  rfl

theorem foldl_writeEntry_none_problems (now : Time) (cid : Int) (st : MergeState)
    (m : GoMap Int RawProblem) (tx : DB) :
    (m.foldl (writeEntry Faults.none now cid st) tx).problems =
      (m.map (fun e => problemRow now e.2)).foldl (upsertBy Problem.ID) tx.problems := by
  rw [foldl_proj (writeEntry Faults.none now cid st) DB.problems
    (fun a e => upsertBy Problem.ID a (problemRow now e.2)) (fun s e => by rw [writeEntry_none]),
    List.foldl_map]

theorem foldl_writeEntry_none_company_problems (now : Time) (cid : Int) (st : MergeState)
    (m : GoMap Int RawProblem) (tx : DB) :
    (m.foldl (writeEntry Faults.none now cid st) tx).company_problems =
      (m.map (fun e => companyProblemRow now cid e.1 (st.sourceFor.getD e.1 "")
        (timeFrameTag st e.1))).foldl (upsertBy CompanyProblem.key) tx.company_problems := by
  rw [foldl_proj (writeEntry Faults.none now cid st) DB.company_problems
    (fun a e => upsertBy CompanyProblem.key a (companyProblemRow now cid e.1
      (st.sourceFor.getD e.1 "") (timeFrameTag st e.1))) (fun s e => by rw [writeEntry_none]),
    List.foldl_map]

/-- The write loop never touches `companies`, its sequence or `problem_tags`. -/
theorem writeEntry_frame (f : Faults) (now : Time) (cid : Int) (st : MergeState) (tx : DB)
    (e : Int × RawProblem) :
    (writeEntry f now cid st tx e).companies = tx.companies ∧
    (writeEntry f now cid st tx e).companies_id_seq = tx.companies_id_seq ∧
    (writeEntry f now cid st tx e).problem_tags = tx.problem_tags := by
  unfold writeEntry upsertProblem upsertCompanyProblem
  dsimp only
  by_cases h1 : f.upsertProblem e.1 = true
  · simp [h1]
  · by_cases h2 : f.upsertCompanyProblem e.1 = true
    · simp [h1, h2]
    · simp [h1, h2]

theorem foldl_writeEntry_frame (f : Faults) (now : Time) (cid : Int) (st : MergeState)
    (m : GoMap Int RawProblem) (tx : DB) :
    (m.foldl (writeEntry f now cid st) tx).companies = tx.companies ∧
    (m.foldl (writeEntry f now cid st) tx).companies_id_seq = tx.companies_id_seq ∧
    (m.foldl (writeEntry f now cid st) tx).problem_tags = tx.problem_tags := by
  induction m generalizing tx with
  | nil => exact ⟨rfl, rfl, rfl⟩
  | cons e m ih =>
    rw [List.foldl_cons]
    have h1 := ih (writeEntry f now cid st tx e)
    have h2 := writeEntry_frame f now cid st tx e
    exact ⟨h1.1.trans h2.1, h1.2.1.trans h2.2.1, h1.2.2.trans h2.2.2⟩

/-- One turn of the write loop over a store that already holds this entry's rows, up to
their timestamps, leaves both tables as they were up to timestamps, whatever is refused. -/
theorem writeEntry_erased (f : Faults) (now1 now2 : Time) (cid : Int) (st : MergeState)
    (tx : DB) (e : Int × RawProblem)
    (hp : lookupBy Problem.ID (tx.problems.map Problem.eraseUpdatedAt) e.2.ID
      = some (problemRow now1 e.2).eraseUpdatedAt)
    (hc : lookupBy CompanyProblem.key (tx.company_problems.map CompanyProblem.eraseLastSeen)
        (cid, e.1)
      = some (companyProblemRow now1 cid e.1 (st.sourceFor.getD e.1 "")
          (timeFrameTag st e.1)).eraseLastSeen) :
    (writeEntry f now2 cid st tx e).problems.map Problem.eraseUpdatedAt
      = tx.problems.map Problem.eraseUpdatedAt ∧
    (writeEntry f now2 cid st tx e).company_problems.map CompanyProblem.eraseLastSeen
      = tx.company_problems.map CompanyProblem.eraseLastSeen := by
  have hP : (upsertBy Problem.ID tx.problems (problemRow now2 e.2)).map Problem.eraseUpdatedAt
      = tx.problems.map Problem.eraseUpdatedAt := by
    rw [upsertBy_map Problem.ID Problem.eraseUpdatedAt (fun _ => rfl)]
    exact upsertBy_eq_self Problem.ID _ _ hp
  have hC : (upsertBy CompanyProblem.key tx.company_problems
        (companyProblemRow now2 cid e.1 (st.sourceFor.getD e.1 "")
          (timeFrameTag st e.1))).map CompanyProblem.eraseLastSeen
      = tx.company_problems.map CompanyProblem.eraseLastSeen := by
    rw [upsertBy_map CompanyProblem.key CompanyProblem.eraseLastSeen (fun _ => rfl)]
    exact upsertBy_eq_self CompanyProblem.key _ _ hc
  unfold writeEntry upsertProblem upsertCompanyProblem
  dsimp only
  by_cases h1 : f.upsertProblem e.1 = true
  · simp [h1]
  · by_cases h2 : f.upsertCompanyProblem e.1 = true
    · simp only [h1, h2]
      exact ⟨hP, rfl⟩
    · simp only [h1, h2]
      exact ⟨hP, hC⟩

theorem foldl_writeEntry_erased (f : Faults) (now1 now2 : Time) (cid : Int) (st : MergeState)
    (base : DB) (m : GoMap Int RawProblem) (tx : DB)
    (hP : tx.problems.map Problem.eraseUpdatedAt = base.problems.map Problem.eraseUpdatedAt)
    (hC : tx.company_problems.map CompanyProblem.eraseLastSeen
      = base.company_problems.map CompanyProblem.eraseLastSeen)
    (hp : ∀ e ∈ m, lookupBy Problem.ID (base.problems.map Problem.eraseUpdatedAt) e.2.ID
      = some (problemRow now1 e.2).eraseUpdatedAt)
    (hc : ∀ e ∈ m,
      lookupBy CompanyProblem.key (base.company_problems.map CompanyProblem.eraseLastSeen)
        (cid, e.1)
      = some (companyProblemRow now1 cid e.1 (st.sourceFor.getD e.1 "")
          (timeFrameTag st e.1)).eraseLastSeen) :
    (m.foldl (writeEntry f now2 cid st) tx).problems.map Problem.eraseUpdatedAt
      = base.problems.map Problem.eraseUpdatedAt ∧
    (m.foldl (writeEntry f now2 cid st) tx).company_problems.map CompanyProblem.eraseLastSeen
      = base.company_problems.map CompanyProblem.eraseLastSeen := by
  induction m generalizing tx with
  | nil => exact ⟨hP, hC⟩
  | cons e m ih =>
    rw [List.foldl_cons]
    have he := writeEntry_erased f now1 now2 cid st tx e
      (by rw [hP]; exact hp e (List.mem_cons_self _ _))
      (by rw [hC]; exact hc e (List.mem_cons_self _ _))
    exact ih _ (he.1.trans hP) (he.2.trans hC)
      (fun x hx => hp x (List.mem_cons_of_mem _ hx))
      (fun x hx => hc x (List.mem_cons_of_mem _ hx))

/-- After an unrefused write loop every merged entry has its two rows stored. -/
theorem foldl_writeEntry_none_lookup (now : Time) (cid : Int) (st : MergeState) (tx : DB)
    (hst : MetaOK st) (e : Int × RawProblem) (he : e ∈ st.meta) :
    lookupBy Problem.ID (st.meta.foldl (writeEntry Faults.none now cid st) tx).problems e.2.ID
      = some (problemRow now e.2) ∧
    lookupBy CompanyProblem.key
        (st.meta.foldl (writeEntry Faults.none now cid st) tx).company_problems (cid, e.1)
      = some (companyProblemRow now cid e.1 (st.sourceFor.getD e.1 "")
          (timeFrameTag st e.1)) := by
  obtain ⟨hnd, hid⟩ := hst
  constructor
  · rw [foldl_writeEntry_none_problems]
    have hk : KeysNodup Problem.ID (st.meta.map (fun e => problemRow now e.2)) := by
      unfold KeysNodup
      rw [List.map_map]
      have : st.meta.map (Problem.ID ∘ fun e => problemRow now e.2) = st.meta.map Prod.fst :=
        List.map_congr_left (fun x hx => hid x hx)
      rw [this]
      exact hnd
    exact lookupBy_foldl_upsertBy_of_mem Problem.ID _ _ hk (problemRow now e.2)
      (List.mem_map_of_mem (fun e => problemRow now e.2) he)
  · rw [foldl_writeEntry_none_company_problems]
    have hk : KeysNodup CompanyProblem.key
        (st.meta.map (fun e => companyProblemRow now cid e.1 (st.sourceFor.getD e.1 "")
          (timeFrameTag st e.1))) := by
      unfold KeysNodup
      rw [List.map_map]
      have : st.meta.map (CompanyProblem.key ∘ fun e => companyProblemRow now cid e.1
          (st.sourceFor.getD e.1 "") (timeFrameTag st e.1))
          = (st.meta.map Prod.fst).map (fun k => (cid, k)) := by
        rw [List.map_map]
        exact List.map_congr_left (fun x _ => rfl)
      rw [this]
      exact List.Nodup.map (fun a b hab => congrArg Prod.snd hab) hnd
    exact lookupBy_foldl_upsertBy_of_mem CompanyProblem.key _ _ hk
      (companyProblemRow now cid e.1 (st.sourceFor.getD e.1 "") (timeFrameTag st e.1))
      (List.mem_map_of_mem (fun e => companyProblemRow now cid e.1 (st.sourceFor.getD e.1 "")
        (timeFrameTag st e.1)) he)

theorem selectCompanyID_congr (a b : DB) (name : String) (h : a.companies = b.companies) :
    selectCompanyID a name = selectCompanyID b name := by
  unfold selectCompanyID
  rw [h]

theorem insertCompanyReturningID_eq (db : DB) (name : String) :
    insertCompanyReturningID db name =
      match selectCompanyID db name with
      | some existing => ({ db with companies_id_seq := db.companies_id_seq + 1 }, .ok existing)
      | none =>
        if (lookupBy Company.ID db.companies (db.companies_id_seq + 1)).isSome then
          ({ db with companies_id_seq := db.companies_id_seq + 1 },
            .error "pq: duplicate key value violates unique constraint")
        else
          ({ db with
              companies_id_seq := db.companies_id_seq + 1,
              companies := db.companies ++ [{ ID := db.companies_id_seq + 1, Name := some name }] },
            .ok (db.companies_id_seq + 1)) :=
  rfl

theorem insertCompanyReturningID_ok (db : DB) (name : String) (cid : Int)
    (h : (insertCompanyReturningID db name).2 = .ok cid) :
    selectCompanyID (insertCompanyReturningID db name).1 name = some cid := by
  rw [insertCompanyReturningID_eq] at h ⊢
  generalize hsel : selectCompanyID db name = sel at h ⊢
  cases sel with
  | some existing =>
    have hex : existing = cid := by simpa using h
    show selectCompanyID { db with companies_id_seq := db.companies_id_seq + 1 } name = some cid
    rw [← hex, ← hsel]
    rfl
  | none =>
    by_cases hfree : (lookupBy Company.ID db.companies (db.companies_id_seq + 1)).isSome = true
    · simp [hfree] at h
    · have hid : db.companies_id_seq + 1 = cid := by simpa [hfree] using h
      have hnone : db.companies.find? (fun c => decide (c.Name = some name)) = none := by
        unfold selectCompanyID at hsel
        cases hf : db.companies.find? (fun c => decide (c.Name = some name)) with
        | none => rfl
        | some c => rw [hf] at hsel; simp at hsel
      simp only [hfree]
      show selectCompanyID
        { db with
          companies_id_seq := db.companies_id_seq + 1,
          companies := db.companies ++ [{ ID := db.companies_id_seq + 1, Name := some name }] }
        name = some cid
      unfold selectCompanyID
      rw [List.find?_append, hnone]
      simp [hid]

/-- The id returned by the company upsert is the id stored under the name afterwards. -/
theorem upsertCompany_ok (fault : Option String) (db : DB) (name : String) (cid : Int)
    (h : (upsertCompany fault db name).2 = .ok cid) :
    selectCompanyID (upsertCompany fault db name).1 name = some cid := by
  rcases (upsertCompany_spec fault db name).2 cid h with h1 | ⟨hf, h1⟩
  · exact h1
  · subst hf
    rw [(upsertCompany_spec Option.none db name).1]
    exact insertCompanyReturningID_ok db name cid h1

/-- Upserting a company whose name is stored leaves `companies` as it is and can only
return the stored id. -/
theorem upsertCompany_of_stored (fault : Option String) (db : DB) (name : String) (cid : Int)
    (hsel : selectCompanyID db name = some cid) :
    (upsertCompany fault db name).1.companies = db.companies ∧
    (∀ id, (upsertCompany fault db name).2 = .ok id → id = cid) ∧
    (fault = none → (upsertCompany fault db name).2 = .ok cid) := by
  have hins : insertCompanyReturningID db name
      = ({ db with companies_id_seq := db.companies_id_seq + 1 }, .ok cid) := by
    rw [insertCompanyReturningID_eq, hsel]
  have hcomp : (upsertCompany fault db name).1.companies = db.companies := by
    rw [(upsertCompany_spec fault db name).1]
    cases fault with
    | some msg => rfl
    | none => dsimp only; rw [hins]
  refine ⟨hcomp, ?_, ?_⟩
  · intro id hid
    have h2 := upsertCompany_ok fault db name id hid
    rw [selectCompanyID_congr _ db name hcomp, hsel] at h2
    exact (Option.some.inj h2).symm
  · intro hf
    subst hf
    rw [upsertCompany_eq]
    dsimp only
    rw [hins]

/-- A pass ends either right after the company upsert or after the write loop. -/
theorem processCompany_cases (f : Faults) (now : Time) (files : Files) (name : String)
    (db : DB) :
    processCompany f now files name db = (upsertCompany f.upsertCompany db name).1 ∨
    ∃ cid, (upsertCompany f.upsertCompany db name).2 = .ok cid ∧
      processCompany f now files name db =
        (mergeAll files).meta.foldl (writeEntry f now cid (mergeAll files))
          (upsertCompany f.upsertCompany db name).1 := by
  unfold processCompany
  dsimp only
  rcases upsertCompany f.upsertCompany db name with ⟨db1, res⟩
  cases res with
  | error msg => exact Or.inl rfl
  | ok id =>
    dsimp only
    split_ifs
    · exact Or.inl rfl
    · exact Or.inl rfl
    · exact Or.inr ⟨id, rfl, rfl⟩

theorem processCompany_none (now : Time) (files : Files) (name : String) (db : DB) (cid : Int)
    (h : (upsertCompany Option.none db name).2 = .ok cid) :
    processCompany Faults.none now files name db =
      (mergeAll files).meta.foldl (writeEntry Faults.none now cid (mergeAll files))
        (upsertCompany Option.none db name).1 := by
  unfold processCompany
  dsimp only [Faults.none]
  rcases hr : upsertCompany Option.none db name with ⟨db1, res⟩
  rw [hr] at h
  cases res with
  | error msg => exact absurd h (by simp)
  | ok id =>
    have : id = cid := by injection h
    subst this
    rfl

/-- Two passes over the same files: the second changes nothing but timestamps. -/
theorem processCompany_twice (f2 : Faults) (now1 now2 : Time) (files : Files) (name : String)
    (db : DB) (cid : Int) (hkeys : files.KeyedByID)
    (h1 : (upsertCompany Option.none db name).2 = .ok cid) :
    (processCompany f2 now2 files name
        (processCompany Faults.none now1 files name db)).companies
      = (processCompany Faults.none now1 files name db).companies ∧
    (processCompany f2 now2 files name
        (processCompany Faults.none now1 files name db)).problems.map Problem.eraseUpdatedAt
      = (processCompany Faults.none now1 files name db).problems.map Problem.eraseUpdatedAt ∧
    (processCompany f2 now2 files name
        (processCompany Faults.none now1 files name db)).company_problems.map
          CompanyProblem.eraseLastSeen
      = (processCompany Faults.none now1 files name db).company_problems.map
          CompanyProblem.eraseLastSeen ∧
    (processCompany f2 now2 files name
        (processCompany Faults.none now1 files name db)).problem_tags
      = (processCompany Faults.none now1 files name db).problem_tags ∧
    selectCompanyID (processCompany Faults.none now1 files name db) name = some cid ∧
    (∀ id, (upsertCompany f2.upsertCompany
        (processCompany Faults.none now1 files name db) name).2 = .ok id → id = cid) ∧
    (upsertCompany Option.none (processCompany Faults.none now1 files name db) name).2
      = .ok cid := by
  have hst := mergeAll_metaOK files hkeys
  have hA := processCompany_none now1 files name db cid h1
  generalize processCompany Faults.none now1 files name db = dbA at hA ⊢
  have hframe := foldl_writeEntry_frame Faults.none now1 cid (mergeAll files)
    (mergeAll files).meta (upsertCompany Option.none db name).1
  rw [← hA] at hframe
  have hsel : selectCompanyID dbA name = some cid := by
    rw [selectCompanyID_congr dbA _ name hframe.1]
    exact upsertCompany_ok Option.none db name cid h1
  have hlook := fun e he => foldl_writeEntry_none_lookup now1 cid (mergeAll files)
    (upsertCompany Option.none db name).1 hst e he
  rw [← hA] at hlook
  have hu := upsertCompany_of_stored f2.upsertCompany dbA name cid hsel
  have hu0 := upsertCompany_of_stored Option.none dbA name cid hsel
  have ht := upsertCompany_tables f2.upsertCompany dbA name
  refine ⟨?_, ?_, ?_, ?_, hsel, hu.2.1, hu0.2.2 rfl⟩
  all_goals rcases processCompany_cases f2 now2 files name dbA with hc | ⟨id, hid, hc⟩
  · rw [hc]; exact hu.1
  · rw [hc, (foldl_writeEntry_frame f2 now2 id _ _ _).1]; exact hu.1
  · rw [hc, ht.1]
  · rw [hc]
    have hidc : id = cid := hu.2.1 id hid
    subst hidc
    exact (foldl_writeEntry_erased f2 now1 now2 id (mergeAll files) dbA _ _
      (by rw [ht.1]) (by rw [ht.2.2])
      (fun e he => by
        rw [lookupBy_map Problem.ID Problem.eraseUpdatedAt (fun _ => rfl), (hlook e he).1]; rfl)
      (fun e he => by
        rw [lookupBy_map CompanyProblem.key CompanyProblem.eraseLastSeen (fun _ => rfl),
          (hlook e he).2]; rfl)).1
  · rw [hc, ht.2.2]
  · rw [hc]
    have hidc : id = cid := hu.2.1 id hid
    subst hidc
    exact (foldl_writeEntry_erased f2 now1 now2 id (mergeAll files) dbA _ _
      (by rw [ht.1]) (by rw [ht.2.2])
      (fun e he => by
        rw [lookupBy_map Problem.ID Problem.eraseUpdatedAt (fun _ => rfl), (hlook e he).1]; rfl)
      (fun e he => by
        rw [lookupBy_map CompanyProblem.key CompanyProblem.eraseLastSeen (fun _ => rfl),
          (hlook e he).2]; rfl)).2
  · rw [hc, ht.2.1]
  · rw [hc, (foldl_writeEntry_frame f2 now2 id _ _ _).2.2, ht.2.1]

/-- C8: two passes in a row for the same company over the same window files, the first
one unrefused and with its company upsert answered: after the second pass, whatever the
store refuses in it, `companies` is the same table, `problems` is the same up to
`updated_at`, `company_problems` is the same up to `last_seen` (and `problem_tags` is
untouched); the company keeps its id: the second upsert can only return the id of the
first, and returns it when it is not refused. -/
theorem ingest_idempotent_up_to_timestamps (f2 : Faults) (now1 now2 : Time) (files : Files)
    (name : String) (db : DB) (cid : Int) (hkeys : files.KeyedByID)
    (h1 : (upsertCompany Option.none db name).2 = .ok cid) :
    (processCompany f2 now2 files name
        (processCompany Faults.none now1 files name db)).companies
      = (processCompany Faults.none now1 files name db).companies ∧
    (processCompany f2 now2 files name
        (processCompany Faults.none now1 files name db)).problems.map Problem.eraseUpdatedAt
      = (processCompany Faults.none now1 files name db).problems.map Problem.eraseUpdatedAt ∧
    (processCompany f2 now2 files name
        (processCompany Faults.none now1 files name db)).company_problems.map
          CompanyProblem.eraseLastSeen
      = (processCompany Faults.none now1 files name db).company_problems.map
          CompanyProblem.eraseLastSeen ∧
    (processCompany f2 now2 files name
        (processCompany Faults.none now1 files name db)).problem_tags
      = (processCompany Faults.none now1 files name db).problem_tags ∧
    selectCompanyID (processCompany Faults.none now1 files name db) name = some cid ∧
    (∀ id, (upsertCompany f2.upsertCompany
        (processCompany Faults.none now1 files name db) name).2 = .ok id → id = cid) ∧
    (upsertCompany Option.none (processCompany Faults.none now1 files name db) name).2
      = .ok cid :=
  processCompany_twice f2 now1 now2 files name db cid hkeys h1

theorem ingest_idempotent_up_to_timestamps_witness :
    (processCompany Faults.none 20 sampleFiles "acme"
        (processCompany Faults.none 10 sampleFiles "acme" emptyDB)).problems.map
          Problem.eraseUpdatedAt
      = (processCompany Faults.none 10 sampleFiles "acme" emptyDB).problems.map
          Problem.eraseUpdatedAt ∧
    selectCompanyID (processCompany Faults.none 10 sampleFiles "acme" emptyDB) "acme" = some 1 :=
  ⟨(ingest_idempotent_up_to_timestamps Faults.none 10 20 sampleFiles "acme" emptyDB 1
      (by decide) rfl).2.1,
   (ingest_idempotent_up_to_timestamps Faults.none 10 20 sampleFiles "acme" emptyDB 1
      (by decide) rfl).2.2.2.2.1⟩

/-! ## Replication: one table -/

theorem map_eq_self {A : Type} (g : A → A) (h : ∀ x, g x = x) (l : List A) : l.map g = l := by
  induction l with
  | nil => rfl
  | cons x l ih => rw [List.map_cons, ih, h]

/-- A companies sync either returns an error and the destination as it was, or returns
no error and the destination with every source row upserted. -/
theorem bulkSyncCompanies_cases (s : TableSync) (localDB remote : DB) :
    (∃ e, bulkSyncCompanies s localDB remote = (remote, some e)) ∨
    bulkSyncCompanies s localDB remote =
      ({ remote with
          companies := (delivered s.readStop localDB.companies).foldl (upsertBy Company.ID)
              remote.companies }, none) := by
  rcases s with ⟨fault, stop⟩
  cases fault with
  | some st => cases st <;> exact Or.inl ⟨_, rfl⟩
  | none =>
    right
    unfold bulkSyncCompanies
    dsimp only
    rw [map_eq_self _ (fun c => by rcases c with ⟨id, n⟩; cases n <;> rfl)]
    rfl

theorem bulkSyncProblems_cases (s : TableSync) (localDB remote : DB) :
    (∃ e, bulkSyncProblems s localDB remote = (remote, some e)) ∨
    bulkSyncProblems s localDB remote =
      ({ remote with
          problems := (delivered s.readStop localDB.problems).foldl (upsertBy Problem.ID)
              remote.problems }, none) := by
  rcases s with ⟨fault, stop⟩
  cases fault with
  | some st => cases st <;> exact Or.inl ⟨_, rfl⟩
  | none =>
    right
    unfold bulkSyncProblems
    dsimp only
    rw [map_eq_self _ (fun p => by
      rcases p with ⟨id, u, t, d, a, f, w⟩
      cases u <;> cases t <;> cases d <;> cases a <;> cases f <;> rfl)]
    rfl

theorem bulkSyncProblemTags_cases (s : TableSync) (localDB remote : DB) :
    (∃ e, bulkSyncProblemTags s localDB remote = (remote, some e)) ∨
    bulkSyncProblemTags s localDB remote =
      ({ remote with
          problem_tags :=
            (delivered s.readStop localDB.problem_tags).foldl (upsertBy ProblemTag.key)
                remote.problem_tags }, none) := by
  rcases s with ⟨fault, stop⟩
  cases fault with
  | some st => cases st <;> exact Or.inl ⟨_, rfl⟩
  | none =>
    right
    unfold bulkSyncProblemTags
    dsimp only
    rw [map_eq_self _ (fun t => by rcases t with ⟨p, g, a⟩; rfl)]
    rfl

theorem bulkSyncCompanyProblems_cases (s : TableSync) (localDB remote : DB) :
    (∃ e, bulkSyncCompanyProblems s localDB remote = (remote, some e)) ∨
    bulkSyncCompanyProblems s localDB remote =
      ({ remote with
          company_problems :=
            (delivered s.readStop localDB.company_problems).foldl (upsertBy CompanyProblem.key)
              remote.company_problems }, none) := by
  rcases s with ⟨fault, stop⟩
  cases fault with
  | some st => cases st <;> exact Or.inl ⟨_, rfl⟩
  | none =>
    right
    unfold bulkSyncCompanyProblems
    dsimp only
    rw [map_eq_self _ (fun cp => by
      rcases cp with ⟨c, p, sf, tf, ls⟩
      cases sf <;> cases tf <;> rfl)]
    rfl

/-- What a committed bulk upsert guarantees about the table it wrote. -/
theorem mirror_of_foldl_upsertBy {R K : Type} [DecidableEq K] (key : R → K) (s d : List R)
    (hs : KeysNodup key s) :
    (∀ r ∈ s, lookupBy key (s.foldl (upsertBy key) d) (key r) = some r) ∧
    (∀ x ∈ s.foldl (upsertBy key) d, x ∈ s ∨ x ∈ d) :=
  ⟨fun r hr => lookupBy_foldl_upsertBy_of_mem key s d hs r hr,
   fun x hx => mem_foldl_upsertBy key s d x hx⟩

/-- Anatomy of a run that ends without a fatal error. -/
theorem supabaseSyncMain_ok (f : SyncFaults) (localDB remote : DB)
    (h : (supabaseSyncMain f localDB remote).fatal = none) :
    ∃ r1 r2 r3 r4 r5,
      bulkSyncCompanies f.companies localDB remote = (r1, none) ∧
      bulkSyncProblems f.problems localDB r1 = (r2, none) ∧
      bulkSyncProblemTags f.problem_tags localDB r2 = (r3, none) ∧
      bulkSyncCompanyProblems f.company_problems localDB r3 = (r4, none) ∧
      fixSerialSequence f.fixSequence r4 "companies" "id" = (r5, none) ∧
      supabaseSyncMain f localDB remote =
        { remote := r5,
          log := ["syncing companies (bulk)...", "syncing problems (bulk)...",
            "syncing problem_tags (bulk)...", "syncing company_problems (bulk)...",
            "fixing sequences...", "bulk sync complete"],
          fatal := none } := by
  rcases h1 : bulkSyncCompanies f.companies localDB remote with ⟨r1, _ | e1⟩
  swap
  · simp [supabaseSyncMain, h1] at h
  rcases h2 : bulkSyncProblems f.problems localDB r1 with ⟨r2, _ | e2⟩
  swap
  · simp [supabaseSyncMain, h1, h2] at h
  rcases h3 : bulkSyncProblemTags f.problem_tags localDB r2 with ⟨r3, _ | e3⟩
  swap
  · simp [supabaseSyncMain, h1, h2, h3] at h
  rcases h4 : bulkSyncCompanyProblems f.company_problems localDB r3 with ⟨r4, _ | e4⟩
  swap
  · simp [supabaseSyncMain, h1, h2, h3, h4] at h
  rcases h5 : fixSerialSequence f.fixSequence r4 "companies" "id" with ⟨r5, _ | e5⟩
  swap
  · simp [supabaseSyncMain, h1, h2, h3, h4, h5] at h
  refine ⟨r1, r2, r3, r4, r5, rfl, h2, h3, h4, h5, ?_⟩
  simp [supabaseSyncMain, h1, h2, h3, h4, h5]


theorem fixSerialSequence_companies (fault : Bool) (remote r5 : DB)
    (h : fixSerialSequence fault remote "companies" "id" = (r5, none)) :
    r5 = { remote with
            companies_id_seq := (sqlMax (remote.companies.map Company.ID)).getD 0 } := by
  unfold fixSerialSequence at h
  cases fault with
  | true => simp at h
  | false =>
    simp only [Bool.false_eq_true, if_false, true_and, if_true] at h
    exact (congrArg Prod.fst h).symm

theorem fixSerialSequence_cases (fault : Bool) (remote : DB) :
    (∃ e, fixSerialSequence fault remote "companies" "id" = (remote, some e)) ∨
    fixSerialSequence fault remote "companies" "id" =
      ({ remote with
          companies_id_seq := (sqlMax (remote.companies.map Company.ID)).getD 0 }, none) := by
  unfold fixSerialSequence
  cases fault with
  | true => exact Or.inl ⟨_, rfl⟩
  | false => exact Or.inr rfl

theorem le_foldl_max (t : List Int) (x : Int) :
    x ≤ t.foldl max x ∧ ∀ y ∈ t, y ≤ t.foldl max x := by
  induction t generalizing x with
  | nil => exact ⟨le_refl x, fun y hy => absurd hy (List.not_mem_nil y)⟩
  | cons a t ih =>
    rw [List.foldl_cons]
    have h := ih (max x a)
    refine ⟨le_trans (le_max_left x a) h.1, ?_⟩
    intro y hy
    rcases List.mem_cons.1 hy with h1 | h1
    · rw [h1]; exact le_trans (le_max_right x a) h.1
    · exact h.2 y h1

theorem le_sqlMax (l : List Int) (y : Int) (hy : y ∈ l) : y ≤ (sqlMax l).getD 0 := by
  cases l with
  | nil => exact absurd hy (List.not_mem_nil y)
  | cons x t =>
    show y ≤ t.foldl max x
    rcases List.mem_cons.1 hy with h1 | h1
    · rw [h1]; exact (le_foldl_max t x).1
    · exact (le_foldl_max t x).2 y h1

theorem sqlMax_of_nonneg (l : List Int) (h : ∀ y ∈ l, 0 ≤ y) :
    (sqlMax l).getD 0 = l.foldl max 0 := by
  cases l with
  | nil => rfl
  | cons x t =>
    show t.foldl max x = t.foldl max (max 0 x)
    rw [max_eq_right (h x (List.mem_cons_self _ _))]

/-- An unrefused upsert of a new name, with the sequence at or above every stored id,
creates the company under the sequence's next value. -/
theorem upsertCompany_new (db : DB) (name : String)
    (hseq : ∀ c ∈ db.companies, c.ID ≤ db.companies_id_seq)
    (hnew : selectCompanyID db name = none) :
    (upsertCompany Option.none db name).2 = .ok (db.companies_id_seq + 1) := by
  have hfree : lookupBy Company.ID db.companies (db.companies_id_seq + 1) = none :=
    (lookupBy_eq_none_iff Company.ID _ _).2 (fun c hc heq => by
      have := hseq c hc
      omega)
  rw [upsertCompany_eq]
  dsimp only
  rw [insertCompanyReturningID_eq, hnew]
  dsimp only
  rw [hfree]
  rfl

theorem bulkSyncCompanies_ok (s : TableSync) (localDB remote r1 : DB)
    (h : bulkSyncCompanies s localDB remote = (r1, none)) :
    r1 = { remote with
            companies := (delivered s.readStop localDB.companies).foldl (upsertBy Company.ID)
                remote.companies } := by
  rcases bulkSyncCompanies_cases s localDB remote with ⟨e, he⟩ | he
  · rw [he] at h; simp at h
  · rw [he] at h; exact (congrArg Prod.fst h).symm

theorem bulkSyncProblems_ok (s : TableSync) (localDB remote r1 : DB)
    (h : bulkSyncProblems s localDB remote = (r1, none)) :
    r1 = { remote with
            problems := (delivered s.readStop localDB.problems).foldl (upsertBy Problem.ID)
                remote.problems } := by
  rcases bulkSyncProblems_cases s localDB remote with ⟨e, he⟩ | he
  · rw [he] at h; simp at h
  · rw [he] at h; exact (congrArg Prod.fst h).symm

theorem bulkSyncProblemTags_ok (s : TableSync) (localDB remote r1 : DB)
    (h : bulkSyncProblemTags s localDB remote = (r1, none)) :
    r1 = { remote with
            problem_tags :=
              (delivered s.readStop localDB.problem_tags).foldl (upsertBy ProblemTag.key)
                  remote.problem_tags } := by
  rcases bulkSyncProblemTags_cases s localDB remote with ⟨e, he⟩ | he
  · rw [he] at h; simp at h
  · rw [he] at h; exact (congrArg Prod.fst h).symm

theorem bulkSyncCompanyProblems_ok (s : TableSync) (localDB remote r1 : DB)
    (h : bulkSyncCompanyProblems s localDB remote = (r1, none)) :
    r1 = { remote with
            company_problems :=
              (delivered s.readStop localDB.company_problems).foldl (upsertBy CompanyProblem.key)
                remote.company_problems } := by
  rcases bulkSyncCompanyProblems_cases s localDB remote with ⟨e, he⟩ | he
  · rw [he] at h; simp at h
  · rw [he] at h; exact (congrArg Prod.fst h).symm

/-- A sync that returns an error returns the destination as it was. -/
theorem bulkSync_error_unchanged (s : TableSync) (localDB remote r1 : DB) (e : String) :
    (bulkSyncCompanies s localDB remote = (r1, some e) → r1 = remote) ∧
    (bulkSyncProblems s localDB remote = (r1, some e) → r1 = remote) ∧
    (bulkSyncProblemTags s localDB remote = (r1, some e) → r1 = remote) ∧
    (bulkSyncCompanyProblems s localDB remote = (r1, some e) → r1 = remote) := by
  refine ⟨fun h => ?_, fun h => ?_, fun h => ?_, fun h => ?_⟩
  · rcases bulkSyncCompanies_cases s localDB remote with ⟨e', he⟩ | he
    · rw [he] at h; exact (congrArg Prod.fst h).symm
    · rw [he] at h; simp at h
  · rcases bulkSyncProblems_cases s localDB remote with ⟨e', he⟩ | he
    · rw [he] at h; exact (congrArg Prod.fst h).symm
    · rw [he] at h; simp at h
  · rcases bulkSyncProblemTags_cases s localDB remote with ⟨e', he⟩ | he
    · rw [he] at h; exact (congrArg Prod.fst h).symm
    · rw [he] at h; simp at h
  · rcases bulkSyncCompanyProblems_cases s localDB remote with ⟨e', he⟩ | he
    · rw [he] at h; exact (congrArg Prod.fst h).symm
    · rw [he] at h; simp at h

/-- Tables and sequence of the destination after a run that ended without fatal error. -/
theorem supabaseSyncMain_ok_remote (f : SyncFaults) (localDB remote : DB)
    (h : (supabaseSyncMain f localDB remote).fatal = none) :
    (supabaseSyncMain f localDB remote).remote =
      { companies := (delivered f.companies.readStop localDB.companies).foldl (upsertBy Company.ID)
          remote.companies,
        companies_id_seq :=
          (sqlMax (((delivered f.companies.readStop localDB.companies).foldl (upsertBy Company.ID)
              remote.companies).map
            Company.ID)).getD 0,
        problems := (delivered f.problems.readStop localDB.problems).foldl (upsertBy Problem.ID)
            remote.problems,
        problem_tags :=
          (delivered f.problem_tags.readStop localDB.problem_tags).foldl (upsertBy ProblemTag.key)
              remote.problem_tags,
        company_problems :=
          (delivered f.company_problems.readStop localDB.company_problems).foldl (upsertBy CompanyProblem.key)
            remote.company_problems } := by
  obtain ⟨r1, r2, r3, r4, r5, h1, h2, h3, h4, h5, hrun⟩ := supabaseSyncMain_ok f localDB remote h
  rw [hrun]
  have e1 := bulkSyncCompanies_ok _ _ _ _ h1
  have e2 := bulkSyncProblems_ok _ _ _ _ h2
  have e3 := bulkSyncProblemTags_ok _ _ _ _ h3
  have e4 := bulkSyncCompanyProblems_ok _ _ _ _ h4
  have e5 := fixSerialSequence_companies f.fixSequence r4 r5 h5
  rw [e5, e4, e3, e2, e1]

/-- A destination that already holds every source row, with the sequence at the largest
company id, is left as it is by a whole run, whatever is refused. -/
theorem supabaseSyncMain_fixed (f : SyncFaults) (localDB R : DB)
    (hc : (delivered f.companies.readStop localDB.companies).foldl (upsertBy Company.ID)
        R.companies = R.companies)
    (hp : (delivered f.problems.readStop localDB.problems).foldl (upsertBy Problem.ID)
        R.problems = R.problems)
    (ht : (delivered f.problem_tags.readStop localDB.problem_tags).foldl (upsertBy ProblemTag.key)
        R.problem_tags = R.problem_tags)
    (hcp :
        (delivered f.company_problems.readStop localDB.company_problems).foldl (upsertBy CompanyProblem.key)
        R.company_problems
      = R.company_problems)
    (hs : (sqlMax (R.companies.map Company.ID)).getD 0 = R.companies_id_seq) :
    (supabaseSyncMain f localDB R).remote = R := by
  have k1 : ∀ r e, bulkSyncCompanies f.companies localDB R = (r, e) → r = R := by
    intro r e h
    rcases bulkSyncCompanies_cases f.companies localDB R with ⟨e', he⟩ | he
    · rw [he] at h; exact (congrArg Prod.fst h).symm
    · rw [he, hc] at h; exact (congrArg Prod.fst h).symm
  have k2 : ∀ r e, bulkSyncProblems f.problems localDB R = (r, e) → r = R := by
    intro r e h
    rcases bulkSyncProblems_cases f.problems localDB R with ⟨e', he⟩ | he
    · rw [he] at h; exact (congrArg Prod.fst h).symm
    · rw [he, hp] at h; exact (congrArg Prod.fst h).symm
  have k3 : ∀ r e, bulkSyncProblemTags f.problem_tags localDB R = (r, e) → r = R := by
    intro r e h
    rcases bulkSyncProblemTags_cases f.problem_tags localDB R with ⟨e', he⟩ | he
    · rw [he] at h; exact (congrArg Prod.fst h).symm
    · rw [he, ht] at h; exact (congrArg Prod.fst h).symm
  have k4 : ∀ r e, bulkSyncCompanyProblems f.company_problems localDB R = (r, e) → r = R := by
    intro r e h
    rcases bulkSyncCompanyProblems_cases f.company_problems localDB R with ⟨e', he⟩ | he
    · rw [he] at h; exact (congrArg Prod.fst h).symm
    · rw [he, hcp] at h; exact (congrArg Prod.fst h).symm
  have k5 : ∀ r e, fixSerialSequence f.fixSequence R "companies" "id" = (r, e) → r = R := by
    intro r e h
    rcases fixSerialSequence_cases f.fixSequence R with ⟨e', he⟩ | he
    · rw [he] at h; exact (congrArg Prod.fst h).symm
    · rw [he, hs] at h; exact (congrArg Prod.fst h).symm
  rcases h1 : bulkSyncCompanies f.companies localDB R with ⟨r1, _ | e1⟩
  swap
  · have := k1 _ _ h1; subst this; simp [supabaseSyncMain, h1]
  have := k1 _ _ h1; subst this
  rcases h2 : bulkSyncProblems f.problems localDB r1 with ⟨r2, _ | e2⟩
  swap
  · have := k2 _ _ h2; subst this; simp [supabaseSyncMain, h1, h2]
  have := k2 _ _ h2; subst this
  rcases h3 : bulkSyncProblemTags f.problem_tags localDB r2 with ⟨r3, _ | e3⟩
  swap
  · have := k3 _ _ h3; subst this; simp [supabaseSyncMain, h1, h2, h3]
  have := k3 _ _ h3; subst this
  rcases h4 : bulkSyncCompanyProblems f.company_problems localDB r3 with ⟨r4, _ | e4⟩
  swap
  · have := k4 _ _ h4; subst this; simp [supabaseSyncMain, h1, h2, h3, h4]
  have := k4 _ _ h4; subst this
  rcases h5 : fixSerialSequence f.fixSequence r4 "companies" "id" with ⟨r5, _ | e5⟩
  swap
  · have := k5 _ _ h5; subst this; simp [supabaseSyncMain, h1, h2, h3, h4, h5]
  have := k5 _ _ h5; subst this
  simp [supabaseSyncMain, h1, h2, h3, h4, h5]

/-- Rows delivered by a stream are rows of the table read. -/
theorem mem_of_mem_delivered {R : Type} (stop : Option Nat) (rows : List R) (r : R)
    (h : r ∈ delivered stop rows) : r ∈ rows := by
  cases stop with
  | none => exact h
  | some k => exact List.mem_of_mem_take h

/-- Upserting rows a stream delivers into a table that already holds every row of the
source changes nothing. -/
theorem foldl_upsertBy_delivered {R K : Type} [DecidableEq K] (key : R → K) (s d : List R)
    (hs : KeysNodup key s) (stop : Option Nat) :
    (delivered stop s).foldl (upsertBy key) (s.foldl (upsertBy key) d)
      = s.foldl (upsertBy key) d :=
  foldl_upsertBy_eq_self key _ _ (fun r hr =>
    lookupBy_foldl_upsertBy_of_mem key s d hs r (mem_of_mem_delivered stop s r hr))

theorem supabaseSyncMain_twice (f1 f2 : SyncFaults) (localDB remote : DB) (hwf : localDB.WF)
    (h1 : (supabaseSyncMain f1 localDB remote).fatal = none)
    (hread : f1.ReadsComplete localDB) :
    (supabaseSyncMain f2 localDB (supabaseSyncMain f1 localDB remote).remote).remote
      = (supabaseSyncMain f1 localDB remote).remote := by
  obtain ⟨w1, w2, w3, w4⟩ := hwf
  obtain ⟨c1, c2, c3, c4⟩ := hread
  rw [supabaseSyncMain_ok_remote f1 localDB remote h1, c1, c2, c3, c4]
  exact supabaseSyncMain_fixed f2 localDB _
    (foldl_upsertBy_delivered Company.ID _ _ w1 _) (foldl_upsertBy_delivered Problem.ID _ _ w2 _)
    (foldl_upsertBy_delivered ProblemTag.key _ _ w3 _)
    (foldl_upsertBy_delivered CompanyProblem.key _ _ w4 _)
    rfl

theorem supabaseSyncMain_none_ok (localDB remote : DB) :
    (supabaseSyncMain SyncFaults.none localDB remote).fatal = none := by
  have k1 : ∀ r, (bulkSyncCompanies TableSync.none localDB r).2 = none := fun r => by
    rcases bulkSyncCompanies_cases TableSync.none localDB r with ⟨e, he⟩ | he
    · exact absurd (congrArg Prod.snd he) (by unfold bulkSyncCompanies; simp [TableSync.none])
    · rw [he]
  have k2 : ∀ r, (bulkSyncProblems TableSync.none localDB r).2 = none := fun r => by
    rcases bulkSyncProblems_cases TableSync.none localDB r with ⟨e, he⟩ | he
    · exact absurd (congrArg Prod.snd he) (by unfold bulkSyncProblems; simp [TableSync.none])
    · rw [he]
  have k3 : ∀ r, (bulkSyncProblemTags TableSync.none localDB r).2 = none := fun r => by
    rcases bulkSyncProblemTags_cases TableSync.none localDB r with ⟨e, he⟩ | he
    · exact absurd (congrArg Prod.snd he) (by unfold bulkSyncProblemTags; simp [TableSync.none])
    · rw [he]
  have k4 : ∀ r, (bulkSyncCompanyProblems TableSync.none localDB r).2 = none := fun r => by
    rcases bulkSyncCompanyProblems_cases TableSync.none localDB r with ⟨e, he⟩ | he
    · exact absurd (congrArg Prod.snd he) (by unfold bulkSyncCompanyProblems; simp [TableSync.none])
    · rw [he]
  unfold supabaseSyncMain
  dsimp only [SyncFaults.none]
  rcases h1 : bulkSyncCompanies TableSync.none localDB remote with ⟨r1, e1⟩
  have := k1 remote; rw [h1] at this; dsimp only at this; subst this
  dsimp only
  rcases h2 : bulkSyncProblems TableSync.none localDB r1 with ⟨r2, e2⟩
  have := k2 r1; rw [h2] at this; dsimp only at this; subst this
  dsimp only
  rcases h3 : bulkSyncProblemTags TableSync.none localDB r2 with ⟨r3, e3⟩
  have := k3 r2; rw [h3] at this; dsimp only at this; subst this
  dsimp only
  rcases h4 : bulkSyncCompanyProblems TableSync.none localDB r3 with ⟨r4, e4⟩
  have := k4 r3; rw [h4] at this; dsimp only at this; subst this
  rfl

/-! ## Claims on replication -/

theorem keysNodup_delivered {R K : Type} (key : R → K) (stop : Option Nat) (rows : List R)
    (h : KeysNodup key rows) : KeysNodup key (delivered stop rows) := by
  cases stop with
  | none => exact h
  | some k =>
    unfold KeysNodup at h ⊢
    exact h.sublist ((List.take_sublist k rows).map key)

/-- After a table's sync has committed (no error returned), the destination table holds,
for every row the source stream delivered, a row under the same primary key that equals
the source row in every column, NULLs included, whether the key was new (insert) or
already there (overwrite); every row of the destination table then comes from the
delivered rows or was there before, and the companies sequence is not consulted: no key
is generated.  When the stream delivers the whole table, the destination table mirrors
it. -/
theorem sync_mirrors_delivered_rows (s : TableSync) (localDB remote : DB)
    (hwf : localDB.WF) :
    ((bulkSyncCompanies s localDB remote).2 = none →
      (∀ c ∈ delivered s.readStop localDB.companies,
        lookupBy Company.ID (bulkSyncCompanies s localDB remote).1.companies c.ID = some c) ∧
      (∀ c ∈ (bulkSyncCompanies s localDB remote).1.companies,
        c ∈ delivered s.readStop localDB.companies ∨ c ∈ remote.companies) ∧
      (bulkSyncCompanies s localDB remote).1.companies_id_seq = remote.companies_id_seq) ∧
    ((bulkSyncProblems s localDB remote).2 = none →
      (∀ p ∈ delivered s.readStop localDB.problems,
        lookupBy Problem.ID (bulkSyncProblems s localDB remote).1.problems p.ID = some p) ∧
      (∀ p ∈ (bulkSyncProblems s localDB remote).1.problems,
        p ∈ delivered s.readStop localDB.problems ∨ p ∈ remote.problems)) ∧
    ((bulkSyncProblemTags s localDB remote).2 = none →
      (∀ t ∈ delivered s.readStop localDB.problem_tags,
        lookupBy ProblemTag.key (bulkSyncProblemTags s localDB remote).1.problem_tags
          (t.ProblemID, t.Tag) = some t) ∧
      (∀ t ∈ (bulkSyncProblemTags s localDB remote).1.problem_tags,
        t ∈ delivered s.readStop localDB.problem_tags ∨ t ∈ remote.problem_tags)) ∧
    ((bulkSyncCompanyProblems s localDB remote).2 = none →
      (∀ cp ∈ delivered s.readStop localDB.company_problems,
        lookupBy CompanyProblem.key
          (bulkSyncCompanyProblems s localDB remote).1.company_problems
          (cp.CompanyID, cp.ProblemID) = some cp) ∧
      (∀ cp ∈ (bulkSyncCompanyProblems s localDB remote).1.company_problems,
        cp ∈ delivered s.readStop localDB.company_problems ∨ cp ∈ remote.company_problems)) := by
  obtain ⟨h1, h2, h3, h4⟩ := hwf
  refine ⟨?_, ?_, ?_, ?_⟩
  · intro h
    rcases bulkSyncCompanies_cases s localDB remote with ⟨e, he⟩ | he
    · rw [he] at h; exact absurd h (by simp)
    · rw [he]
      have hm := mirror_of_foldl_upsertBy Company.ID (delivered s.readStop localDB.companies)
        remote.companies (keysNodup_delivered _ _ _ h1)
      exact ⟨hm.1, hm.2, rfl⟩
  · intro h
    rcases bulkSyncProblems_cases s localDB remote with ⟨e, he⟩ | he
    · rw [he] at h; exact absurd h (by simp)
    · rw [he]
      exact mirror_of_foldl_upsertBy Problem.ID (delivered s.readStop localDB.problems)
        remote.problems (keysNodup_delivered _ _ _ h2)
  · intro h
    rcases bulkSyncProblemTags_cases s localDB remote with ⟨e, he⟩ | he
    · rw [he] at h; exact absurd h (by simp)
    · rw [he]
      exact mirror_of_foldl_upsertBy ProblemTag.key (delivered s.readStop localDB.problem_tags)
        remote.problem_tags (keysNodup_delivered _ _ _ h3)
  · intro h
    rcases bulkSyncCompanyProblems_cases s localDB remote with ⟨e, he⟩ | he
    · rw [he] at h; exact absurd h (by simp)
    · rw [he]
      exact mirror_of_foldl_upsertBy CompanyProblem.key
        (delivered s.readStop localDB.company_problems) remote.company_problems
        (keysNodup_delivered _ _ _ h4)

/-- C5 (defect of the code): no sync checks `rows.Err()` after its loop `for rows.Next()`.
When the stream of the source companies breaks after the first of the two rows, the
companies sync returns no error and commits, the whole run completes, and the destination
holds no row under the id of the second source company; had the stream delivered both
rows, the destination would hold it. -/
theorem broken_read_commits_partial_copy :
    ({ ID := 2, Name := none } : Company) ∈ sampleLocal.companies ∧
    (bulkSyncCompanies { fault := none, readStop := some 1 } sampleLocal sampleRemote).2 = none ∧
    lookupBy Company.ID
      (bulkSyncCompanies { fault := none, readStop := some 1 } sampleLocal sampleRemote).1.companies
      2 = none ∧
    (supabaseSyncMain companiesReadBreaks sampleLocal sampleRemote).fatal = none ∧
    lookupBy Company.ID
      (supabaseSyncMain companiesReadBreaks sampleLocal sampleRemote).remote.companies 2 = none ∧
    lookupBy Company.ID
      (bulkSyncCompanies TableSync.none sampleLocal sampleRemote).1.companies 2
        = some { ID := 2, Name := none } := by
  refine ⟨by decide, rfl, by decide, rfl, by decide, by decide⟩

/-- C6: a replication run syncs companies, problems, problem_tags, company_problems in
that order and stops at the first sync that returns an error: the lines it logs are a
prefix of the fixed sequence, and when the sync of a table fails the run ends there with
the destination left as the earlier syncs committed it, so the failing table and every
later table are as they were before the run.  In particular a failed problems sync
leaves `problems`, `problem_tags` and `company_problems` unwritten. -/
theorem sync_stops_at_first_failure (f : SyncFaults) (localDB remote : DB) :
    (supabaseSyncMain f localDB remote).log <+:
      ["syncing companies (bulk)...", "syncing problems (bulk)...",
       "syncing problem_tags (bulk)...", "syncing company_problems (bulk)...",
       "fixing sequences...", "bulk sync complete"] ∧
    (∀ r1 e, bulkSyncCompanies f.companies localDB remote = (r1, some e) →
      supabaseSyncMain f localDB remote =
        { remote := remote, log := ["syncing companies (bulk)..."],
          fatal := some ("companies sync failed: " ++ e) }) ∧
    (∀ r1 r2 e, bulkSyncCompanies f.companies localDB remote = (r1, none) →
      bulkSyncProblems f.problems localDB r1 = (r2, some e) →
      supabaseSyncMain f localDB remote =
        { remote := r1, log := ["syncing companies (bulk)...", "syncing problems (bulk)..."],
          fatal := some ("problems sync failed: " ++ e) } ∧
      r1.problems = remote.problems ∧ r1.problem_tags = remote.problem_tags ∧
      r1.company_problems = remote.company_problems) ∧
    (∀ r1 r2 r3 e, bulkSyncCompanies f.companies localDB remote = (r1, none) →
      bulkSyncProblems f.problems localDB r1 = (r2, none) →
      bulkSyncProblemTags f.problem_tags localDB r2 = (r3, some e) →
      supabaseSyncMain f localDB remote =
        { remote := r2,
          log := ["syncing companies (bulk)...", "syncing problems (bulk)...",
            "syncing problem_tags (bulk)..."],
          fatal := some ("problem_tags sync failed: " ++ e) } ∧
      r2.problem_tags = remote.problem_tags ∧ r2.company_problems = remote.company_problems) ∧
    (∀ r1 r2 r3 r4 e, bulkSyncCompanies f.companies localDB remote = (r1, none) →
      bulkSyncProblems f.problems localDB r1 = (r2, none) →
      bulkSyncProblemTags f.problem_tags localDB r2 = (r3, none) →
      bulkSyncCompanyProblems f.company_problems localDB r3 = (r4, some e) →
      supabaseSyncMain f localDB remote =
        { remote := r3,
          log := ["syncing companies (bulk)...", "syncing problems (bulk)...",
            "syncing problem_tags (bulk)...", "syncing company_problems (bulk)..."],
          fatal := some ("company_problems sync failed: " ++ e) } ∧
      r3.company_problems = remote.company_problems) := by
  refine ⟨?_, ?_, ?_, ?_, ?_⟩
  · rcases h1 : bulkSyncCompanies f.companies localDB remote with ⟨r1, _ | e1⟩
    swap
    · simp only [supabaseSyncMain, h1]; exact ⟨_, rfl⟩
    rcases h2 : bulkSyncProblems f.problems localDB r1 with ⟨r2, _ | e2⟩
    swap
    · simp only [supabaseSyncMain, h1, h2]; exact ⟨_, rfl⟩
    rcases h3 : bulkSyncProblemTags f.problem_tags localDB r2 with ⟨r3, _ | e3⟩
    swap
    · simp only [supabaseSyncMain, h1, h2, h3]; exact ⟨_, rfl⟩
    rcases h4 : bulkSyncCompanyProblems f.company_problems localDB r3 with ⟨r4, _ | e4⟩
    swap
    · simp only [supabaseSyncMain, h1, h2, h3, h4]; exact ⟨_, rfl⟩
    rcases h5 : fixSerialSequence f.fixSequence r4 "companies" "id" with ⟨r5, _ | e5⟩
    swap
    · simp only [supabaseSyncMain, h1, h2, h3, h4, h5]; exact ⟨_, rfl⟩
    simp only [supabaseSyncMain, h1, h2, h3, h4, h5]; exact ⟨[], rfl⟩
  · intro r1 e h1
    have e1 := (bulkSync_error_unchanged f.companies localDB remote r1 e).1 h1
    subst e1
    simp only [supabaseSyncMain, h1]
  · intro r1 r2 e h1 h2
    have e1 := bulkSyncCompanies_ok _ _ _ _ h1
    have e2 := (bulkSync_error_unchanged f.problems localDB r1 r2 e).2.1 h2
    subst e2
    refine ⟨by simp only [supabaseSyncMain, h1, h2]; rfl, ?_, ?_, ?_⟩ <;> rw [e1]
  · intro r1 r2 r3 e h1 h2 h3
    have e1 := bulkSyncCompanies_ok _ _ _ _ h1
    have e2 := bulkSyncProblems_ok _ _ _ _ h2
    have e3 := (bulkSync_error_unchanged f.problem_tags localDB r2 r3 e).2.2.1 h3
    subst e3
    refine ⟨by simp only [supabaseSyncMain, h1, h2, h3]; rfl, ?_, ?_⟩ <;> rw [e2, e1]
  · intro r1 r2 r3 r4 e h1 h2 h3 h4
    have e1 := bulkSyncCompanies_ok _ _ _ _ h1
    have e2 := bulkSyncProblems_ok _ _ _ _ h2
    have e3 := bulkSyncProblemTags_ok _ _ _ _ h3
    have e4 := (bulkSync_error_unchanged f.company_problems localDB r3 r4 e).2.2.2 h4
    subst e4
    refine ⟨by simp only [supabaseSyncMain, h1, h2, h3, h4]; rfl, ?_⟩
    rw [e3, e2, e1]

theorem sync_stops_at_first_failure_witness :
    (supabaseSyncMain problemsUpsertFails sampleLocal sampleRemote).log
      = ["syncing companies (bulk)...", "syncing problems (bulk)..."] ∧
    (supabaseSyncMain problemsUpsertFails sampleLocal sampleRemote).remote.problem_tags
      = sampleRemote.problem_tags ∧
    (supabaseSyncMain problemsUpsertFails sampleLocal sampleRemote).remote.company_problems
      = sampleRemote.company_problems := by
  have h := (sync_stops_at_first_failure problemsUpsertFails sampleLocal sampleRemote).2.2.1
    (bulkSyncCompanies TableSync.none sampleLocal sampleRemote).1
    (bulkSyncCompanies TableSync.none sampleLocal sampleRemote).1 "upsert problems" rfl rfl
  rw [h.1]
  exact ⟨rfl, h.2.2.1, h.2.2.2⟩

/-- C7: replication is idempotent: after a run that completed and whose reads delivered
every source row, running the whole replication again with no source change leaves the
destination (its four tables, and the companies sequence too) exactly as the first run
left it, whatever the stores refuse in the second run and wherever its source streams
break; and a run in which nothing is refused and no stream breaks does complete. -/
theorem replication_idempotent (localDB remote : DB) (hwf : localDB.WF) :
    ((supabaseSyncMain SyncFaults.none localDB remote).fatal = none ∧
      SyncFaults.none.ReadsComplete localDB) ∧
    ∀ f1 f2 : SyncFaults, (supabaseSyncMain f1 localDB remote).fatal = none →
      f1.ReadsComplete localDB →
      (supabaseSyncMain f2 localDB (supabaseSyncMain f1 localDB remote).remote).remote
        = (supabaseSyncMain f1 localDB remote).remote :=
  ⟨⟨supabaseSyncMain_none_ok localDB remote, rfl, rfl, rfl, rfl⟩,
   fun f1 f2 h1 hread => supabaseSyncMain_twice f1 f2 localDB remote hwf h1 hread⟩

theorem replication_idempotent_witness :
    (supabaseSyncMain SyncFaults.none sampleLocal
        (supabaseSyncMain SyncFaults.none sampleLocal sampleRemote).remote).remote
      = (supabaseSyncMain SyncFaults.none sampleLocal sampleRemote).remote ∧
    (supabaseSyncMain companiesReadBreaks sampleLocal
        (supabaseSyncMain SyncFaults.none sampleLocal sampleRemote).remote).remote
      = (supabaseSyncMain SyncFaults.none sampleLocal sampleRemote).remote :=
  ⟨(replication_idempotent sampleLocal sampleRemote (by decide)).2 SyncFaults.none
      SyncFaults.none (replication_idempotent sampleLocal sampleRemote (by decide)).1.1
      (replication_idempotent sampleLocal sampleRemote (by decide)).1.2,
   (replication_idempotent sampleLocal sampleRemote (by decide)).2 SyncFaults.none
      companiesReadBreaks (replication_idempotent sampleLocal sampleRemote (by decide)).1.1
      (replication_idempotent sampleLocal sampleRemote (by decide)).1.2⟩

/-- C9: the sequence repair is the step of a run that follows the four table syncs, each
committed in its own transaction (the companies sync itself leaves the sequence alone).
In every run that completes, for every source and every destination state before the run,
it leaves the destination's `companies.id` sequence at the largest company id in the
destination, 0 when there is no company (this is `max(largest id, 0)` as soon as no id is
negative), so that every company id in the destination is below the sequence's next value,
which is the id the next company created there by name receives. -/
theorem sequence_repair_after_sync (f : SyncFaults) (localDB remote : DB)
    (h : (supabaseSyncMain f localDB remote).fatal = none) :
    (supabaseSyncMain f localDB remote).log =
      ["syncing companies (bulk)...", "syncing problems (bulk)...",
       "syncing problem_tags (bulk)...", "syncing company_problems (bulk)...",
       "fixing sequences...", "bulk sync complete"] ∧
    (bulkSyncCompanies f.companies localDB remote).1.companies_id_seq
      = remote.companies_id_seq ∧
    (supabaseSyncMain f localDB remote).remote.companies
      = (bulkSyncCompanies f.companies localDB remote).1.companies ∧
    (supabaseSyncMain f localDB remote).remote.companies_id_seq
      = (sqlMax ((supabaseSyncMain f localDB remote).remote.companies.map Company.ID)).getD 0 ∧
    ((∀ c ∈ (supabaseSyncMain f localDB remote).remote.companies, 0 ≤ c.ID) →
      (supabaseSyncMain f localDB remote).remote.companies_id_seq
        = ((supabaseSyncMain f localDB remote).remote.companies.map Company.ID).foldl max 0) ∧
    (∀ c ∈ (supabaseSyncMain f localDB remote).remote.companies,
      c.ID < (supabaseSyncMain f localDB remote).remote.companies_id_seq + 1) ∧
    (∀ name, selectCompanyID (supabaseSyncMain f localDB remote).remote name = none →
      (upsertCompany Option.none (supabaseSyncMain f localDB remote).remote name).2
        = .ok ((supabaseSyncMain f localDB remote).remote.companies_id_seq + 1)) := by
  obtain ⟨r1, r2, r3, r4, r5, h1, h2, h3, h4, h5, hrun⟩ := supabaseSyncMain_ok f localDB remote h
  have hR := supabaseSyncMain_ok_remote f localDB remote h
  have e1 := bulkSyncCompanies_ok _ _ _ _ h1
  have hseq : (supabaseSyncMain f localDB remote).remote.companies_id_seq
      = (sqlMax ((supabaseSyncMain f localDB remote).remote.companies.map Company.ID)).getD 0 := by
    rw [hR]
  have hle : ∀ c ∈ (supabaseSyncMain f localDB remote).remote.companies,
      c.ID ≤ (supabaseSyncMain f localDB remote).remote.companies_id_seq := by
    intro c hc
    rw [hseq]
    exact le_sqlMax _ _ (List.mem_map_of_mem Company.ID hc)
  refine ⟨by rw [hrun], by rw [h1, e1], by rw [hR, h1, e1], hseq, ?_, ?_, ?_⟩
  · intro hnn
    rw [hseq]
    exact sqlMax_of_nonneg _ (fun y hy => by
      obtain ⟨c, hc, rfl⟩ := List.mem_map.1 hy
      exact hnn c hc)
  · intro c hc
    have := hle c hc
    omega
  · intro name hnew
    exact upsertCompany_new _ name hle hnew

theorem sequence_repair_after_sync_witness :
    (supabaseSyncMain SyncFaults.none sampleLocal sampleRemote).remote.companies_id_seq = 7 ∧
    (upsertCompany Option.none (supabaseSyncMain SyncFaults.none sampleLocal sampleRemote).remote
      "initech").2 = .ok 8 := by
  have h := sequence_repair_after_sync SyncFaults.none sampleLocal sampleRemote rfl
  exact ⟨h.2.2.2.1.trans (by decide), (h.2.2.2.2.2.2 "initech" (by decide)).trans rfl⟩

/-! ## Reading a window file -/

theorem mergeFile_error (e : ReadErr) (k : String) (st : MergeState) :
    mergeFile (.error e) k st = mergeFile (.ok []) k st := by
  cases e <;> rfl

/-- First component of the row loop: the map alone, whatever was logged. -/
theorem readRow_fst (pf : String → Option Float64) (src : String) (cols : Columns)
    (st : GoMap Int RawProblem × List SkipWarning) (row : List String) :
    (readRow pf src cols st row).1 =
      match rowID cols.idIdx row with
      | some id => st.1.set id (rowProblem pf src cols id row)
      | none => st.1 := by
  unfold readRow rowID
  by_cases h : cols.idIdx < row.length
  · rw [if_neg (by omega : ¬ cols.idIdx ≥ row.length), if_pos h]
    dsimp only
    generalize hcell : TrimSpace (row.getD cols.idIdx "") = cell
    by_cases he : cell = ""
    · subst he
      rw [if_pos rfl]
      rfl
    · rw [if_neg he]
      cases ParseInt cell <;> rfl
  · rw [if_pos (by omega : cols.idIdx ≥ row.length), if_neg h]

/-- Second component of the row loop: the warnings alone. -/
theorem readRow_snd (pf : String → Option Float64) (src : String) (cols : Columns)
    (st : GoMap Int RawProblem × List SkipWarning) (row : List String) :
    (readRow pf src cols st row).2 = st.2 ++ (rowWarning src cols.idIdx row).toList := by
  unfold readRow rowWarning
  by_cases h : cols.idIdx < row.length
  · rw [if_neg (by omega : ¬ cols.idIdx ≥ row.length), if_pos h]
    dsimp only
    generalize hcell : TrimSpace (row.getD cols.idIdx "") = cell
    by_cases he : cell = ""
    · rw [if_pos he, if_pos he]
      simp
    · rw [if_neg he, if_neg he]
      cases ParseInt cell <;> simp
  · rw [if_pos (by omega : cols.idIdx ≥ row.length), if_neg h]
    simp

theorem foldl_readRow_fst (pf : String → Option Float64) (src : String) (cols : Columns)
    (rows : List (List String)) (st : GoMap Int RawProblem × List SkipWarning) :
    (rows.foldl (readRow pf src cols) st).1 = rows.foldl (rowStep pf src cols) st.1 :=
  foldl_proj (readRow pf src cols) Prod.fst (rowStep pf src cols)
    (fun s row => readRow_fst pf src cols s row) rows st

theorem foldl_readRow_snd (pf : String → Option Float64) (src : String) (cols : Columns)
    (rows : List (List String)) (st : GoMap Int RawProblem × List SkipWarning) :
    (rows.foldl (readRow pf src cols) st).2
      = st.2 ++ rows.filterMap (rowWarning src cols.idIdx) := by
  induction rows generalizing st with
  | nil => simp
  | cons row rows ih =>
    rw [List.foldl_cons, ih, readRow_snd, List.filterMap_cons]
    cases rowWarning src cols.idIdx row <;> simp

/-- Rows without a readable identifier contribute nothing to the map. -/
theorem foldl_rowStep_filter (pf : String → Option Float64) (src : String) (cols : Columns)
    (rows : List (List String)) (out : GoMap Int RawProblem) :
    rows.foldl (rowStep pf src cols) out
      = (rows.filter (fun row => (rowID cols.idIdx row).isSome)).foldl
          (rowStep pf src cols) out := by
  induction rows generalizing out with
  | nil => rfl
  | cons row rows ih =>
    rw [List.foldl_cons, List.filter_cons]
    cases h : rowID cols.idIdx row with
    | none =>
      have : rowStep pf src cols out row = out := by unfold rowStep; rw [h]
      simp only [Option.isSome_none, Bool.false_eq_true, if_false]
      rw [this, ih]
    | some id =>
      simp only [Option.isSome_some, if_true]
      rw [List.foldl_cons, ih]

theorem contains_set_self {K V : Type} [DecidableEq K] (m : GoMap K V) (k : K) (v : V) :
    (m.set k v).contains k = true := by
  unfold GoMap.contains
  rw [GoMap.get?_set_self]
  rfl

theorem contains_set_of_contains {K V : Type} [DecidableEq K] (m : GoMap K V) (k k' : K) (v : V)
    (h : m.contains k' = true) : (m.set k v).contains k' = true := by
  by_cases hk : k = k'
  · subst hk; exact contains_set_self m k v
  · unfold GoMap.contains at h ⊢
    rw [GoMap.get?_set_ne _ _ _ _ hk]
    exact h

theorem foldl_rowStep_contains_of_contains (pf : String → Option Float64) (src : String)
    (cols : Columns) (rows : List (List String)) (out : GoMap Int RawProblem) (id : Int)
    (h : out.contains id = true) :
    (rows.foldl (rowStep pf src cols) out).contains id = true := by
  induction rows generalizing out with
  | nil => exact h
  | cons row rows ih =>
    rw [List.foldl_cons]
    apply ih
    unfold rowStep
    cases rowID cols.idIdx row with
    | none => exact h
    | some id' => exact contains_set_of_contains _ _ _ _ h

/-- The map holds exactly the identifiers of the rows that have a readable one. -/
theorem foldl_rowStep_contains (pf : String → Option Float64) (src : String)
    (cols : Columns) (rows : List (List String)) (out : GoMap Int RawProblem) (id : Int) :
    (rows.foldl (rowStep pf src cols) out).contains id = true ↔
      out.contains id = true ∨ ∃ row ∈ rows, rowID cols.idIdx row = some id := by
  induction rows generalizing out with
  | nil => simp
  | cons row rows ih =>
    rw [List.foldl_cons, ih]
    constructor
    · rintro (h | ⟨r, hr, hid⟩)
      · unfold rowStep at h
        cases hrow : rowID cols.idIdx row with
        | none => rw [hrow] at h; exact Or.inl h
        | some id' =>
          rw [hrow] at h
          by_cases hk : id' = id
          · subst hk; exact Or.inr ⟨row, List.mem_cons_self _ _, hrow⟩
          · unfold GoMap.contains at h
            rw [GoMap.get?_set_ne _ _ _ _ hk] at h
            exact Or.inl h
      · exact Or.inr ⟨r, List.mem_cons_of_mem _ hr, hid⟩
    · rintro (h | ⟨r, hr, hid⟩)
      · left
        unfold rowStep
        cases rowID cols.idIdx row with
        | none => exact h
        | some id' => exact contains_set_of_contains _ _ _ _ h
      · rcases List.mem_cons.1 hr with h1 | h1
        · subst h1
          left
          unfold rowStep
          rw [hid]
          exact contains_set_self _ _ _
        · exact Or.inr ⟨r, h1, hid⟩

theorem GoMap.get?_set {K V : Type} [DecidableEq K] (m : GoMap K V) (k k' : K) (v : V) :
    (m.set k v).get? k' = if k = k' then some v else m.get? k' := by
  by_cases h : k = k'
  · subst h; rw [GoMap.get?_set_self, if_pos rfl]
  · rw [GoMap.get?_set_ne _ _ _ _ h, if_neg h]

theorem headerIndexFrom_get?_none (hs : List String) (i : Nat) (m : GoMap String Nat)
    (k : String) :
    (headerIndexFrom i m hs).get? k = none ↔
      m.get? k = none ∧ ∀ h ∈ hs, TrimSpace h ≠ k := by
  induction hs generalizing i m with
  | nil => simp [headerIndexFrom]
  | cons h hs ih =>
    rw [headerIndexFrom, ih, GoMap.get?_set]
    by_cases hk : TrimSpace h = k
    · simp [hk]
    · simp [hk]

theorem headerIndexFrom_get?_some (hs : List String) (i : Nat) (m : GoMap String Nat)
    (k : String) (j : Nat) (h : (headerIndexFrom i m hs).get? k = some j) :
    m.get? k = some j ∨ (i ≤ j ∧ j - i < hs.length ∧ TrimSpace (hs.getD (j - i) "") = k) := by
  induction hs generalizing i m with
  | nil => exact Or.inl h
  | cons x hs ih =>
    rw [headerIndexFrom] at h
    rcases ih _ _ h with h1 | ⟨h1, h2, h3⟩
    · rw [GoMap.get?_set] at h1
      by_cases hk : TrimSpace x = k
      · rw [if_pos hk] at h1
        have hj : i = j := Option.some.inj h1
        subst hj
        right
        refine ⟨le_refl _, ?_, ?_⟩
        · simp
        · simpa using hk
      · rw [if_neg hk] at h1
        exact Or.inl h1
    · right
      have hji : j - i = (j - (i + 1)) + 1 := by omega
      refine ⟨by omega, ?_, ?_⟩
      · rw [List.length_cons]; omega
      · rw [hji]
        simpa using h3

/-- A name is a key of `colIdx` exactly when some header cell trims to it, and it is
mapped to the index of such a cell. -/
theorem headerIndex_spec (header : List String) (k : String) :
    ((headerIndex header).get? k = none ↔ ∀ h ∈ header, TrimSpace h ≠ k) ∧
    (∀ j, (headerIndex header).get? k = some j →
      j < header.length ∧ TrimSpace (header.getD j "") = k) := by
  unfold headerIndex
  constructor
  · rw [headerIndexFrom_get?_none]
    simp [GoMap.get?_nil]
  · intro j hj
    rcases headerIndexFrom_get?_some header 0 [] k j hj with h1 | ⟨_, h2, h3⟩
    · rw [GoMap.get?_nil] at h1; exact absurd h1 (by simp)
    · exact ⟨by simpa using h2, by simpa using h3⟩

theorem getIndex_eq_none (colIdx : GoMap String Nat) (variants : List String) :
    getIndex colIdx variants = none ↔ ∀ v ∈ variants, colIdx.get? (TrimSpace v) = none := by
  induction variants with
  | nil => simp [getIndex]
  | cons v vs ih =>
    rw [getIndex]
    cases hv : colIdx.get? (TrimSpace v) with
    | none => simp [ih, hv]
    | some idx => simp [hv]

theorem getIndex_eq_some (colIdx : GoMap String Nat) (variants : List String) (j : Nat)
    (h : getIndex colIdx variants = some j) :
    ∃ v ∈ variants, colIdx.get? (TrimSpace v) = some j := by
  induction variants with
  | nil => simp [getIndex] at h
  | cons v vs ih =>
    rw [getIndex] at h
    cases hv : colIdx.get? (TrimSpace v) with
    | none =>
      rw [hv] at h
      obtain ⟨w, hw, hj⟩ := ih h
      exact ⟨w, List.mem_cons_of_mem _ hw, hj⟩
    | some idx =>
      rw [hv] at h
      have : idx = j := Option.some.inj h
      subst this
      exact ⟨v, List.mem_cons_self _ _, hv⟩

/-- A column is found exactly when some header cell, trimmed, is one of the spellings
asked for, and the index found is the index of such a cell. -/
theorem getIndex_headerIndex (header variants : List String) :
    (getIndex (headerIndex header) variants = none ↔
      ∀ v ∈ variants, ∀ h ∈ header, TrimSpace h ≠ TrimSpace v) ∧
    (∀ j, getIndex (headerIndex header) variants = some j →
      j < header.length ∧ ∃ v ∈ variants, TrimSpace (header.getD j "") = TrimSpace v) := by
  constructor
  · rw [getIndex_eq_none]
    constructor
    · intro h v hv
      exact ((headerIndex_spec header (TrimSpace v)).1).1 (h v hv)
    · intro h v hv
      exact ((headerIndex_spec header (TrimSpace v)).1).2 (h v hv)
  · intro j hj
    obtain ⟨v, hv, hget⟩ := getIndex_eq_some _ _ _ hj
    have := (headerIndex_spec header (TrimSpace v)).2 j hget
    exact ⟨this.1, v, hv, this.2⟩

/-- Shape of the result once the ID column is found. -/
theorem readCSVFile_of_id (pf : String → Option Float64) (header : List String)
    (rows : List (List String)) (src : String) (idIdx : Nat)
    (hid : getIndex (headerIndex header) ["ID", "Id", "id"] = some idIdx) :
    readCSVFile pf (.ok (header :: rows)) src =
      (.ok (rows.foldl (readRow pf src (resolveColumns (headerIndex header) idIdx)) ([], [])).1,
        (rows.foldl (readRow pf src (resolveColumns (headerIndex header) idIdx)) ([], [])).2) := by
  unfold readCSVFile
  dsimp only
  rw [hid]

theorem readCSVFile_of_no_id (pf : String → Option Float64) (header : List String)
    (rows : List (List String)) (src : String)
    (hid : getIndex (headerIndex header) ["ID", "Id", "id"] = none) :
    readCSVFile pf (.ok (header :: rows)) src = (.error (.other "ID column not found"), []) := by
  unfold readCSVFile
  dsimp only
  rw [hid]

theorem id_column_rejected_iff (pf : String → Option Float64) (header : List String)
    (rows : List (List String)) (src : String) :
    (readCSVFile pf (.ok (header :: rows)) src).1 = .error (.other "ID column not found") ↔
      ∀ h ∈ header, TrimSpace h ≠ "ID" ∧ TrimSpace h ≠ "Id" ∧ TrimSpace h ≠ "id" := by
  have hspec := (getIndex_headerIndex header ["ID", "Id", "id"]).1
  have t1 : TrimSpace "ID" = "ID" := by decide
  have t2 : TrimSpace "Id" = "Id" := by decide
  have t3 : TrimSpace "id" = "id" := by decide
  cases hid : getIndex (headerIndex header) ["ID", "Id", "id"] with
  | none =>
    rw [readCSVFile_of_no_id pf header rows src hid]
    have := hspec.1 hid
    simp only [List.mem_cons, List.mem_singleton, List.not_mem_nil, or_false] at this
    constructor
    · intro _ h hh
      exact ⟨t1 ▸ this "ID" (Or.inl rfl) h hh, t2 ▸ this "Id" (Or.inr (Or.inl rfl)) h hh,
        t3 ▸ this "id" (Or.inr (Or.inr rfl)) h hh⟩
    · intro _; rfl
  | some idIdx =>
    rw [readCSVFile_of_id pf header rows src idIdx hid]
    constructor
    · intro h; exact absurd h (by simp)
    · intro h
      have hnone : getIndex (headerIndex header) ["ID", "Id", "id"] = none := by
        apply hspec.2
        intro v hv x hx
        simp only [List.mem_cons, List.mem_singleton, List.not_mem_nil, or_false] at hv
        rcases hv with rfl | rfl | rfl
        · rw [t1]; exact (h x hx).1
        · rw [t2]; exact (h x hx).2.1
        · rw [t3]; exact (h x hx).2.2
      rw [hnone] at hid
      exact absurd hid (by simp)


theorem processCompany_congr (flt : Faults) (now : Time) (f g : Files) (name : String) (db : DB)
    (h : mergeAll f = mergeAll g) :
    processCompany flt now f name db = processCompany flt now g name db := by
  unfold processCompany
  rw [h]

/-- The key found by the header loop is that of the last header cell that trims to it. -/
theorem headerIndexFrom_get?_last (hs : List String) (i : Nat) (m : GoMap String Nat)
    (k : String) (j : Nat) (h : (headerIndexFrom i m hs).get? k = some j) :
    (m.get? k = some j ∧ ∀ x ∈ hs, TrimSpace x ≠ k) ∨
    (i ≤ j ∧ j - i < hs.length ∧ TrimSpace (hs.getD (j - i) "") = k ∧
      ∀ t, j - i < t → t < hs.length → TrimSpace (hs.getD t "") ≠ k) := by
  induction hs generalizing i m with
  | nil => exact Or.inl ⟨h, fun x hx => absurd hx (List.not_mem_nil x)⟩
  | cons x hs ih =>
    rw [headerIndexFrom] at h
    rcases ih _ _ h with ⟨h1, hno⟩ | ⟨h1, h2, h3, h4⟩
    · rw [GoMap.get?_set] at h1
      by_cases hk : TrimSpace x = k
      · rw [if_pos hk] at h1
        have hj : i = j := Option.some.inj h1
        subst hj
        right
        refine ⟨le_refl _, by simp, by simpa using hk, ?_⟩
        intro t ht hlt
        obtain ⟨t', rfl⟩ : ∃ t', t = t' + 1 := ⟨t - 1, by omega⟩
        rw [List.getD_cons_succ]
        have hlt' : t' < hs.length := by simpa using hlt
        have hmem : hs.getD t' "" ∈ hs := by
          rw [List.getD_eq_getElem _ _ hlt']
          exact List.getElem_mem _
        exact hno _ hmem
      · rw [if_neg hk] at h1
        left
        refine ⟨h1, ?_⟩
        intro y hy
        rcases List.mem_cons.1 hy with rfl | hy'
        · exact hk
        · exact hno y hy'
    · right
      have hji : j - i = (j - (i + 1)) + 1 := by omega
      refine ⟨by omega, by rw [List.length_cons]; omega, ?_, ?_⟩
      · rw [hji]
        simpa using h3
      · intro t ht hlt
        obtain ⟨t', rfl⟩ : ∃ t', t = t' + 1 := ⟨t - 1, by omega⟩
        rw [List.getD_cons_succ]
        exact h4 t' (by omega) (by simpa using hlt)

/-- The first spelling that is a key decides what `getIndex` returns. -/
theorem getIndex_first (colIdx : GoMap String Nat) (variants : List String) (j : Nat)
    (h : getIndex colIdx variants = some j) :
    ∃ pre v post, variants = pre ++ v :: post ∧
      (∀ u ∈ pre, colIdx.get? (TrimSpace u) = none) ∧ colIdx.get? (TrimSpace v) = some j := by
  induction variants with
  | nil => simp [getIndex] at h
  | cons v vs ih =>
    rw [getIndex] at h
    cases hv : colIdx.get? (TrimSpace v) with
    | none =>
      rw [hv] at h
      obtain ⟨pre, w, post, hvs, hpre, hw⟩ := ih h
      refine ⟨v :: pre, w, post, by rw [hvs]; rfl, ?_, hw⟩
      intro u hu
      rcases List.mem_cons.1 hu with rfl | hu'
      · exact hv
      · exact hpre u hu'
    | some idx =>
      rw [hv] at h
      have : idx = j := Option.some.inj h
      subst this
      exact ⟨[], v, vs, rfl, fun u hu => absurd hu (List.not_mem_nil u), hv⟩

/-- Which header cell `getIndex` finds: the last one that trims to the first listed
spelling carried by some header cell. -/
theorem getIndex_headerIndex_which (header variants : List String) (j : Nat)
    (h : getIndex (headerIndex header) variants = some j) :
    ∃ pre v post, variants = pre ++ v :: post ∧
      (∀ u ∈ pre, ∀ x ∈ header, TrimSpace x ≠ TrimSpace u) ∧
      j < header.length ∧ TrimSpace (header.getD j "") = TrimSpace v ∧
      ∀ t, j < t → t < header.length → TrimSpace (header.getD t "") ≠ TrimSpace v := by
  obtain ⟨pre, v, post, hv, hpre, hget⟩ := getIndex_first _ _ _ h
  refine ⟨pre, v, post, hv, fun u hu => ((headerIndex_spec header (TrimSpace u)).1).1 (hpre u hu), ?_⟩
  unfold headerIndex at hget
  rcases headerIndexFrom_get?_last header 0 [] _ j hget with ⟨h1, _⟩ | ⟨_, h2, h3, h4⟩
  · rw [GoMap.get?_nil] at h1; exact absurd h1 (by simp)
  · exact ⟨by simpa using h2, by simpa using h3, fun t ht hlt => h4 t (by simpa using ht) hlt⟩

/-- The record stored under an identifier is the one built from the last row that carries
it. -/
theorem foldl_rowStep_get? (pf : String → Option Float64) (src : String) (cols : Columns)
    (rows : List (List String)) (out : GoMap Int RawProblem) (id : Int) (rp : RawProblem)
    (h : (rows.foldl (rowStep pf src cols) out).get? id = some rp) :
    (out.get? id = some rp ∧ ∀ r ∈ rows, rowID cols.idIdx r ≠ some id) ∨
    ∃ pre row post, rows = pre ++ row :: post ∧ rowID cols.idIdx row = some id ∧
      (∀ r ∈ post, rowID cols.idIdx r ≠ some id) ∧ rp = rowProblem pf src cols id row := by
  induction rows generalizing out with
  | nil => exact Or.inl ⟨h, fun r hr => absurd hr (List.not_mem_nil r)⟩
  | cons x xs ih =>
    rw [List.foldl_cons] at h
    rcases ih _ h with ⟨h1, hno⟩ | ⟨pre, row, post, hxs, hrow, hpost, hrp⟩
    · unfold rowStep at h1
      cases hx : rowID cols.idIdx x with
      | none =>
        rw [hx] at h1
        left
        refine ⟨h1, ?_⟩
        intro r hr
        rcases List.mem_cons.1 hr with rfl | hr'
        · rw [hx]; simp
        · exact hno r hr'
      | some id' =>
        rw [hx] at h1
        dsimp only at h1
        rw [GoMap.get?_set] at h1
        by_cases hk : id' = id
        · subst hk
          rw [if_pos rfl] at h1
          right
          exact ⟨[], x, xs, rfl, hx, hno, (Option.some.inj h1).symm⟩
        · rw [if_neg hk] at h1
          left
          refine ⟨h1, ?_⟩
          intro r hr
          rcases List.mem_cons.1 hr with rfl | hr'
          · rw [hx]; intro hc; exact hk (Option.some.inj hc)
          · exact hno r hr'
    · right
      exact ⟨x :: pre, row, post, by rw [hxs]; rfl, hrow, hpost, hrp⟩

/-- A text field of the record: the trimmed cell of the column when the column was found
and the row reaches it, the empty string otherwise. -/
theorem cellAt_text (idx : Option Nat) (row : List String) :
    (∀ j, idx = some j → j < row.length →
      ((cellAt idx row).map TrimSpace).getD "" = TrimSpace (row.getD j "")) ∧
    ((∀ j, idx = some j → row.length ≤ j) → ((cellAt idx row).map TrimSpace).getD "" = "") := by
  constructor
  · intro j hj hlt
    subst hj
    unfold cellAt
    dsimp only
    rw [if_pos hlt]
    rfl
  · intro h
    cases idx with
    | none => rfl
    | some j =>
      have hge := h j rfl
      unfold cellAt
      dsimp only
      rw [if_neg (Nat.not_lt.2 hge)]
      rfl

theorem cellAt_percent (pf : String → Option Float64) (idx : Option Nat) (row : List String) :
    (∀ j, idx = some j → j < row.length →
      ((cellAt idx row).map (fun c => (parsePercent pf c).1)).getD none
        = (parsePercent pf (row.getD j "")).1) ∧
    ((∀ j, idx = some j → row.length ≤ j) →
      ((cellAt idx row).map (fun c => (parsePercent pf c).1)).getD none = none) := by
  constructor
  · intro j hj hlt
    subst hj
    unfold cellAt
    dsimp only
    rw [if_pos hlt]
    rfl
  · intro h
    cases idx with
    | none => rfl
    | some j =>
      have hge := h j rfl
      unfold cellAt
      dsimp only
      rw [if_neg (Nat.not_lt.2 hge)]
      rfl

/-! ## Claims on reading the window files -/

/-- C11: a window whose file is missing or fails to parse (`readCSVFile` returns the
error it met) is merged as a window with no record: for each of the five windows, the
accumulators after the five merges (metadata, presence flags, provenance labels) are those
obtained with an empty record set in its place, the other windows are merged as usual,
and the company's pass writes the same store. -/
theorem failed_window_counts_as_empty (f : Files) (e : ReadErr) :
    (∀ pf src, (readCSVFile pf (.error e) src).1 = .error e) ∧
    (f.all = .error e →
      mergeAll f = mergeAll { f with all := .ok [] } ∧
      ∀ flt now name db, processCompany flt now f name db
        = processCompany flt now { f with all := .ok [] } name db) ∧
    (f.moreThanSix = .error e →
      mergeAll f = mergeAll { f with moreThanSix := .ok [] } ∧
      ∀ flt now name db, processCompany flt now f name db
        = processCompany flt now { f with moreThanSix := .ok [] } name db) ∧
    (f.sixMonths = .error e →
      mergeAll f = mergeAll { f with sixMonths := .ok [] } ∧
      ∀ flt now name db, processCompany flt now f name db
        = processCompany flt now { f with sixMonths := .ok [] } name db) ∧
    (f.threeMonths = .error e →
      mergeAll f = mergeAll { f with threeMonths := .ok [] } ∧
      ∀ flt now name db, processCompany flt now f name db
        = processCompany flt now { f with threeMonths := .ok [] } name db) ∧
    (f.thirtyDays = .error e →
      mergeAll f = mergeAll { f with thirtyDays := .ok [] } ∧
      ∀ flt now name db, processCompany flt now f name db
        = processCompany flt now { f with thirtyDays := .ok [] } name db) := by
  refine ⟨fun _ _ => rfl, ?_, ?_, ?_, ?_, ?_⟩
  · intro h
    have hm : mergeAll f = mergeAll { f with all := .ok [] } := by
      unfold mergeAll
      dsimp only
      rw [h, mergeFile_error]
    exact ⟨hm, fun flt now name db => processCompany_congr flt now _ _ name db hm⟩
  · intro h
    have hm : mergeAll f = mergeAll { f with moreThanSix := .ok [] } := by
      unfold mergeAll
      dsimp only
      rw [h, mergeFile_error]
    exact ⟨hm, fun flt now name db => processCompany_congr flt now _ _ name db hm⟩
  · intro h
    have hm : mergeAll f = mergeAll { f with sixMonths := .ok [] } := by
      unfold mergeAll
      dsimp only
      rw [h, mergeFile_error]
    exact ⟨hm, fun flt now name db => processCompany_congr flt now _ _ name db hm⟩
  · intro h
    have hm : mergeAll f = mergeAll { f with threeMonths := .ok [] } := by
      unfold mergeAll
      dsimp only
      rw [h, mergeFile_error]
    exact ⟨hm, fun flt now name db => processCompany_congr flt now _ _ name db hm⟩
  · intro h
    have hm : mergeAll f = mergeAll { f with thirtyDays := .ok [] } := by
      unfold mergeAll
      dsimp only
      rw [h, mergeFile_error]
    exact ⟨hm, fun flt now name db => processCompany_congr flt now _ _ name db hm⟩

theorem failed_window_counts_as_empty_witness :
    mergeAll sampleFilesMissing = mergeAll { sampleFilesMissing with sixMonths := .ok [] } ∧
    timeFrameTag (mergeAll sampleFilesMissing) 5 = some "three-months" :=
  ⟨((failed_window_counts_as_empty sampleFilesMissing .notExist).2.2.2.1 rfl).1, by decide⟩

/-- C12 (as stated, refuted): rows whose identifier cell is empty or blank are skipped
without any warning being logged. -/
theorem blank_identifier_rows_not_logged :
    TrimSpace "" = "" ∧ TrimSpace "  " = "" ∧
    readCSVFile sampleParseFloat (.ok [["ID", "Title"], ["", "x"], ["  ", "y"]]) "all"
      = (.ok [], []) := by
  exact ⟨by decide, by decide, rfl⟩

/-- C12 (amended): in a file whose ID column is found, `readCSVFile` returns no error;
a data row with no cell in the ID column, with a blank one, or with one that is not a
base-10 `int64` is skipped, and a warning is logged exactly for the rows whose
identifier is not blank and does not parse; the map returned is the one returned for
the file without the skipped rows, and its keys are exactly the identifiers of the
other rows. -/
theorem bad_identifier_rows_skipped (pf : String → Option Float64) (header : List String)
    (rows : List (List String)) (src : String) (idIdx : Nat)
    (hid : getIndex (headerIndex header) ["ID", "Id", "id"] = some idIdx) :
    (∃ m, (readCSVFile pf (.ok (header :: rows)) src).1 = .ok m) ∧
    (readCSVFile pf (.ok (header :: rows)) src).1
      = (readCSVFile pf
          (.ok (header :: rows.filter (fun row => (rowID idIdx row).isSome))) src).1 ∧
    (∀ id, (records (readCSVFile pf (.ok (header :: rows)) src).1).contains id = true ↔
      ∃ row ∈ rows, rowID idIdx row = some id) ∧
    (readCSVFile pf (.ok (header :: rows)) src).2 = rows.filterMap (rowWarning src idIdx) ∧
    (∀ row, idIdx < row.length → TrimSpace (row.getD idIdx "") = "" →
      rowID idIdx row = none ∧ rowWarning src idIdx row = none) := by
  rw [readCSVFile_of_id pf header rows src idIdx hid,
    readCSVFile_of_id pf header _ src idIdx hid]
  dsimp only
  rw [foldl_readRow_fst, foldl_readRow_fst, foldl_readRow_snd]
  refine ⟨⟨_, rfl⟩, ?_, ?_, by simp [resolveColumns], ?_⟩
  · exact congrArg Except.ok (foldl_rowStep_filter pf src _ rows [])
  · intro id
    show (rows.foldl (rowStep pf src (resolveColumns (headerIndex header) idIdx)) []).contains id
      = true ↔ _
    rw [foldl_rowStep_contains]
    simp [GoMap.contains, GoMap.get?_nil, resolveColumns]
  · intro row hlen hblank
    unfold rowID rowWarning
    rw [if_pos hlen, if_pos hlen, hblank]
    exact ⟨rfl, rfl⟩

theorem bad_identifier_rows_skipped_witness :
    (readCSVFile sampleParseFloat sampleCSV "all").2
      = [{ idStr := "7x", sourceFile := "all", err := NumError.ErrSyntax }] ∧
    ((records (readCSVFile sampleParseFloat sampleCSV "all").1).contains 12 = true ↔
      ∃ row ∈ [["79", "https://leetcode.com/problems/word-search", "Word Search", "Medium",
                 "46.8%", "75.0%"],
               ["", "u", "no id", "Easy", "", ""],
               ["7x", "u", "bad id", "Easy", "", ""],
               [" 12 ", "u2", " Two ", "Hard", "x", ""]], rowID 0 row = some 12) :=
  ⟨((bad_identifier_rows_skipped sampleParseFloat
      ["ID", "URL", "Title", "Difficulty", "Acceptance %", "Frequency %"] _ "all" 0
      (by decide)).2.2.2.1).trans (by decide),
   (bad_identifier_rows_skipped sampleParseFloat
      ["ID", "URL", "Title", "Difficulty", "Acceptance %", "Frequency %"] _ "all" 0
      (by decide)).2.2.1 12⟩

/-- C13 (as stated, refuted): a header `iD` is not taken for the ID column and the file
is rejected; headers `uRl`, `TITLE`, `DIFFICULTY`, `acceptance %` are not taken for
their columns and the fields stay empty. -/
theorem header_case_is_significant :
    (readCSVFile sampleParseFloat (.ok [["iD", "URL", "Title"], ["79", "u", "t"]]) "all").1
      = .error (.other "ID column not found") ∧
    records (readCSVFile sampleParseFloat
        (.ok [["ID", "uRl", "TITLE", "DIFFICULTY", "acceptance %"],
              ["79", "u", "t", "Easy", "46.8%"]]) "all").1
      = [(79, { ID := 79, URL := "", Title := "", Difficulty := "", Acceptance := none,
                Frequency := none, SourceFile := "all" })] :=
  ⟨rfl, by decide⟩

/-- C13 (amended): `readCSVFile` identifies a column by the exact spelling of its header,
white space around it aside, among the spellings it asks for.  For any list of spellings,
a column is found exactly when some header cell, trimmed, equals one of them, and the
index found is that of the last header cell carrying the first listed spelling that
occurs.  The file is rejected with "ID column not found" exactly when no header cell
trims to `ID`, `Id` or `id`.  Otherwise the record stored under an identifier is read from
the last row carrying it: its url, title and difficulty are the trimmed cells, and its
acceptance and frequency the parsed cells, of the columns found under
`URL`/`Url`/`url`, `Title`/`title`, `Difficulty`/`difficulty`,
`Acceptance %`/`Acceptance%`/`Acceptance`, `Frequency %`/`Frequency%`/`Frequency`; a
field whose column is not found, or lies beyond the end of the row, stays empty. -/
theorem header_columns_by_exact_name (header : List String) :
    (∀ variants,
      (getIndex (headerIndex header) variants = none ↔
        ∀ v ∈ variants, ∀ h ∈ header, TrimSpace h ≠ TrimSpace v) ∧
      (∀ j, getIndex (headerIndex header) variants = some j →
        ∃ pre v post, variants = pre ++ v :: post ∧
          (∀ u ∈ pre, ∀ x ∈ header, TrimSpace x ≠ TrimSpace u) ∧
          j < header.length ∧ TrimSpace (header.getD j "") = TrimSpace v ∧
          ∀ t, j < t → t < header.length → TrimSpace (header.getD t "") ≠ TrimSpace v)) ∧
    (∀ pf rows src,
      (readCSVFile pf (.ok (header :: rows)) src).1 = .error (.other "ID column not found") ↔
        ∀ h ∈ header, TrimSpace h ≠ "ID" ∧ TrimSpace h ≠ "Id" ∧ TrimSpace h ≠ "id") ∧
    (∀ pf rows src idIdx id,
      getIndex (headerIndex header) ["ID", "Id", "id"] = some idIdx →
      ((records (readCSVFile pf (.ok (header :: rows)) src).1).contains id = true ↔
        ∃ row ∈ rows, rowID idIdx row = some id) ∧
      ∀ rp, (records (readCSVFile pf (.ok (header :: rows)) src).1).get? id = some rp →
        ∃ pre row post, rows = pre ++ row :: post ∧ rowID idIdx row = some id ∧
          (∀ r ∈ post, rowID idIdx r ≠ some id) ∧
          rp.ID = id ∧ rp.SourceFile = src ∧
          (∀ j, getIndex (headerIndex header) ["URL", "Url", "url"] = some j →
            j < row.length → rp.URL = TrimSpace (row.getD j "")) ∧
          ((∀ j, getIndex (headerIndex header) ["URL", "Url", "url"] = some j →
            row.length ≤ j) → rp.URL = "") ∧
          (∀ j, getIndex (headerIndex header) ["Title", "title"] = some j →
            j < row.length → rp.Title = TrimSpace (row.getD j "")) ∧
          ((∀ j, getIndex (headerIndex header) ["Title", "title"] = some j →
            row.length ≤ j) → rp.Title = "") ∧
          (∀ j, getIndex (headerIndex header) ["Difficulty", "difficulty"] = some j →
            j < row.length → rp.Difficulty = TrimSpace (row.getD j "")) ∧
          ((∀ j, getIndex (headerIndex header) ["Difficulty", "difficulty"] = some j →
            row.length ≤ j) → rp.Difficulty = "") ∧
          (∀ j, getIndex (headerIndex header)
              ["Acceptance %", "Acceptance%", "Acceptance %", "Acceptance"] = some j →
            j < row.length → rp.Acceptance = (parsePercent pf (row.getD j "")).1) ∧
          ((∀ j, getIndex (headerIndex header)
              ["Acceptance %", "Acceptance%", "Acceptance %", "Acceptance"] = some j →
            row.length ≤ j) → rp.Acceptance = none) ∧
          (∀ j, getIndex (headerIndex header)
              ["Frequency %", "Frequency%", "Frequency %", "Frequency"] = some j →
            j < row.length → rp.Frequency = (parsePercent pf (row.getD j "")).1) ∧
          ((∀ j, getIndex (headerIndex header)
              ["Frequency %", "Frequency%", "Frequency %", "Frequency"] = some j →
            row.length ≤ j) → rp.Frequency = none)) := by
  refine ⟨fun variants => ⟨(getIndex_headerIndex header variants).1,
      fun j hj => getIndex_headerIndex_which header variants j hj⟩,
    fun pf rows src => id_column_rejected_iff pf header rows src, ?_⟩
  intro pf rows src idIdx id hid
  rw [readCSVFile_of_id pf header rows src idIdx hid]
  dsimp only
  rw [foldl_readRow_fst]
  constructor
  · show (rows.foldl (rowStep pf src (resolveColumns (headerIndex header) idIdx)) []).contains id
      = true ↔ _
    rw [foldl_rowStep_contains]
    simp [GoMap.contains, GoMap.get?_nil, resolveColumns]
  · intro rp hrp
    have hrp' : (rows.foldl (rowStep pf src (resolveColumns (headerIndex header) idIdx))
        []).get? id = some rp := hrp
    rcases foldl_rowStep_get? pf src _ rows [] id rp hrp' with ⟨h1, _⟩ | ⟨pre, row, post, h1, h2, h3, h4⟩
    · rw [GoMap.get?_nil] at h1; exact absurd h1 (by simp)
    · refine ⟨pre, row, post, h1, h2, h3, ?_⟩
      subst h4
      exact ⟨rfl, rfl,
        (cellAt_text _ row).1, (cellAt_text _ row).2,
        (cellAt_text _ row).1, (cellAt_text _ row).2,
        (cellAt_text _ row).1, (cellAt_text _ row).2,
        (cellAt_percent pf _ row).1, (cellAt_percent pf _ row).2,
        (cellAt_percent pf _ row).1, (cellAt_percent pf _ row).2⟩

theorem header_columns_by_exact_name_witness :
    getIndex (headerIndex ["ID", " Title "]) ["Title", "title"] = some 1 ∧
    1 < ["ID", " Title "].length ∧
    (records (readCSVFile sampleParseFloat sampleCSV "all").1).get? 12
      = some { ID := 12, URL := "u2", Title := "Two", Difficulty := "Hard", Acceptance := none,
               Frequency := none, SourceFile := "all" } ∧
    ∃ row : List String, rowID 0 row = some 12 ∧
      (2 < row.length → "Two" = TrimSpace (row.getD 2 "")) := by
  refine ⟨by decide, ?_, by decide, ?_⟩
  · obtain ⟨_, _, _, _, _, h, _⟩ :=
      ((header_columns_by_exact_name ["ID", " Title "]).1 ["Title", "title"]).2 1 (by decide)
    exact h
  · obtain ⟨_, row, _, _, hrow, _, _, _, _, _, htitle, _⟩ :=
      ((header_columns_by_exact_name
          ["ID", "URL", "Title", "Difficulty", "Acceptance %", "Frequency %"]).2.2
        sampleParseFloat
        [["79", "https://leetcode.com/problems/word-search", "Word Search", "Medium", "46.8%",
          "75.0%"],
         ["", "u", "no id", "Easy", "", ""],
         ["7x", "u", "bad id", "Easy", "", ""],
         [" 12 ", "u2", " Two ", "Hard", "x", ""]] "all" 0 12 (by decide)).2
        { ID := 12, URL := "u2", Title := "Two", Difficulty := "Hard", Acceptance := none,
          Frequency := none, SourceFile := "all" } (by decide)
    exact ⟨row, hrow, fun hlt => htitle 2 (by decide) hlt⟩

/-! ## Replacing the tags of a problem -/

theorem mem_tagsOf (t : List ProblemTag) (pid : Int) (tag : String) :
    tag ∈ tagsOf t pid ↔ ∃ r ∈ t, r.ProblemID = pid ∧ r.Tag = tag := by
  unfold tagsOf
  simp [List.mem_map, List.mem_filter, and_assoc]

theorem lookup_isSome_iff_mem_tagsOf (t : List ProblemTag) (pid : Int) (tag : String) :
    (lookupBy ProblemTag.key t (pid, tag)).isSome = true ↔ tag ∈ tagsOf t pid := by
  rw [mem_tagsOf]
  constructor
  · intro h
    cases hl : lookupBy ProblemTag.key t (pid, tag) with
    | none => rw [hl] at h; simp at h
    | some r =>
      have hk := lookupBy_key ProblemTag.key t _ r hl
      have hm := lookupBy_mem ProblemTag.key t _ r hl
      unfold ProblemTag.key at hk
      exact ⟨r, hm, congrArg Prod.fst hk, congrArg Prod.snd hk⟩
  · rintro ⟨r, hr, h1, h2⟩
    have := lookupBy_isSome_of_mem ProblemTag.key t r hr
    unfold ProblemTag.key at this
    rw [h1, h2] at this
    exact this

theorem tagsOf_append (t u : List ProblemTag) (pid : Int) :
    tagsOf (t ++ u) pid = tagsOf t pid ++ tagsOf u pid := by
  unfold tagsOf
  rw [List.filter_append, List.map_append]

/-- One INSERT of a tag for `pid`: the tag is stored afterwards, nothing else changes. -/
theorem insertIfAbsent_tag (t : List ProblemTag) (pid : Int) (tag : String) (at_ : Time) :
    (∀ x, x ∈ tagsOf (insertIfAbsentBy ProblemTag.key t
        { ProblemID := pid, Tag := tag, AddedAt := at_ }) pid ↔ x = tag ∨ x ∈ tagsOf t pid) ∧
    ((tagsOf t pid).Nodup → (tagsOf (insertIfAbsentBy ProblemTag.key t
        { ProblemID := pid, Tag := tag, AddedAt := at_ }) pid).Nodup) ∧
    (∀ q, q ≠ pid → tagsOf (insertIfAbsentBy ProblemTag.key t
        { ProblemID := pid, Tag := tag, AddedAt := at_ }) q = tagsOf t q) := by
  unfold insertIfAbsentBy
  have hkey : ProblemTag.key { ProblemID := pid, Tag := tag, AddedAt := at_ } = (pid, tag) := rfl
  rw [hkey]
  by_cases h : (lookupBy ProblemTag.key t (pid, tag)).isSome = true
  · rw [if_pos h]
    have hm := (lookup_isSome_iff_mem_tagsOf t pid tag).1 h
    refine ⟨fun x => ⟨fun hx => Or.inr hx, fun hx => ?_⟩, fun hn => hn, fun q _ => rfl⟩
    rcases hx with rfl | hx
    · exact hm
    · exact hx
  · rw [if_neg h]
    have hm : tag ∉ tagsOf t pid := fun hc => h ((lookup_isSome_iff_mem_tagsOf t pid tag).2 hc)
    have h1 : tagsOf [({ ProblemID := pid, Tag := tag, AddedAt := at_ } : ProblemTag)] pid
        = [tag] := by
      unfold tagsOf; simp
    refine ⟨fun x => ?_, fun hn => ?_, fun q hq => ?_⟩
    · rw [tagsOf_append, h1, List.mem_append, List.mem_singleton]
      exact or_comm
    · rw [tagsOf_append, h1]
      exact List.Nodup.append hn (List.nodup_singleton _) (by
        intro a ha hb
        rw [List.mem_singleton] at hb
        exact hm (hb ▸ ha))
    · rw [tagsOf_append]
      have : tagsOf [({ ProblemID := pid, Tag := tag, AddedAt := at_ } : ProblemTag)] q = [] := by
        unfold tagsOf
        have hne : ¬ pid = q := fun hc => hq hc.symm
        simp [hne]
      rw [this, List.append_nil]

/-- The insert loop, when no INSERT is refused, stores every remaining tag once. -/
theorem insertTags_ok (f : TagFaults) (at_ : Time) (pid : Int) (tags : List String) (i : Nat)
    (t t1 : List ProblemTag) (h : insertTags f at_ pid tags i t = (t1, none)) :
    (∀ x, x ∈ tagsOf t1 pid ↔ x ∈ tags ∨ x ∈ tagsOf t pid) ∧
    ((tagsOf t pid).Nodup → (tagsOf t1 pid).Nodup) ∧
    (∀ q, q ≠ pid → tagsOf t1 q = tagsOf t q) := by
  induction tags generalizing i t with
  | nil =>
    have : t1 = t := (congrArg Prod.fst h).symm
    subst this
    exact ⟨fun x => by simp, fun hn => hn, fun q _ => rfl⟩
  | cons tag rest ih =>
    rw [insertTags] at h
    by_cases hf : f.insert i = true
    · rw [if_pos hf] at h
      exact absurd (congrArg Prod.snd h) (by simp)
    · rw [if_neg hf] at h
      have hi := ih _ _ h
      have hs := insertIfAbsent_tag t pid tag at_
      refine ⟨fun x => ?_, fun hn => hi.2.1 (hs.2.1 hn), fun q hq => ?_⟩
      · rw [hi.1 x, hs.1 x, List.mem_cons]
        constructor
        · rintro (h1 | h1 | h1)
          · exact Or.inl (Or.inr h1)
          · exact Or.inl (Or.inl h1)
          · exact Or.inr h1
        · rintro ((h1 | h1) | h1)
          · exact Or.inr (Or.inl h1)
          · exact Or.inl h1
          · exact Or.inr (Or.inr h1)
      · rw [hi.2.2 q hq, hs.2.2 q hq]

theorem tagsOf_filter_ne (t : List ProblemTag) (pid : Int) :
    tagsOf (t.filter (fun r => decide (r.ProblemID ≠ pid))) pid = [] ∧
    ∀ q, q ≠ pid → tagsOf (t.filter (fun r => decide (r.ProblemID ≠ pid))) q = tagsOf t q := by
  unfold tagsOf
  constructor
  · rw [List.filter_filter]
    simp
  · intro q hq
    rw [List.filter_filter]
    congr 1
    apply List.filter_congr
    intro r _
    by_cases hr : r.ProblemID = q
    · have : r.ProblemID ≠ pid := fun hc => hq (hr ▸ hc)
      simp [hr, this, hq]
    · simp [hr]

/-- Outcomes of `replaceProblemTags`. -/
theorem replaceProblemTags_cases (f : TagFaults) (at_ : Time) (db : DB) (pid : Int)
    (tags : List String) :
    (∃ e, replaceProblemTags f at_ db pid tags = (db, some e)) ∨
    ∃ t1, insertTags f at_ pid tags 0
        (db.problem_tags.filter (fun r => decide (r.ProblemID ≠ pid))) = (t1, none) ∧
      replaceProblemTags f at_ db pid tags = ({ db with problem_tags := t1 }, none) := by
  unfold replaceProblemTags
  by_cases h1 : f.beginx = true
  · rw [if_pos h1]; exact Or.inl ⟨_, rfl⟩
  rw [if_neg h1]
  by_cases h2 : f.delete = true
  · rw [if_pos h2]; exact Or.inl ⟨_, rfl⟩
  rw [if_neg h2]
  dsimp only
  rcases hi : insertTags f at_ pid tags 0
      (db.problem_tags.filter (fun r => decide (r.ProblemID ≠ pid))) with ⟨t1, _ | e⟩
  · dsimp only
    by_cases h3 : f.commit = true
    · rw [if_pos h3]; exact Or.inl ⟨_, rfl⟩
    · rw [if_neg h3]; exact Or.inr ⟨t1, rfl, rfl⟩
  · exact Or.inl ⟨_, rfl⟩

theorem replaceProblemTags_spec (f : TagFaults) (at_ : Time) (db : DB) (pid : Int)
    (tags : List String) :
    (∀ db', replaceProblemTags f at_ db pid tags = (db', none) →
      (∀ x, x ∈ tagsOf db'.problem_tags pid ↔ x ∈ tags) ∧
      (tagsOf db'.problem_tags pid).Nodup ∧
      (tags = [] → tagsOf db'.problem_tags pid = []) ∧
      (∀ q, q ≠ pid → tagsOf db'.problem_tags q = tagsOf db.problem_tags q) ∧
      db'.companies = db.companies ∧ db'.problems = db.problems ∧
      db'.company_problems = db.company_problems) ∧
    (∀ db' e, replaceProblemTags f at_ db pid tags = (db', some e) → db' = db) := by
  constructor
  · intro db' h
    rcases replaceProblemTags_cases f at_ db pid tags with ⟨e, he⟩ | ⟨t1, hi, he⟩
    · rw [he] at h; exact absurd (congrArg Prod.snd h) (by simp)
    · rw [he] at h
      have hdb : db' = { db with problem_tags := t1 } := (congrArg Prod.fst h).symm
      subst hdb
      have hok := insertTags_ok f at_ pid tags 0 _ t1 hi
      have hf := tagsOf_filter_ne db.problem_tags pid
      have hmem : ∀ x, x ∈ tagsOf t1 pid ↔ x ∈ tags := fun x => by
        rw [hok.1 x, hf.1]; simp
      refine ⟨hmem, hok.2.1 (by rw [hf.1]; exact List.nodup_nil), ?_, ?_, rfl, rfl, rfl⟩
      · intro hnil
        apply List.eq_nil_iff_forall_not_mem.2
        intro x hx
        rw [hnil] at hmem
        exact absurd ((hmem x).1 hx) (List.not_mem_nil x)
      · intro q hq
        show tagsOf t1 q = _
        rw [hok.2.2 q hq, hf.2 q hq]
  · intro db' e h
    rcases replaceProblemTags_cases f at_ db pid tags with ⟨e', he⟩ | ⟨t1, hi, he⟩
    · rw [he] at h; exact (congrArg Prod.fst h).symm
    · rw [he] at h; exact absurd (congrArg Prod.snd h) (by simp)

/-! ## The slug of a problem URL -/

theorem cutAt_some (sep : List Char) :
    ∀ (s b a : List Char), cutAt sep s = some (b, a) → s = b ++ sep ++ a
  | [], b, a, h => by
    unfold cutAt at h
    split_ifs at h with h0
    have hb : (([] : List Char), ([] : List Char)) = (b, a) := Option.some.inj h
    rw [← (Prod.mk.inj hb).1, ← (Prod.mk.inj hb).2, h0]
    rfl
  | c :: cs, b, a, h => by
    unfold cutAt at h
    split_ifs at h with hp
    · have hb : (([] : List Char), (c :: cs).drop sep.length) = (b, a) := Option.some.inj h
      rw [← (Prod.mk.inj hb).1, ← (Prod.mk.inj hb).2]
      have := List.prefix_iff_eq_append.1 (List.isPrefixOf_iff_prefix.1 hp)
      rw [List.nil_append]
      exact this.symm
    · cases hc : cutAt sep cs with
      | none => rw [hc] at h; simp at h
      | some p =>
        rw [hc] at h
        have hb : (c :: p.1, p.2) = (b, a) := Option.some.inj h
        have ih := cutAt_some sep cs p.1 p.2 (by rw [hc])
        rw [← (Prod.mk.inj hb).1, ← (Prod.mk.inj hb).2, ih]
        simp

theorem cutAt_none_of_not_infix (sep s : List Char) (h : ¬ sep <:+: s) : cutAt sep s = none := by
  cases hc : cutAt sep s with
  | none => rfl
  | some p =>
    exfalso
    apply h
    have := cutAt_some sep s p.1 p.2 (by rw [hc])
    exact ⟨p.1, p.2, this.symm⟩

/-- The cut is at the first occurrence. -/
theorem cutAt_first (sep : List Char) (hsep : sep ≠ []) :
    ∀ (pre rest : List Char),
      (∀ p q, pre ++ sep ++ rest = p ++ sep ++ q → pre.length ≤ p.length) →
      cutAt sep (pre ++ sep ++ rest) = some (pre, rest)
  | [], rest, _ => by
    obtain ⟨c, cs, hcs⟩ := List.exists_cons_of_ne_nil hsep
    have hp : sep.isPrefixOf (sep ++ rest) = true :=
      List.isPrefixOf_iff_prefix.2 (List.prefix_append sep rest)
    rw [List.nil_append]
    have hne : sep ++ rest = c :: (cs ++ rest) := by rw [hcs]; rfl
    rw [hne] at hp ⊢
    unfold cutAt
    rw [if_pos hp, ← hne, List.drop_left]
  | c :: pre, rest, hfirst => by
    have hnp : ¬ sep.isPrefixOf (c :: (pre ++ sep ++ rest)) = true := by
      intro hp
      have hpre := List.prefix_iff_eq_append.1 (List.isPrefixOf_iff_prefix.1 hp)
      have := hfirst [] ((c :: (pre ++ sep ++ rest)).drop sep.length) (by
        rw [List.nil_append, hpre]; simp)
      simp at this
    have ih := cutAt_first sep hsep pre rest (fun p q hpq => by
      have := hfirst (c :: p) q (by simp only [List.cons_append, hpq])
      simpa using this)
    show cutAt sep (c :: (pre ++ sep ++ rest)) = _
    unfold cutAt
    rw [if_neg hnp, ih]
    rfl

theorem firstPiece_singleton (c : Char) (s : List Char) :
    firstPiece [c] s = s.takeWhile (fun x => x != c) := by
  unfold firstPiece
  induction s with
  | nil => rfl
  | cons x xs ih =>
    unfold cutAt
    by_cases hx : x = c
    · subst hx
      simp [List.isPrefixOf]
    · have hx2 : (c == x) = false := by simpa using fun h => hx h.symm
      have hp : List.isPrefixOf [c] (x :: xs) = false := by simp [List.isPrefixOf, hx2]
      rw [hp]
      simp only [Bool.false_eq_true, if_false]
      have hne : (x != c) = true := by simpa using hx
      rw [List.takeWhile_cons, if_pos hne]
      cases hc : cutAt [c] xs with
      | none => rw [hc] at ih; simp [← ih]
      | some p => rw [hc] at ih; simp [← ih]

theorem splitUpTo_of_none (sep : List Char) (n : Nat) (s : List Char) (h : cutAt sep s = none) :
    splitUpTo sep n s = [s] := by
  cases n with
  | zero => rfl
  | succ n => unfold splitUpTo; rw [h]

theorem splitUpTo_head (sep : List Char) (n : Nat) (s : List Char) :
    (splitUpTo sep (n + 1) s).head? = some (firstPiece sep s) := by
  unfold splitUpTo firstPiece
  cases cutAt sep s with
  | none => rfl
  | some p => rfl

/-- First piece of `SplitN(s, c, 2)` for a one-character separator. -/
theorem SplitN_two_head (s : String) (c : Char) :
    (SplitN s (String.mk [c]) 2).getD 0 "" = String.mk (s.data.takeWhile (fun x => x != c)) := by
  unfold SplitN
  rw [if_neg (by decide)]
  cases hs : s.data with
  | nil => rfl
  | cons x xs =>
    have hn : min 2 ((x :: xs).length + 1) - 1 = 0 + 1 := by
      rw [List.length_cons]; omega
    rw [hn]
    have hh := splitUpTo_head [c] 0 (x :: xs)
    rw [firstPiece_singleton] at hh
    show ((splitUpTo [c] (0 + 1) (x :: xs)).map String.mk).getD 0 "" = _
    cases hsp : splitUpTo [c] (0 + 1) (x :: xs) with
    | nil => rw [hsp] at hh; simp at hh
    | cons y ys =>
      rw [hsp] at hh
      have : y = (x :: xs).takeWhile (fun x => x != c) := by simpa using hh
      rw [this]
      rfl

theorem takeWhile_append_stop {A : Type} (p : A → Bool) (b : List A) (y : A) (x : List A)
    (hy : p y = false) : (b ++ y :: x).takeWhile p = b.takeWhile p := by
  induction b with
  | nil => simp [List.takeWhile_cons, hy]
  | cons z b ih =>
    rw [List.cons_append, List.takeWhile_cons, List.takeWhile_cons, ih]

theorem takeWhile_takeWhile {A : Type} (p q : A → Bool) (l : List A) :
    (l.takeWhile p).takeWhile q = l.takeWhile (fun x => p x && q x) := by
  induction l with
  | nil => rfl
  | cons x l ih =>
    rw [List.takeWhile_cons, List.takeWhile_cons]
    by_cases hp : p x = true
    · by_cases hq : q x = true
      · simp [hp, hq, List.takeWhile_cons, ih]
      · simp [hp, hq, List.takeWhile_cons]
    · simp [hp]

theorem mem_trimSpaceChars (l : List Char) (c : Char) (h : c ∈ trimSpaceChars l) : c ∈ l := by
  unfold trimSpaceChars at h
  rw [List.mem_reverse] at h
  have h2 := (List.dropWhile_suffix isSpace).subset h
  rw [List.mem_reverse] at h2
  exact (List.dropWhile_suffix isSpace).subset h2


theorem cutAt_is_first (sep : List Char) :
    ∀ (s b a : List Char), cutAt sep s = some (b, a) →
      ∀ p q, s = p ++ sep ++ q → b.length ≤ p.length
  | [], b, a, h, p, q, _ => by
    unfold cutAt at h
    split_ifs at h
    have hb : (([] : List Char), ([] : List Char)) = (b, a) := Option.some.inj h
    rw [← (Prod.mk.inj hb).1]
    exact Nat.zero_le _
  | c :: cs, b, a, h, p, q, hpq => by
    unfold cutAt at h
    split_ifs at h with hp
    · have hb : (([] : List Char), (c :: cs).drop sep.length) = (b, a) := Option.some.inj h
      rw [← (Prod.mk.inj hb).1]
      exact Nat.zero_le _
    · cases hc : cutAt sep cs with
      | none => rw [hc] at h; simp at h
      | some r =>
        rw [hc] at h
        have hb : (c :: r.1, r.2) = (b, a) := Option.some.inj h
        rw [← (Prod.mk.inj hb).1]
        cases p with
        | nil =>
          exfalso
          apply hp
          rw [List.isPrefixOf_iff_prefix, hpq, List.nil_append]
          exact List.prefix_append sep q
        | cons x p =>
          have hcs : cs = p ++ sep ++ q := by
            have := hpq
            simp only [List.cons_append] at this
            exact (List.cons.inj this).2
          have := cutAt_is_first sep cs r.1 r.2 (by rw [hc]) p q hcs
          simp only [List.length_cons]
          omega

theorem firstPiece_takeWhile_slash (rest : List Char) :
    (firstPiece "/problems/".data rest).takeWhile (fun x => x != '/')
      = rest.takeWhile (fun x => x != '/') := by
  unfold firstPiece
  cases hc : cutAt "/problems/".data rest with
  | none => rfl
  | some p =>
    have h := cutAt_some _ rest p.1 p.2 (by rw [hc])
    have hsep : "/problems/".data = '/' :: "problems/".data := rfl
    show p.1.takeWhile _ = _
    rw [h, hsep, List.append_assoc, List.cons_append]
    exact (takeWhile_append_stop _ p.1 '/' _ (by decide)).symm

/-- What `extractSlug` computes, in terms of the first occurrence of `/problems/`. -/
theorem extractSlug_eq (url : String) :
    extractSlug url =
      match cutAt "/problems/".data url.data with
      | none => ""
      | some (_, rest) => String.mk (trimSpaceChars (rest.takeWhile slugChar)) := by
  by_cases hurl : url = ""
  · subst hurl; rfl
  unfold extractSlug
  rw [if_neg hurl]
  dsimp only
  unfold Split
  cases hc : cutAt "/problems/".data url.data with
  | none =>
    rw [splitUpTo_of_none _ _ _ hc]
    rfl
  | some p =>
    obtain ⟨pre, rest⟩ := p
    have hurld := cutAt_some _ url.data pre rest hc
    have hlen : url.data.length = (pre.length + rest.length + 8) + 2 := by
      have h10 : "/problems/".data.length = 10 := rfl
      rw [hurld, List.length_append, List.length_append, h10]
      omega
    rw [hlen]
    have hsplit : splitUpTo "/problems/".data ((pre.length + rest.length + 8) + 2) url.data
        = pre :: splitUpTo "/problems/".data ((pre.length + rest.length + 8) + 1) rest := by
      rw [splitUpTo, hc]
    rw [hsplit]
    have hhead := splitUpTo_head "/problems/".data (pre.length + rest.length + 8) rest
    cases hsp : splitUpTo "/problems/".data ((pre.length + rest.length + 8) + 1) rest with
    | nil => rw [hsp] at hhead; simp at hhead
    | cons y ys =>
      rw [hsp] at hhead
      have hy : y = firstPiece "/problems/".data rest := by simpa using hhead
      have hl : ¬ (List.map String.mk (pre :: y :: ys)).length < 2 := by simp
      rw [if_neg hl]
      have h1 : (List.map String.mk (pre :: y :: ys)).getD 1 "" = String.mk y := rfl
      rw [h1]
      have e1 := SplitN_two_head (String.mk y) '/'
      have e2 := SplitN_two_head (String.mk (y.takeWhile (fun x => x != '/'))) '?'
      have e3 := SplitN_two_head
        (String.mk ((y.takeWhile (fun x => x != '/')).takeWhile (fun x => x != '?'))) '#'
      have s1 : (String.mk ['/'] : String) = "/" := rfl
      have s2 : (String.mk ['?'] : String) = "?" := rfl
      have s3 : (String.mk ['#'] : String) = "#" := rfl
      rw [s1] at e1
      rw [s2] at e2
      rw [s3] at e3
      rw [e1]
      dsimp only at e2 e3 ⊢
      rw [e2, e3]
      show TrimSpace (String.mk _) = _
      unfold TrimSpace
      dsimp only
      rw [hy, firstPiece_takeWhile_slash, takeWhile_takeWhile, takeWhile_takeWhile]
      have hpred : (fun x : Char => x != '/' && (x != '?' && x != '#')) = slugChar := by
        funext x
        unfold slugChar
        rw [Bool.and_assoc]
      rw [hpred]


theorem extractSlug_chars (url : String) (c : Char) (h : c ∈ (extractSlug url).data) :
    c ≠ '/' ∧ c ≠ '?' ∧ c ≠ '#' := by
  rw [extractSlug_eq] at h
  cases hc : cutAt "/problems/".data url.data with
  | none => rw [hc] at h; simp at h
  | some p =>
    rw [hc] at h
    have h1 : c ∈ p.2.takeWhile slugChar := mem_trimSpaceChars _ c h
    have h2 := List.mem_takeWhile_imp h1
    unfold slugChar at h2
    simp only [Bool.and_eq_true, bne_iff_ne, ne_eq] at h2
    exact ⟨h2.1.1, h2.1.2, h2.2⟩

/-- C15: `extractSlug` returns the empty string for the empty URL and for a URL without
`/problems/`; otherwise it returns the text that follows the first occurrence of
`/problems/`, up to and excluding the first `/`, `?` or `#`, with the white space around
it trimmed.  The result never contains `/`, `?` or `#`, and the URL
`https://leetcode.com/problems/word-search` yields `word-search`. -/
theorem extractSlug_spec (url : String) :
    (url = "" → extractSlug url = "") ∧
    (¬ "/problems/".data <:+: url.data → extractSlug url = "") ∧
    (∀ pre rest, url.data = pre ++ "/problems/".data ++ rest →
      (∀ p q, url.data = p ++ "/problems/".data ++ q → pre.length ≤ p.length) →
      extractSlug url = String.mk (trimSpaceChars (rest.takeWhile slugChar))) ∧
    (∀ c ∈ (extractSlug url).data, c ≠ '/' ∧ c ≠ '?' ∧ c ≠ '#') ∧
    extractSlug "https://leetcode.com/problems/word-search" = "word-search" := by
  refine ⟨fun h => by rw [h]; rfl, fun h => ?_, fun pre rest hurl hfirst => ?_,
    fun c hc => extractSlug_chars url c hc, by decide⟩
  · rw [extractSlug_eq, cutAt_none_of_not_infix _ _ h]
  · rw [extractSlug_eq, hurl,
      cutAt_first "/problems/".data (by decide) pre rest (fun p q hpq => hfirst p q (hurl ▸ hpq))]

theorem extractSlug_spec_witness :
    extractSlug "https://leetcode.com/problemset/all" = "" ∧
    extractSlug "https://leetcode.com/problems/two-sum/description/?x=1"
      = String.mk (trimSpaceChars ("two-sum/description/?x=1".data.takeWhile slugChar)) :=
  ⟨(extractSlug_spec "https://leetcode.com/problemset/all").2.1 (by decide),
   (extractSlug_spec "https://leetcode.com/problems/two-sum/description/?x=1").2.2.1
     "https://leetcode.com".data "two-sum/description/?x=1".data rfl
     (cutAt_is_first "/problems/".data
       "https://leetcode.com/problems/two-sum/description/?x=1".data
       "https://leetcode.com".data "two-sum/description/?x=1".data (by decide))⟩

/-! ## Batches and aliases -/

theorem take_drop_append_drop {A : Type} (l : List A) (i j : Nat) (hij : i ≤ j) :
    (l.take j).drop i ++ l.drop j = l.drop i := by
  by_cases hj : j ≤ l.length
  · have hlen : i ≤ (l.take j).length := by rw [List.length_take]; omega
    rw [← List.drop_append_of_le_length hlen, List.take_append_drop]
  · have h1 : l.take j = l := List.take_of_length_le (by omega)
    have h2 : l.drop j = [] := List.drop_of_length_le (by omega)
    rw [h1, h2, List.append_nil]

/-- The loop returns within `fuel` turns as soon as `fuel` covers what is left, and its
batches are the consecutive slices of at most `batchSize` items. -/
theorem batchLoop_from (items : List pslug) (fuel i : Nat) (h : items.length - i ≤ fuel) :
    ∃ bs, batchLoop items fuel i = some bs ∧ bs.flatten = items.drop i ∧
      (∀ b ∈ bs, 1 ≤ b.length ∧ b.length ≤ batchSize) ∧
      (∀ k, k < bs.length →
        bs.getD k [] =
          (items.take (min (i + (k + 1) * batchSize) items.length)).drop (i + k * batchSize)) := by
  induction fuel generalizing i with
  | zero =>
    have hi : ¬ i < items.length := by omega
    refine ⟨[], by unfold batchLoop; rw [if_neg hi], ?_, ?_, ?_⟩
    · rw [List.drop_of_length_le (by omega)]; rfl
    · intro b hb; exact absurd hb (List.not_mem_nil b)
    · intro k hk; exact absurd hk (by simp)
  | succ fuel ih =>
    by_cases hi : i < items.length
    · obtain ⟨bs, hbs, hjoin, hsize, hkth⟩ := ih (i + batchSize) (by unfold batchSize; omega)
      have hj : (if i + batchSize > items.length then items.length else i + batchSize)
          = min (i + batchSize) items.length := by
        split_ifs with hgt
        · exact (min_eq_right (by omega)).symm
        · exact (min_eq_left (by omega)).symm
      refine ⟨(items.take (min (i + batchSize) items.length)).drop i :: bs, ?_, ?_, ?_, ?_⟩
      · unfold batchLoop
        rw [if_pos hi]
        dsimp only
        rw [hbs, hj]
        rfl
      · rw [List.flatten_cons, hjoin]
        by_cases hle : i + batchSize ≤ items.length
        · rw [min_eq_left hle]
          exact take_drop_append_drop items i (i + batchSize) (by omega)
        · rw [min_eq_right (by omega), List.take_length,
            List.drop_of_length_le (by omega : items.length ≤ i + batchSize), List.append_nil]
      · intro b hb
        rcases List.mem_cons.1 hb with h1 | h1
        · rw [h1, List.length_drop, List.length_take]
          unfold batchSize
          omega
        · exact hsize b h1
      · intro k hk
        cases k with
        | zero => simp
        | succ k =>
          have := hkth k (by simpa using hk)
          rw [List.getD_cons_succ, this]
          have e1 : i + batchSize + (k + 1) * batchSize = i + (k + 1 + 1) * batchSize := by ring
          have e2 : i + batchSize + k * batchSize = i + (k + 1) * batchSize := by ring
          rw [e1, e2]
    · refine ⟨[], by unfold batchLoop; rw [if_neg hi], ?_, ?_, ?_⟩
      · rw [List.drop_of_length_le (by omega)]; rfl
      · intro b hb; exact absurd hb (List.not_mem_nil b)
      · intro k hk; exact absurd hk (by simp)

/-- More fuel does not change what the loop returns. -/
theorem batchLoop_mono (items : List pslug) (fuel i : Nat) (bs : List (List pslug))
    (h : batchLoop items fuel i = some bs) : batchLoop items (fuel + 1) i = some bs := by
  induction fuel generalizing i bs with
  | zero =>
    by_cases hi : i < items.length
    · rw [batchLoop, if_pos hi] at h
      exact absurd h (by simp)
    · rw [batchLoop, if_neg hi] at h
      rw [batchLoop, if_neg hi, h]
  | succ fuel ih =>
    by_cases hi : i < items.length
    · rw [batchLoop, if_pos hi] at h
      rw [batchLoop, if_pos hi]
      cases hr : batchLoop items fuel (i + batchSize) with
      | none => rw [hr] at h; exact absurd h (by simp)
      | some bs' =>
        rw [hr] at h
        rw [ih _ _ hr]
        exact h
    · rw [batchLoop, if_neg hi] at h
      rw [batchLoop, if_neg hi, h]

theorem writeSubQueries_eq (quote : String → String) (batch : List pslug) (i : Nat)
    (sb : String) :
    writeSubQueries quote batch i sb = sb ++ concatAll (subQueries quote batch i) := by
  induction batch generalizing i sb with
  | nil => simp [writeSubQueries, subQueries, concatAll]
  | cons p ps ih =>
    rw [writeSubQueries, subQueries, concatAll, ih]
    unfold subQuery queryAlias
    have hq : ("  q" : String) = "  " ++ "q" := by decide
    rw [hq]
    simp only [String.append_assoc]

theorem length_subQueries (quote : String → String) (batch : List pslug) (i : Nat) :
    (subQueries quote batch i).length = batch.length := by
  induction batch generalizing i with
  | nil => rfl
  | cons p ps ih => rw [subQueries, List.length_cons, List.length_cons, ih]

theorem getD_subQueries (quote : String → String) (batch : List pslug) (i k : Nat)
    (hk : k < batch.length) :
    (subQueries quote batch i).getD k "" =
      subQuery quote (queryAlias (i + k)) (batch.getD k { ID := 0, Slug := "" }) := by
  induction batch generalizing i k with
  | nil => exact absurd hk (by simp)
  | cons p ps ih =>
    rw [subQueries]
    cases k with
    | zero => rfl
    | succ k =>
      rw [List.getD_cons_succ, List.getD_cons_succ, ih (i + 1) k (by simpa using hk)]
      have : i + 1 + k = i + (k + 1) := by omega
      rw [this]

theorem buildBatchQuery_eq (quote : String → String) (batch : List pslug) :
    buildBatchQuery quote batch
      = "query \x7b\n" ++ concatAll (subQueries quote batch 0) ++ "\x7d\n" := by
  unfold buildBatchQuery
  dsimp only
  rw [writeSubQueries_eq]
  simp

theorem batchLoop_mono_le (items : List pslug) (fuel fuel' i : Nat) (bs : List (List pslug))
    (hle : fuel ≤ fuel') (h : batchLoop items fuel i = some bs) :
    batchLoop items fuel' i = some bs := by
  induction fuel' with
  | zero =>
    have : fuel = 0 := by omega
    subst this
    exact h
  | succ n ih =>
    by_cases hn : fuel = n + 1
    · subst hn; exact h
    · exact batchLoop_mono items n i bs (ih (by omega))

theorem splitUpTo_stable (sep : List Char) (hsep : sep ≠ []) (n : Nat) (s : List Char)
    (h : s.length ≤ n) : splitUpTo sep (n + 1) s = splitUpTo sep n s := by
  induction n generalizing s with
  | zero =>
    have hs : s = [] := List.eq_nil_of_length_eq_zero (by omega)
    subst hs
    unfold splitUpTo cutAt
    rw [if_neg hsep]
  | succ n ih =>
    rw [splitUpTo, splitUpTo]
    cases hc : cutAt sep s with
    | none => rfl
    | some p =>
      obtain ⟨b, a⟩ := p
      have hs := cutAt_some sep s b a hc
      have hlen : a.length ≤ n := by
        have h1 : s.length = b.length + sep.length + a.length := by
          rw [hs, List.length_append, List.length_append]
        have h2 : 0 < sep.length := List.length_pos.2 hsep
        omega
      dsimp only
      rw [ih a hlen]

theorem insertTags_none (addedAt : Time) (pid : Int) (tags : List String) (i : Nat)
    (t : List ProblemTag) : (insertTags TagFaults.none addedAt pid tags i t).2 = none := by
  induction tags generalizing i t with
  | nil => rfl
  | cons tag rest ih =>
    rw [insertTags]
    have : TagFaults.none.insert i = false := rfl
    rw [this]
    exact ih _ _

theorem replaceProblemTags_none (addedAt : Time) (db : DB) (pid : Int) (tags : List String) :
    (replaceProblemTags TagFaults.none addedAt db pid tags).2 = none := by
  rcases replaceProblemTags_cases TagFaults.none addedAt db pid tags with ⟨e, he⟩ | ⟨t1, _, he⟩
  · exfalso
    have hi := insertTags_none addedAt pid tags 0
      (db.problem_tags.filter (fun r => decide (r.ProblemID ≠ pid)))
    unfold replaceProblemTags at he
    have h1 : TagFaults.none.beginx = false := rfl
    have h2 : TagFaults.none.delete = false := rfl
    have h3 : TagFaults.none.commit = false := rfl
    rw [h1, h2, h3] at he
    simp only [Bool.false_eq_true, if_false] at he
    rcases hr : insertTags TagFaults.none addedAt pid tags 0
        (db.problem_tags.filter (fun r => decide (r.ProblemID ≠ pid))) with ⟨t1, _ | e1⟩
    · rw [hr] at he
      exact absurd (congrArg Prod.snd he) (by simp)
    · rw [hr] at hi
      exact absurd hi (by simp)
  · rw [he]

/-! ## Claims on the tag pass -/

/-- C14: a successful `replaceProblemTags` leaves the stored tags of the problem equal,
as a set, to the supplied tags, each stored once (none for an empty list), and leaves the
tags of every other problem and the other tables as they were; a call that returns an
error, at whatever step, leaves the store as it was; and a call in which the store
refuses nothing succeeds. -/
theorem replace_problem_tags (f : TagFaults) (addedAt : Time) (db : DB) (pid : Int)
    (tags : List String) :
    (∀ db', replaceProblemTags f addedAt db pid tags = (db', none) →
      (∀ x, x ∈ tagsOf db'.problem_tags pid ↔ x ∈ tags) ∧
      (tagsOf db'.problem_tags pid).Nodup ∧
      (tags = [] → tagsOf db'.problem_tags pid = []) ∧
      (∀ q, q ≠ pid → tagsOf db'.problem_tags q = tagsOf db.problem_tags q) ∧
      db'.companies = db.companies ∧ db'.problems = db.problems ∧
      db'.company_problems = db.company_problems) ∧
    (∀ db' e, replaceProblemTags f addedAt db pid tags = (db', some e) → db' = db) ∧
    (replaceProblemTags TagFaults.none addedAt db pid tags).2 = none :=
  ⟨(replaceProblemTags_spec f addedAt db pid tags).1,
   (replaceProblemTags_spec f addedAt db pid tags).2,
   replaceProblemTags_none addedAt db pid tags⟩

theorem replace_problem_tags_witness :
    tagsOf (replaceProblemTags TagFaults.none 8 sampleTagStore 9 []).1.problem_tags 9 = [] ∧
    tagsOf (replaceProblemTags TagFaults.none 8 sampleTagStore 9 []).1.problem_tags 4
      = ["graph"] :=
  ⟨((replace_problem_tags TagFaults.none 8 sampleTagStore 9 []).1 _ rfl).2.2.1 rfl,
   (((replace_problem_tags TagFaults.none 8 sampleTagStore 9 []).1 _ rfl).2.2.2.1 4
      (by decide)).trans (by decide)⟩

/-- C16: the batching loop of the tag pass terminates, whatever fuel covers the list, and
its batches are the consecutive slices `items[k*40 : min((k+1)*40, total)]`, each of
1 to 40 items, whose concatenation in order is the whole list, so that every item is in
exactly one batch; and for a batch, `buildBatchQuery` writes `query {`, then one
sub-query per item in batch order, the one for the item at index `k` under the alias
`q<k>` under which the response for that item is looked up, then `}`. -/
theorem batches_and_aliases (items : List pslug) :
    (∃ bs, batchLoop items items.length 0 = some bs ∧
      (∀ fuel, items.length ≤ fuel → batchLoop items fuel 0 = some bs) ∧
      bs.flatten = items ∧
      (∀ b ∈ bs, 1 ≤ b.length ∧ b.length ≤ batchSize) ∧
      (∀ k, k < bs.length →
        bs.getD k [] =
          (items.take (min ((k + 1) * batchSize) items.length)).drop (k * batchSize))) ∧
    (∀ (quote : String → String) (batch : List pslug),
      buildBatchQuery quote batch
        = "query \x7b\n" ++ concatAll (subQueries quote batch 0) ++ "\x7d\n" ∧
      (subQueries quote batch 0).length = batch.length ∧
      (∀ k, k < batch.length →
        (subQueries quote batch 0).getD k "" =
          subQuery quote (queryAlias k) (batch.getD k { ID := 0, Slug := "" }))) ∧
    (∀ faults addedAt data p ps idx db,
      applyResponse faults addedAt data (p :: ps) idx db =
        applyResponse faults addedAt data ps (idx + 1)
          (match data.get? (queryAlias idx) with
            | none => db
            | some entry =>
              if entry.QuestionId = "" then db
              else (replaceProblemTags (faults idx) addedAt db p.ID (collectTags entry)).1)) := by
  refine ⟨?_, fun quote batch => ⟨buildBatchQuery_eq quote batch, length_subQueries quote batch 0,
    fun k hk => ?_⟩, ?_⟩
  · obtain ⟨bs, h1, h2, h3, h4⟩ := batchLoop_from items items.length 0 (by omega)
    refine ⟨bs, h1, fun fuel hf => batchLoop_mono_le items _ fuel 0 bs hf h1, ?_, h3, ?_⟩
    · rw [h2]; rfl
    · intro k hk
      have := h4 k hk
      simpa using this
  · have := getD_subQueries quote batch 0 k hk
    simpa using this
  · intro faults addedAt data p ps idx db
    rw [applyResponse]
    cases data.get? (queryAlias idx) with
    | none => rfl
    | some entry =>
      dsimp only
      split_ifs <;> rfl

theorem batches_and_aliases_witness :
    (batchLoop (sampleItems 85) 85 0).map (fun bs => bs.map List.length) = some [40, 40, 5] ∧
    (subQueries sampleQuote [{ ID := 1, Slug := "two-sum" }, { ID := 2, Slug := "lru" }] 0).getD 1 ""
      = subQuery sampleQuote "q1" { ID := 2, Slug := "lru" } := by
  have h := batches_and_aliases (sampleItems 85)
  exact ⟨by decide,
    ((h.2.1 sampleQuote [{ ID := 1, Slug := "two-sum" }, { ID := 2, Slug := "lru" }]).2.2 1
      (by decide)).trans (by decide)⟩

end Merger
